import Mathlib

/-!
# PathTracingOneWeekendPlus: geometric kernel, surfaces, wrappers and integrator

A shallow embedding of `vec3.h`, `onb.h`, `hittable.h`, `sphere.h`, `quad.h` and
`camera.h`.

Numbers.  The sources compute in `double`.  The embedding reads every `double`
as an element of an arbitrary linearly ordered field `α` (exact arithmetic, no
rounding), so every definition below is computable and can be run on `ℚ`.
A `double` that may hold `+infinity` or `-infinity` (interval end points, the
running extrema of `rotate_y`) is an `xdouble α`.  Functions of `<cmath>` and
the constants of `rtweekend.h` are not among the sources: they are the fields
of the parameter `rtweekend α`, and the only fact assumed about them is the
one a theorem names in its hypotheses (`sqrt_ok` for `std::sqrt`).

Division.  Field division is total (`x / 0 = 0`) while IEEE division by zero
yields an infinity or a NaN.  Wherever a theorem depends on a quotient its
hypotheses, or a guard of the code, make the divisor non-zero; the one place
where the code itself reaches `0 / 0` on a well-formed input (`sphere::hit`
on a ray of zero direction) is modelled explicitly.
-/

namespace PathTracing

/-! ## Numeric environment -/

/-- A `double` that may also be `-infinity` (`⊥`) or `+infinity` (`⊤`). -/
abbrev xdouble (α : Type) := WithBot (WithTop α)

/-- The finite value `x` as an `xdouble`. -/
def xdouble.fin {α : Type} (x : α) : xdouble α := ((x : WithTop α) : WithBot (WithTop α))

/-- The constant `infinity` of `rtweekend.h`. -/
def infinity {α : Type} : xdouble α := ((⊤ : WithTop α) : WithBot (WithTop α))

/-- The library functions and constants the sources use but do not define
(`<cmath>` and `rtweekend.h`), taken as parameters. -/
structure rtweekend (α : Type) where
  sqrt : α → α
  sin : α → α
  cos : α → α
  tan : α → α
  acos : α → α
  atan2 : α → α → α
  pi : α
  degrees_to_radians : α → α

/-- What is assumed of `std::sqrt`: on a non-negative argument it returns the
non-negative square root.  Nothing is assumed on negative arguments. -/
def rtweekend.sqrt_ok {α : Type} [LinearOrderedField α] (m : rtweekend α) : Prop :=
  ∀ x : α, 0 ≤ x → 0 ≤ m.sqrt x ∧ m.sqrt x * m.sqrt x = x

/-! ## vec3.h -/

/-- The class `vec3`: `e[0]`, `e[1]`, `e[2]` read through `x()`, `y()`, `z()`. -/
@[ext] structure vec3 (α : Type) where
  x : α
  y : α
  z : α
deriving DecidableEq, Repr

/-- The alias `point3`. -/
abbrev point3 (α : Type) := vec3 α

/-- The alias `color`. -/
abbrev color (α : Type) := vec3 α

namespace vec3

variable {α : Type}

/-- The read access `operator[](int i)`, for `i` among 0, 1, 2. -/
def get (v : vec3 α) (i : Nat) : α :=
  if i = 0 then v.x else if i = 1 then v.y else v.z

/-- The write access `operator[](int i)`, for `i` among 0, 1, 2. -/
def set (v : vec3 α) (i : Nat) (a : α) : vec3 α :=
  if i = 0 then { v with x := a } else if i = 1 then { v with y := a } else { v with z := a }

variable [LinearOrderedField α]

/-- Unary `operator-`. -/
instance : Neg (vec3 α) := ⟨fun v => ⟨-v.x, -v.y, -v.z⟩⟩

/-- Binary `operator+` of two vectors. -/
instance : Add (vec3 α) := ⟨fun u v => ⟨u.x + v.x, u.y + v.y, u.z + v.z⟩⟩

/-- Binary `operator-` of two vectors. -/
instance : Sub (vec3 α) := ⟨fun u v => ⟨u.x - v.x, u.y - v.y, u.z - v.z⟩⟩

/-- Component-wise `operator*` of two vectors. -/
instance : Mul (vec3 α) := ⟨fun u v => ⟨u.x * v.x, u.y * v.y, u.z * v.z⟩⟩

/-- Scaling `operator*(double t, const vec3& v)`. -/
instance : HMul α (vec3 α) (vec3 α) := ⟨fun t v => ⟨t * v.x, t * v.y, t * v.z⟩⟩

/-- Scaling `operator*(const vec3& v, double t)`, which returns `t * v`. -/
instance : HMul (vec3 α) α (vec3 α) := ⟨fun v t => t * v⟩

/-- Division `operator/(const vec3& v, double t)`, which returns `(1 / t) * v`. -/
instance : HDiv (vec3 α) α (vec3 α) := ⟨fun v t => (1 / t) * v⟩


/-- The member `length_squared`. -/
def length_squared (v : vec3 α) : α := v.x * v.x + v.y * v.y + v.z * v.z

/-- The member `length`: `std::sqrt` of the sum of squares. -/
def length (m : rtweekend α) (v : vec3 α) : α := m.sqrt (v.x * v.x + v.y * v.y + v.z * v.z)

end vec3

variable {α : Type} [LinearOrderedField α]

/-- The function `dot`. -/
def dot (u v : vec3 α) : α := u.x * v.x + u.y * v.y + u.z * v.z

/-- The function `cross`. -/
def cross (u v : vec3 α) : vec3 α :=
  ⟨u.y * v.z - u.z * v.y, u.z * v.x - u.x * v.z, u.x * v.y - u.y * v.x⟩

/-- The function `unit_vector`: `v / v.length()`. -/
def unit_vector (m : rtweekend α) (v : vec3 α) : vec3 α := v / v.length m

/-- The function `reflect`. -/
def reflect (v n : vec3 α) : vec3 α := v - 2 * dot v n * n

/-- The function `refract`. -/
def refract (m : rtweekend α) (v n : vec3 α) (etai_over_etar : α) : vec3 α :=
  let vdotn := min (dot v n) 1.0
  let refracted_perp := etai_over_etar * (v - vdotn * n)
  let refracted_parallel := (-m.sqrt |1.0 - refracted_perp.length_squared|) * n
  refracted_perp + refracted_parallel


/-! ## onb.h -/

/-- The class `onb`: the array `basis[3]`, read through `u()`, `v()`, `w()`. -/
structure onb (α : Type) where
  u : vec3 α
  v : vec3 α
  w : vec3 α

/-- The helper axis `a` the constructor of `onb` picks for the third axis `w`. -/
def onb.helper (w : vec3 α) : vec3 α :=
  if |w.x| > 0.9 then ⟨0, 1, 0⟩ else ⟨1, 0, 0⟩

/-- The constructor `onb(n)`. -/
def onb.new (m : rtweekend α) (n : vec3 α) : onb α :=
  let basis2 := unit_vector m n
  let a := onb.helper basis2
  let basis1 := unit_vector m (cross basis2 a)
  let basis0 := cross basis2 basis1
  ⟨basis0, basis1, basis2⟩

/-- The member `onb::transform`. -/
def onb.transform (b : onb α) (v : vec3 α) : vec3 α :=
  (v.get 0 * b.u) + (v.get 1 * b.v) + (v.get 2 * b.w)


/-! ## Rays, intervals and boxes (`ray.h`, `interval.h`, `aabb.h`) -/

/-- Modelled from the spec: `ray.h` is not among the sources.  A ray is an
origin and a direction. -/
structure ray (α : Type) where
  origin : vec3 α
  direction : vec3 α

/-- Modelled from the spec: the member `ray::at` of the missing `ray.h`,
`at(t) = origin + t·direction`. -/
def ray.at' (r : ray α) (t : α) : vec3 α := r.origin + t * r.direction

/-- Modelled from the spec: `interval.h` is not among the sources.  An interval
is its two end points `min` and `max`. -/
structure interval (β : Type) where
  min : β
  max : β

/-- Modelled from the spec: the member `interval::contains` of the missing
`interval.h`, inclusive at both ends. -/
def interval.contains {β : Type} [LinearOrder β] (i : interval β) (x : β) : Bool :=
  decide (i.min ≤ x ∧ x ≤ i.max)

/-- Modelled from the spec: the member `interval::surrounds` of the missing
`interval.h`, exclusive at both ends. -/
def interval.surrounds {β : Type} [LinearOrder β] (i : interval β) (x : β) : Bool :=
  decide (i.min < x ∧ x < i.max)

/-- Modelled from the spec: `aabb.h` is not among the sources.  A box is three
intervals, one per axis. -/
structure aabb (β : Type) where
  x : interval β
  y : interval β
  z : interval β

/-- Modelled from the spec: the constructor `aabb(a, b)` of the missing
`aabb.h`, the tight box of the two points `a` and `b`, which spans them on
each axis whatever their order. -/
def aabb.of_points {β : Type} [LinearOrder β] (a b : vec3 β) : aabb β :=
  ⟨⟨min a.x b.x, max a.x b.x⟩, ⟨min a.y b.y, max a.y b.y⟩, ⟨min a.z b.z, max a.z b.z⟩⟩

/-- Modelled from the spec: the constructor `aabb(box0, box1)` of the missing
`aabb.h`, the tight box of the union of two boxes. -/
def aabb.union {β : Type} [LinearOrder β] (b0 b1 : aabb β) : aabb β :=
  ⟨⟨min b0.x.min b1.x.min, max b0.x.max b1.x.max⟩,
   ⟨min b0.y.min b1.y.min, max b0.y.max b1.y.max⟩,
   ⟨min b0.z.min b1.z.min, max b0.z.max b1.z.max⟩⟩

/-- Modelled from the spec: `operator+(aabb, vec3)` of the missing `aabb.h`,
the box offset by a vector. -/
def aabb.offset (b : aabb (xdouble α)) (o : vec3 α) : aabb (xdouble α) :=
  ⟨⟨b.x.min + xdouble.fin o.x, b.x.max + xdouble.fin o.x⟩,
   ⟨b.y.min + xdouble.fin o.y, b.y.max + xdouble.fin o.y⟩,
   ⟨b.z.min + xdouble.fin o.z, b.z.max + xdouble.fin o.z⟩⟩

/-- A box of finite end points read as a box of `xdouble` end points. -/
def aabb.lift (b : aabb α) : aabb (xdouble α) :=
  ⟨⟨xdouble.fin b.x.min, xdouble.fin b.x.max⟩,
   ⟨xdouble.fin b.y.min, xdouble.fin b.y.max⟩,
   ⟨xdouble.fin b.z.min, xdouble.fin b.z.max⟩⟩

/-- A point lies in a box: each coordinate is contained in the interval of its axis. -/
def aabb.encloses {β : Type} [LinearOrder β] (b : aabb β) (p : vec3 β) : Prop :=
  (b.x.min ≤ p.x ∧ p.x ≤ b.x.max) ∧ (b.y.min ≤ p.y ∧ p.y ≤ b.y.max) ∧
    (b.z.min ≤ p.z ∧ p.z ≤ b.z.max)

/-! ## hittable.h -/

/-- The class `hit_record`; `M` stands for `shared_ptr<material>`. -/
structure hit_record (α M : Type) where
  p : point3 α
  normal : vec3 α
  mat : M
  t : α
  u : α
  v : α
  front_face : Bool

/-- The member `hit_record::set_face_normal`. -/
def hit_record.set_face_normal {M : Type} (rec : hit_record α M) (r : ray α)
    (outward_normal : vec3 α) : hit_record α M :=
  let front_face := decide (dot r.direction outward_normal < 0)
  { rec with
    front_face := front_face
    normal := if front_face then outward_normal else -outward_normal }

/-- The orientation contract of a hit record for the ray `r` and the geometric
outward normal `N`: the recorded normal has length 1 and opposes the ray, `N`
has length 1, `front_face` holds exactly when the ray direction has a negative
dot product with `N`, and the recorded normal is `N` then and `-N` otherwise. -/
def hit_record.oriented {M : Type} (rec : hit_record α M) (m : rtweekend α) (r : ray α)
    (N : vec3 α) : Prop :=
  rec.normal.length m = 1 ∧ dot r.direction rec.normal ≤ 0 ∧ N.length m = 1 ∧
  (rec.front_face = true ↔ dot r.direction N < 0) ∧
  rec.normal = if rec.front_face = true then N else -N

/-- The abstract class `hittable`, as the table of its virtual members.  The
reference parameter `rec` of `hit` is passed in and returned next to the
`bool`; `G` is the state of the global random source `random` draws from. -/
structure hittable (α M G : Type) where
  hit : ray α → interval (xdouble α) → hit_record α M → Bool × hit_record α M
  bounding_box : aabb (xdouble α)
  pdf_value : point3 α → vec3 α → α
  random : point3 α → G → vec3 α × G

/-- The default body of `hittable::pdf_value`. -/
def hittable.default_pdf_value (_origin : point3 α) (_direction : vec3 α) : α := 0

/-- The default body of `hittable::random`. -/
def hittable.default_random {G : Type} (_origin : point3 α) (g : G) : vec3 α × G :=
  (⟨1, 0, 0⟩, g)

/-- The class `translate`. -/
structure translate (α M G : Type) where
  object : hittable α M G
  offset : vec3 α
  bbox : aabb (xdouble α)

/-- The constructor of `translate`. -/
def translate.new {M G : Type} (object : hittable α M G) (offset : vec3 α) :
    translate α M G :=
  ⟨object, offset, object.bounding_box.offset offset⟩

/-- The member `translate::hit`. -/
def translate.hit {M G : Type} (w : translate α M G) (r : ray α)
    (ray_t : interval (xdouble α)) (rec : hit_record α M) : Bool × hit_record α M :=
  let ray_offset : ray α := ⟨r.origin - w.offset, r.direction⟩
  match w.object.hit ray_offset ray_t rec with
  | (false, rec1) => (false, rec1)
  | (true, rec1) => (true, { rec1 with p := rec1.p + w.offset })

/-- The class `translate` as a `hittable`: it overrides `hit` and `bounding_box`. -/
def translate.toHittable {M G : Type} (w : translate α M G) : hittable α M G :=
  ⟨w.hit, w.bbox, hittable.default_pdf_value, hittable.default_random⟩

/-- The class `rotate_y`. -/
structure rotate_y (α M G : Type) where
  object : hittable α M G
  sin_theta : α
  cos_theta : α
  bbox : aabb (xdouble α)

/-- The body of the innermost loops of the constructor of `rotate_y` for one
corner `(i, j, k)`: the corner is rotated and the running `min` and `max`
are updated for `c = 0` and `c = 1`, the values `for (int c = 0; c < 2; c++)`
runs through. -/
def rotate_y.corner_step (sin_theta cos_theta : α) (bbox : aabb α) (i j k : Nat)
    (acc : vec3 (xdouble α) × vec3 (xdouble α)) : vec3 (xdouble α) × vec3 (xdouble α) :=
  let x := (i : α) * bbox.x.max + (1 - (i : α)) * bbox.x.min
  let y := (j : α) * bbox.y.max + (1 - (j : α)) * bbox.y.min
  let z := (k : α) * bbox.z.max + (1 - (k : α)) * bbox.z.min
  let rotated : point3 α :=
    ⟨cos_theta * x + sin_theta * z, y, -sin_theta * x + cos_theta * z⟩
  (List.range 2).foldl
    (fun mm c =>
      (mm.1.set c (min (xdouble.fin (rotated.get c)) (mm.1.get c)),
       mm.2.set c (max (xdouble.fin (rotated.get c)) (mm.2.get c))))
    acc

/-- The value of the local `rotated` of the constructor of `rotate_y` for the
corner `(i, j, k)` of the child's box. -/
def rotate_y.rotated_corner (sin_theta cos_theta : α) (bbox : aabb α) (i j k : Nat) : point3 α :=
  let x := (i : α) * bbox.x.max + (1 - (i : α)) * bbox.x.min
  let y := (j : α) * bbox.y.max + (1 - (j : α)) * bbox.y.min
  let z := (k : α) * bbox.z.max + (1 - (k : α)) * bbox.z.min
  ⟨cos_theta * x + sin_theta * z, y, -sin_theta * x + cos_theta * z⟩

/-- The three nested loops of the constructor of `rotate_y`: the final values
of the local points `min` and `max`, which start at `+infinity` and
`-infinity` on every axis. -/
def rotate_y.extrema (sin_theta cos_theta : α) (bbox : aabb α) :
    vec3 (xdouble α) × vec3 (xdouble α) :=
  (List.range 2).foldl
    (fun acc i => (List.range 2).foldl
      (fun acc j => (List.range 2).foldl
        (fun acc k => rotate_y.corner_step sin_theta cos_theta bbox i j k acc) acc) acc)
    ((⟨infinity, infinity, infinity⟩ : vec3 (xdouble α)), (⟨⊥, ⊥, ⊥⟩ : vec3 (xdouble α)))

/-- The constructor of `rotate_y`; `bbox` is the box `object->bounding_box()`
returns, of finite end points (the corner arithmetic is done on them). -/
def rotate_y.new {M G : Type} (m : rtweekend α) (object : hittable α M G) (bbox : aabb α)
    (angle : α) : rotate_y α M G :=
  let rad_angle := m.degrees_to_radians angle
  let sin_theta := m.sin rad_angle
  let cos_theta := m.cos rad_angle
  let mm := rotate_y.extrema sin_theta cos_theta bbox
  ⟨object, sin_theta, cos_theta, aabb.of_points mm.1 mm.2⟩

/-- The rotation `rotate_y::hit` applies to the origin and the direction of
the incoming ray (world space to object space). -/
def rotate_y.to_object {M G : Type} (w : rotate_y α M G) (a : vec3 α) : vec3 α :=
  ⟨w.cos_theta * a.x - w.sin_theta * a.z, a.y, w.sin_theta * a.x + w.cos_theta * a.z⟩

/-- The rotation `rotate_y::hit` applies to the hit point and the normal of
the record (object space to world space). -/
def rotate_y.to_world {M G : Type} (w : rotate_y α M G) (a : vec3 α) : vec3 α :=
  ⟨w.cos_theta * a.x + w.sin_theta * a.z, a.y, -w.sin_theta * a.x + w.cos_theta * a.z⟩

/-- The member `rotate_y::hit`. -/
def rotate_y.hit {M G : Type} (w : rotate_y α M G) (r : ray α)
    (ray_t : interval (xdouble α)) (rec : hit_record α M) : Bool × hit_record α M :=
  let origin : point3 α := w.to_object r.origin
  let direction : vec3 α := w.to_object r.direction
  let ray_rotated : ray α := ⟨origin, direction⟩
  match w.object.hit ray_rotated ray_t rec with
  | (false, rec1) => (false, rec1)
  | (true, rec1) =>
    let rec2 := { rec1 with p := w.to_world rec1.p }
    (true, { rec2 with normal := w.to_world rec2.normal })

/-- The class `rotate_y` as a `hittable`: it overrides `hit` and `bounding_box`. -/
def rotate_y.toHittable {M G : Type} (w : rotate_y α M G) : hittable α M G :=
  ⟨w.hit, w.bbox, hittable.default_pdf_value, hittable.default_random⟩

/-! ## sphere.h -/

/-- The class `sphere`. -/
structure sphere (α M : Type) where
  center : point3 α
  radius : α
  mat : M
  bbox : aabb α

/-- The constructor of `sphere`: the member `radius` is `std::fmax(0, radius)`,
while `rvec` is built from the constructor argument. -/
def sphere.new {M : Type} (center : point3 α) (radius : α) (mat : M) : sphere α M :=
  let rvec : vec3 α := ⟨radius, radius, radius⟩
  ⟨center, max 0 radius, mat, aabb.of_points (center - rvec) (center + rvec)⟩

/-- The static member `sphere::get_sphere_uv`: the pair `(u, v)` it writes. -/
def sphere.get_sphere_uv (m : rtweekend α) (p : point3 α) : α × α :=
  let theta := m.acos (-p.y)
  let phi := m.atan2 (-p.z) p.x + m.pi
  (phi / (2 * m.pi), theta / m.pi)

/-- The member `sphere::hit`.  The local `root` is assigned at most twice: it
is the nearer root when `ray_t` surrounds it and the farther root otherwise.
For a ray of zero direction `a`, `h` and `discriminant` are all zero, both
roots are the IEEE quotient `0 / 0`, a NaN that no interval surrounds, and
the source returns `false`: the branch `a = 0` states this. -/
def sphere.hit {M : Type} (s : sphere α M) (m : rtweekend α) (r : ray α)
    (ray_t : interval (xdouble α)) (rec : hit_record α M) : Bool × hit_record α M :=
  let oc := s.center - r.origin
  let a := r.direction.length_squared
  let h := dot r.direction oc
  let c := oc.length_squared - s.radius * s.radius
  let discriminant := h * h - a * c
  if discriminant < 0 then (false, rec)
  else if a = 0 then (false, rec)
  else
    let sqrtd := m.sqrt discriminant
    let root0 := (h - sqrtd) / a
    let root := if ray_t.surrounds (xdouble.fin root0) then root0 else (h + sqrtd) / a
    if !ray_t.surrounds (xdouble.fin root) then (false, rec)
    else
      let rec1 := { rec with t := root }
      let rec2 := { rec1 with p := r.at' rec1.t }
      let outward_normal := (rec2.p - s.center) / s.radius
      let rec3 := rec2.set_face_normal r outward_normal
      let uv := sphere.get_sphere_uv m outward_normal
      (true, { rec3 with u := uv.1, v := uv.2, mat := s.mat })

/-- The value of the local `discriminant` of `sphere::hit`. -/
def sphere.discriminant {M : Type} (s : sphere α M) (r : ray α) : α :=
  let oc := s.center - r.origin
  let a := r.direction.length_squared
  let h := dot r.direction oc
  let c := oc.length_squared - s.radius * s.radius
  h * h - a * c

/-- The first value of the local `root` of `sphere::hit`, `(h - sqrtd) / a`. -/
def sphere.root_near {M : Type} (s : sphere α M) (m : rtweekend α) (r : ray α) : α :=
  (dot r.direction (s.center - r.origin) - m.sqrt (s.discriminant r)) / r.direction.length_squared

/-- The second value of the local `root` of `sphere::hit`, `(h + sqrtd) / a`. -/
def sphere.root_far {M : Type} (s : sphere α M) (m : rtweekend α) (r : ray α) : α :=
  (dot r.direction (s.center - r.origin) + m.sqrt (s.discriminant r)) / r.direction.length_squared

/-- The record `sphere::hit` leaves in `rec` when it returns `true` with the
local `root` equal to `root`: every member of `rec` is assigned. -/
def sphere.record_at {M : Type} (s : sphere α M) (m : rtweekend α) (r : ray α) (root : α) :
    hit_record α M :=
  let outward_normal := (r.at' root - s.center) / s.radius
  { p := r.at' root
    normal := if dot r.direction outward_normal < 0 then outward_normal else -outward_normal
    mat := s.mat
    t := root
    u := (sphere.get_sphere_uv m outward_normal).1
    v := (sphere.get_sphere_uv m outward_normal).2
    front_face := decide (dot r.direction outward_normal < 0) }

/-- The member `sphere::pdf_value`; the local `rec` starts as `rec0`. -/
def sphere.pdf_value {M : Type} (s : sphere α M) (m : rtweekend α) (rec0 : hit_record α M)
    (origin : point3 α) (direction : vec3 α) : α :=
  if !(s.hit m ⟨origin, direction⟩ ⟨xdouble.fin 0.001, infinity⟩ rec0).1 then 0
  else
    let cos_theta := m.sqrt (1 - (s.radius * s.radius) / (origin - s.center).length_squared)
    let solid_angle := 2 * m.pi * (1 - cos_theta)
    1 / solid_angle

/-- The static member `sphere::random_to_sphere`, on the two draws `r1` and
`r2` it takes from `random_double()`. -/
def sphere.random_to_sphere (m : rtweekend α) (radius distance_squared r1 r2 : α) : vec3 α :=
  let z := 1 + r2 * (m.sqrt (1 - radius * radius / distance_squared) - 1)
  let phi := 2 * m.pi * r1
  let x := m.cos phi * m.sqrt (1 - z * z)
  let y := m.sin phi * m.sqrt (1 - z * z)
  ⟨x, y, z⟩

/-- The member `sphere::random`; `random_double` is the global random source,
a draw and the next state. -/
def sphere.random {M G : Type} (s : sphere α M) (m : rtweekend α) (random_double : G → α × G)
    (origin : point3 α) (g : G) : vec3 α × G :=
  let direction := s.center - origin
  let distance_squared := direction.length_squared
  let uvw := onb.new m direction
  let d1 := random_double g
  let d2 := random_double d1.2
  (uvw.transform (sphere.random_to_sphere m s.radius distance_squared d1.1 d2.1), d2.2)

/-- The class `sphere` as a `hittable`. -/
def sphere.toHittable {M G : Type} (s : sphere α M) (m : rtweekend α)
    (random_double : G → α × G) (rec0 : hit_record α M) : hittable α M G :=
  ⟨s.hit m, s.bbox.lift, s.pdf_value m rec0, s.random m random_double⟩

/-! ## quad.h -/

/-- The class `quad`. -/
structure quad (α M : Type) where
  Q : point3 α
  u : vec3 α
  v : vec3 α
  w : vec3 α
  mat : M
  bbox : aabb α
  normal : vec3 α
  D : α
  area : α

/-- The member `quad::set_bounding_box`: the box it assigns to `bbox`. -/
def quad.set_bounding_box (Q : point3 α) (u v : vec3 α) : aabb α :=
  let box1 := aabb.of_points Q (Q + u + v)
  let box2 := aabb.of_points (Q + u) (Q + v)
  aabb.union box1 box2

/-- The constructor of `quad`. -/
def quad.new {M : Type} (m : rtweekend α) (Q : point3 α) (u v : vec3 α) (mat : M) :
    quad α M :=
  let bbox := quad.set_bounding_box Q u v
  let n := cross u v
  let normal := unit_vector m n
  let D := dot normal Q
  let w := n / dot n n
  let area := n.length m
  ⟨Q, u, v, w, mat, bbox, normal, D, area⟩

/-- The member `quad::is_interior` (the body of the base class). -/
def quad.is_interior {M : Type} (a b : α) (rec : hit_record α M) : Bool × hit_record α M :=
  let unit_interval : interval α := ⟨0, 1⟩
  if !unit_interval.contains a || !unit_interval.contains b then (false, rec)
  else (true, { rec with u := a, v := b })

/-- The member `quad::hit`. -/
def quad.hit {M : Type} (q : quad α M) (r : ray α) (ray_t : interval (xdouble α))
    (rec : hit_record α M) : Bool × hit_record α M :=
  let ndotd := dot q.normal r.direction
  if |ndotd| < 1e-8 then (false, rec)
  else
    let t := (q.D - dot q.normal r.origin) / ndotd
    if !ray_t.contains (xdouble.fin t) then (false, rec)
    else
      let I := r.at' t
      let p := I - q.Q
      let a := dot q.w (cross p q.v)
      let b := dot q.w (cross q.u p)
      match quad.is_interior a b rec with
      | (false, rec1) => (false, rec1)
      | (true, rec1) =>
        (true, ({ rec1 with t := t, p := I, mat := q.mat }).set_face_normal r q.normal)

/-- The value of the local `t` of `quad::hit`. -/
def quad.hit_t {M : Type} (q : quad α M) (r : ray α) : α :=
  (q.D - dot q.normal r.origin) / dot q.normal r.direction

/-- The value of the local `a` of `quad::hit`. -/
def quad.hit_a {M : Type} (q : quad α M) (r : ray α) : α :=
  dot q.w (cross (r.at' (q.hit_t r) - q.Q) q.v)

/-- The value of the local `b` of `quad::hit`. -/
def quad.hit_b {M : Type} (q : quad α M) (r : ray α) : α :=
  dot q.w (cross q.u (r.at' (q.hit_t r) - q.Q))

/-- The record `quad::hit` leaves in `rec` when it returns `true`: every
member of `rec` is assigned. -/
def quad.record_at {M : Type} (q : quad α M) (r : ray α) : hit_record α M :=
  { p := r.at' (q.hit_t r)
    normal := if dot r.direction q.normal < 0 then q.normal else -q.normal
    mat := q.mat
    t := q.hit_t r
    u := q.hit_a r
    v := q.hit_b r
    front_face := decide (dot r.direction q.normal < 0) }

/-- The member `quad::pdf_value`; the local `rec` starts as `rec0`. -/
def quad.pdf_value {M : Type} (q : quad α M) (m : rtweekend α) (rec0 : hit_record α M)
    (origin : point3 α) (direction : vec3 α) : α :=
  match q.hit ⟨origin, direction⟩ ⟨xdouble.fin 0.001, infinity⟩ rec0 with
  | (false, _) => 0
  | (true, rec) =>
    let distance_squared := rec.t * rec.t * direction.length_squared
    let cosine := |dot direction rec.normal / direction.length m|
    distance_squared / (cosine * q.area)

/-- The member `quad::random`. -/
def quad.random {M G : Type} (q : quad α M) (random_double : G → α × G)
    (origin : point3 α) (g : G) : vec3 α × G :=
  let d1 := random_double g
  let d2 := random_double d1.2
  let p := q.Q + (d1.1 * q.u) + (d2.1 * q.v)
  (p - origin, d2.2)

/-- The class `quad` as a `hittable`. -/
def quad.toHittable {M G : Type} (q : quad α M) (m : rtweekend α)
    (random_double : G → α × G) (rec0 : hit_record α M) : hittable α M G :=
  ⟨q.hit, q.bbox.lift, q.pdf_value m rec0, q.random random_double⟩

/-! ## Densities and materials (`pdf.h`, `material.h`) -/

/-- Modelled from the spec: `pdf.h` is not among the sources.  A density
evaluates a direction and samples one; sampling draws from the random source. -/
structure pdf (α G : Type) where
  value : vec3 α → α
  generate : G → vec3 α × G

/-- Modelled from the spec: the light-surface density `hittable_pdf` of the
missing `pdf.h`; `value` delegates to `pdf_value(origin, direction)` and
`generate` to `random(origin)` of the wrapped surface. -/
def hittable_pdf {M G : Type} (objects : hittable α M G) (origin : point3 α) : pdf α G :=
  ⟨fun direction => objects.pdf_value origin direction, fun g => objects.random origin g⟩

/-- Modelled from the spec: the density `mixture_pdf` of the missing `pdf.h`;
`value` is the arithmetic mean of the two components and `generate` samples
one of the two, picked by `choose`, a uniform draw of a `bool`. -/
def mixture_pdf {G : Type} (choose : G → Bool × G) (p0 p1 : pdf α G) : pdf α G :=
  ⟨fun direction => (p0.value direction + p1.value direction) / 2,
   fun g => if (choose g).1 then p0.generate (choose g).2 else p1.generate (choose g).2⟩

/-- Modelled from the spec: the class `scatter_record` of the missing
`material.h`: an attenuation, a density to sample the next bounce from, and
the flag and ray of a continuation the material fixes itself. -/
structure scatter_record (α G : Type) where
  attenuation : color α
  pdf_ptr : pdf α G
  skip_pdf : Bool
  skip_pdf_ray : ray α

/-- Modelled from the spec: the class `material` of the missing `material.h`,
as the table of its members; `scatter` returns the record it fills when it
returns `true` and draws from the random source. -/
structure material (α M G : Type) where
  emitted : ray α → hit_record α M → α → α → point3 α → color α
  scatter : ray α → hit_record α M → G → Option (scatter_record α G) × G
  scattering_pdf : ray α → hit_record α M → ray α → α

/-! ## camera.h -/

/-- The class `camera`: its public settings and the private members
`initialize` derives from them. -/
structure camera (α : Type) where
  aspect_ratio : α
  vfov : α
  image_width : Int
  samples_per_pixel : Int
  max_depth : Int
  background : color α
  lookfrom : point3 α
  lookat : point3 α
  vup : vec3 α
  defocus_angle : α
  focus_dist : α
  image_height : Int
  pixel_samples_scale : α
  sqrt_spp : Int
  recip_sqrt_spp : α
  center : point3 α
  pixel00_loc : point3 α
  pixel_delta_u : vec3 α
  pixel_delta_v : vec3 α
  u : vec3 α
  v : vec3 α
  w : vec3 α
  defocus_disk_u : vec3 α
  defocus_disk_v : vec3 α

/-- The measure of the recursion of `ray_color`: the calls still possible from `depth`. -/
theorem ray_color_decreasing [FloorRing α] {depth : α} (h : ¬ depth ≤ 0) :
    Nat.ceil (depth - 1) < Nat.ceil depth := by
  have hpos : 0 < depth := lt_of_not_le h
  rw [Nat.lt_ceil]
  rcases le_or_lt 0 (depth - 1) with h1 | h1
  · have := Nat.ceil_lt_add_one h1
    linarith
  · rw [Nat.ceil_eq_zero.mpr h1.le]
    simpa using hpos

/-- The member `camera::ray_color`.  `mats` resolves `rec.mat->`, `choose` is
the draw of `mixture_pdf`, `rec0` the content of the local `rec` (here `hrec`) before
`world.hit` fills it, `g` the state of the random source; the colour is
returned with the next state.  `depth` is a `double` lowered by 1 at each
recursive call.  The quotient by `pdf_value` is the quotient of the field `α`:
it is the quotient of the code where `pdf_value` is not zero, and where
`pdf_value` is zero the code yields an infinity or a NaN, which
`camera.ray_color_checked` marks. -/
def camera.ray_color {M G : Type} [FloorRing α] (cam : camera α) (mats : M → material α M G)
    (choose : G → Bool × G) (rec0 : hit_record α M) (r : ray α) (depth : α)
    (world lights : hittable α M G) (g : G) : color α × G :=
  if hd : depth ≤ 0 then ((⟨0, 0, 0⟩ : color α), g)
  else
    let hr := world.hit r ⟨xdouble.fin 0.001, infinity⟩ rec0
    if !hr.1 then (cam.background, g)
    else
      let hrec := hr.2
      let emitted_light := (mats hrec.mat).emitted r hrec hrec.u hrec.v hrec.p
      let sc := (mats hrec.mat).scatter r hrec g
      match sc.1 with
      | none => (emitted_light, sc.2)
      | some srec =>
        if srec.skip_pdf then
          let rc := cam.ray_color mats choose rec0 srec.skip_pdf_ray (depth - 1) world lights sc.2
          (srec.attenuation * rc.1, rc.2)
        else
          let light_pdf_ptr := hittable_pdf lights hrec.p
          let mixed_pdf := mixture_pdf choose light_pdf_ptr srec.pdf_ptr
          let gen := mixed_pdf.generate sc.2
          let scattered : ray α := ⟨hrec.p, gen.1⟩
          let pdf_value := mixed_pdf.value scattered.direction
          let scatter_pdf := (mats hrec.mat).scattering_pdf r hrec scattered
          let rc := cam.ray_color mats choose rec0 scattered (depth - 1) world lights gen.2
          let scattered_light := srec.attenuation * scatter_pdf * rc.1 / pdf_value
          (scattered_light + emitted_light, rc.2)
termination_by Nat.ceil depth
decreasing_by
  all_goals exact ray_color_decreasing hd

/-- The conversion `int(x)` of a `double` to an `int`: truncation towards zero
(of a value that fits in an `int`). -/
def double_to_int [FloorRing α] (x : α) : Int := if 0 ≤ x then Int.floor x else Int.ceil x

/-- The default member initialisers of `camera`.  The private members have
none: they start as zeros here and `initialize` assigns every one of them. -/
def camera.defaults : camera α :=
  { aspect_ratio := 1.0
    vfov := 90
    image_width := 100
    samples_per_pixel := 10
    max_depth := 10
    background := ⟨0, 0, 0⟩
    lookfrom := ⟨0, 0, 0⟩
    lookat := ⟨0, 0, -1⟩
    vup := ⟨0, 1, 0⟩
    defocus_angle := 0
    focus_dist := 10
    image_height := 0
    pixel_samples_scale := 0
    sqrt_spp := 0
    recip_sqrt_spp := 0
    center := ⟨0, 0, 0⟩
    pixel00_loc := ⟨0, 0, 0⟩
    pixel_delta_u := ⟨0, 0, 0⟩
    pixel_delta_v := ⟨0, 0, 0⟩
    u := ⟨0, 0, 0⟩
    v := ⟨0, 0, 0⟩
    w := ⟨0, 0, 0⟩
    defocus_disk_u := ⟨0, 0, 0⟩
    defocus_disk_v := ⟨0, 0, 0⟩ }

/-- The value of the local `viewport_height` of `camera::initialize`. -/
def camera.viewport_height (m : rtweekend α) (cam : camera α) : α :=
  2 * m.tan (m.degrees_to_radians cam.vfov / 2) * cam.focus_dist

/-- The member `camera::initialize` (`initialize` is a reserved word): the camera with
its private members assigned.  The quotients are those of the field `α`:
`pixel_samples_scale` and `recip_sqrt_spp` are the values of the code where
`sqrt_spp` is not zero (as for `samples_per_pixel ≥ 1`), and where it is zero
the code yields an infinity. -/
def camera.initialize' [FloorRing α] (m : rtweekend α) (cam : camera α) : camera α :=
  let image_height0 := double_to_int ((cam.image_width : α) / cam.aspect_ratio)
  let image_height := if image_height0 < 1 then 1 else image_height0
  let sqrt_spp := double_to_int (m.sqrt (cam.samples_per_pixel : α))
  let pixel_samples_scale := 1.0 / (((sqrt_spp * sqrt_spp : Int)) : α)
  let recip_sqrt_spp := 1.0 / (sqrt_spp : α)
  let center := cam.lookfrom
  let theta := m.degrees_to_radians cam.vfov
  let h := m.tan (theta / 2)
  let viewport_height := 2 * h * cam.focus_dist
  let viewport_width := viewport_height * ((cam.image_width : α) / (image_height : α))
  let w := unit_vector m (cam.lookfrom - cam.lookat)
  let u := unit_vector m (cross cam.vup w)
  let v := cross w u
  let viewport_u := viewport_width * u
  let viewport_v := viewport_height * -v
  let pixel_delta_u := viewport_u / (cam.image_width : α)
  let pixel_delta_v := viewport_v / (image_height : α)
  let viewport_upper_left :=
    center - (cam.focus_dist * w) - viewport_u / (2 : α) - viewport_v / (2 : α)
  let pixel00_loc := viewport_upper_left + (0.5 : α) * (pixel_delta_u + pixel_delta_v)
  let defocus_radius := cam.focus_dist * m.tan (m.degrees_to_radians (cam.defocus_angle / 2.0))
  let defocus_disk_u := u * defocus_radius
  let defocus_disk_v := v * defocus_radius
  { cam with
    image_height := image_height
    pixel_samples_scale := pixel_samples_scale
    sqrt_spp := sqrt_spp
    recip_sqrt_spp := recip_sqrt_spp
    center := center
    pixel00_loc := pixel00_loc
    pixel_delta_u := pixel_delta_u
    pixel_delta_v := pixel_delta_v
    u := u
    v := v
    w := w
    defocus_disk_u := defocus_disk_u
    defocus_disk_v := defocus_disk_v }

/-- The value of the local `viewport_width` of `camera::initialize`. -/
def camera.viewport_width [FloorRing α] (m : rtweekend α) (cam : camera α) : α :=
  cam.viewport_height m * ((cam.image_width : α) / ((cam.initialize' m).image_height : α))

/-- The member `camera::sample_square_stratified`; `random_double` is the
global random source, drawn from first for `px` and then for `py`. -/
def camera.sample_square_stratified {G : Type} (cam : camera α) (random_double : G → α × G)
    (s_i s_j : Int) (g : G) : vec3 α × G :=
  let d1 := random_double g
  let px := (((s_i : α) + d1.1) * cam.recip_sqrt_spp) - 0.5
  let d2 := random_double d1.2
  let py := (((s_j : α) + d2.1) * cam.recip_sqrt_spp) - 0.5
  (⟨px, py, 0⟩, d2.2)

/-- The function `random_in_unit_disk`.  Its `while (true)` loop runs at most
`fuel` times here and the result is `none` when no draw was accepted;
`random_double_range min max` is `random_double(min, max)` of the missing
`rtweekend.h`. -/
def random_in_unit_disk {G : Type} (random_double_range : α → α → G → α × G) :
    Nat → G → Option (vec3 α × G)
  | 0, _ => none
  | fuel + 1, g =>
    let d1 := random_double_range (-1) 1 g
    let d2 := random_double_range (-1) 1 d1.2
    let p : vec3 α := ⟨d1.1, d2.1, 0.0⟩
    if p.length_squared < 1 then some (p, d2.2)
    else random_in_unit_disk random_double_range fuel d2.2

/-- The member `camera::defocus_disk_sample`. -/
def camera.defocus_disk_sample {G : Type} (cam : camera α)
    (random_double_range : α → α → G → α × G) (fuel : Nat) (g : G) : Option (point3 α × G) :=
  match random_in_unit_disk random_double_range fuel g with
  | none => none
  | some (p, g1) =>
    some (cam.center + (p.get 0 * cam.defocus_disk_u + p.get 1 * cam.defocus_disk_v), g1)

/-- The value of the local `pixel_sample` of `camera::get_ray` for the offset `offset`. -/
def camera.pixel_sample (cam : camera α) (i j : Int) (offset : vec3 α) : point3 α :=
  cam.pixel00_loc + (((i : α) + offset.x) * cam.pixel_delta_u)
    + (((j : α) + offset.y) * cam.pixel_delta_v)

/-- The member `camera::get_ray`; `none` when `random_in_unit_disk` ran out of fuel. -/
def camera.get_ray {G : Type} (cam : camera α) (random_double : G → α × G)
    (random_double_range : α → α → G → α × G) (fuel : Nat) (i j s_i s_j : Int) (g : G) :
    Option (ray α × G) :=
  let offset := cam.sample_square_stratified random_double s_i s_j g
  let pixel_sample := cam.pixel_sample i j offset.1
  if cam.defocus_angle ≤ 0 then some (⟨cam.center, pixel_sample - cam.center⟩, offset.2)
  else
    match cam.defocus_disk_sample random_double_range fuel offset.2 with
    | none => none
    | some (ray_origin, g1) => some (⟨ray_origin, pixel_sample - ray_origin⟩, g1)

/-- The member `camera::ray_color` with the division of `scattered_light` by
`pdf_value` checked: the result is `none` when an evaluation divides by a
`pdf_value` equal to zero (the quotient of IEEE doubles is then an infinity or
a NaN, which no element of `α` stands for), and the colour and next state of
the random source otherwise.  Every other step is as in `camera.ray_color`. -/
def camera.ray_color_checked {M G : Type} [FloorRing α] (cam : camera α)
    (mats : M → material α M G) (choose : G → Bool × G) (rec0 : hit_record α M) (r : ray α)
    (depth : α) (world lights : hittable α M G) (g : G) : Option (color α × G) :=
  if hd : depth ≤ 0 then some ((⟨0, 0, 0⟩ : color α), g)
  else
    let hr := world.hit r ⟨xdouble.fin 0.001, infinity⟩ rec0
    if !hr.1 then some (cam.background, g)
    else
      let hrec := hr.2
      let emitted_light := (mats hrec.mat).emitted r hrec hrec.u hrec.v hrec.p
      let sc := (mats hrec.mat).scatter r hrec g
      match sc.1 with
      | none => some (emitted_light, sc.2)
      | some srec =>
        if srec.skip_pdf then
          match cam.ray_color_checked mats choose rec0 srec.skip_pdf_ray (depth - 1) world lights
              sc.2 with
          | none => none
          | some rc => some (srec.attenuation * rc.1, rc.2)
        else
          let light_pdf_ptr := hittable_pdf lights hrec.p
          let mixed_pdf := mixture_pdf choose light_pdf_ptr srec.pdf_ptr
          let gen := mixed_pdf.generate sc.2
          let scattered : ray α := ⟨hrec.p, gen.1⟩
          let pdf_value := mixed_pdf.value scattered.direction
          let scatter_pdf := (mats hrec.mat).scattering_pdf r hrec scattered
          match cam.ray_color_checked mats choose rec0 scattered (depth - 1) world lights
              gen.2 with
          | none => none
          | some rc =>
            if pdf_value = 0 then none
            else
              let scattered_light := srec.attenuation * scatter_pdf * rc.1 / pdf_value
              some (scattered_light + emitted_light, rc.2)
termination_by Nat.ceil depth
decreasing_by
  all_goals exact ray_color_decreasing hd

/-- The body of the two inner loops of `camera::render` for the sample
`(s_i, s_j)` of the pixel `(i, j)`:
`pixel_color += ray_color(get_ray(i, j, s_i, s_j), max_depth, world, lights)`.
The accumulator holds `pixel_color` and the state of the random source; it is
`none` once `get_ray` ran out of fuel. -/
def camera.sample_step {M G : Type} [FloorRing α] (cam : camera α) (mats : M → material α M G)
    (choose : G → Bool × G) (rec0 : hit_record α M) (random_double : G → α × G)
    (random_double_range : α → α → G → α × G) (fuel : Nat) (world lights : hittable α M G)
    (i j s_i s_j : Int) (acc : Option (color α × G)) : Option (color α × G) :=
  match acc with
  | none => none
  | some (pixel_color, g) =>
    match cam.get_ray random_double random_double_range fuel i j s_i s_j g with
    | none => none
    | some (r, g1) =>
      let rc := cam.ray_color mats choose rec0 r (cam.max_depth : α) world lights g1
      some (pixel_color + rc.1, rc.2)

/-- The value `camera::render` stores in `img[i][j]`: `pixel_color` after the
loops over `s_j` and `s_i`, which run from 0 below `sqrt_spp`; `g` is the state
of the random source when the pixel is begun. -/
def camera.pixel_color {M G : Type} [FloorRing α] (cam : camera α) (mats : M → material α M G)
    (choose : G → Bool × G) (rec0 : hit_record α M) (random_double : G → α × G)
    (random_double_range : α → α → G → α × G) (fuel : Nat) (world lights : hittable α M G)
    (i j : Int) (g : G) : Option (color α × G) :=
  (List.range cam.sqrt_spp.toNat).foldl
    (fun acc (s_j : Nat) => (List.range cam.sqrt_spp.toNat).foldl
      (fun acc (s_i : Nat) => cam.sample_step mats choose rec0 random_double random_double_range fuel
        world lights i j (s_i : Int) (s_j : Int) acc) acc)
    (some ((⟨0, 0, 0⟩ : color α), g))

/-- The colour `camera::render` passes to `write_color` for the pixel `(i, j)`:
`pixel_samples_scale * img[i][j]`, after `initialize`. -/
def camera.render_pixel {M G : Type} [FloorRing α] (m : rtweekend α) (cam : camera α)
    (mats : M → material α M G) (choose : G → Bool × G) (rec0 : hit_record α M)
    (random_double : G → α × G) (random_double_range : α → α → G → α × G) (fuel : Nat)
    (world lights : hittable α M G) (i j : Int) (g : G) : Option (color α × G) :=
  match (cam.initialize' m).pixel_color mats choose rec0 random_double random_double_range fuel
      world lights i j g with
  | none => none
  | some (c, g1) => some ((cam.initialize' m).pixel_samples_scale * c, g1)

/-- What an evaluation of `camera::ray_color` costs: the invocations of
`ray_color` (the outermost one included), the deepest nesting of recursive
calls below the outermost invocation, and the hit tests `world.hit` made. -/
structure ray_color_cost where
  calls : Nat
  nesting : Nat
  hit_tests : Nat

/-- The member `camera::ray_color` with its cost counted: the colour and the
next state of the random source as in `camera.ray_color`, and next to them the
cost of the evaluation.  An invocation that returns at `depth <= 0` makes no
hit test; each of the two call sites adds its recursive call to the cost. -/
def camera.ray_color_counted {M G : Type} [FloorRing α] (cam : camera α)
    (mats : M → material α M G) (choose : G → Bool × G) (rec0 : hit_record α M) (r : ray α)
    (depth : α) (world lights : hittable α M G) (g : G) : (color α × G) × ray_color_cost :=
  if hd : depth ≤ 0 then (((⟨0, 0, 0⟩ : color α), g), ⟨1, 0, 0⟩)
  else
    let hr := world.hit r ⟨xdouble.fin 0.001, infinity⟩ rec0
    if !hr.1 then ((cam.background, g), ⟨1, 0, 1⟩)
    else
      let hrec := hr.2
      let emitted_light := (mats hrec.mat).emitted r hrec hrec.u hrec.v hrec.p
      let sc := (mats hrec.mat).scatter r hrec g
      match sc.1 with
      | none => ((emitted_light, sc.2), ⟨1, 0, 1⟩)
      | some srec =>
        if srec.skip_pdf then
          let rc := cam.ray_color_counted mats choose rec0 srec.skip_pdf_ray (depth - 1) world
            lights sc.2
          ((srec.attenuation * rc.1.1, rc.1.2),
            ⟨rc.2.calls + 1, rc.2.nesting + 1, rc.2.hit_tests + 1⟩)
        else
          let light_pdf_ptr := hittable_pdf lights hrec.p
          let mixed_pdf := mixture_pdf choose light_pdf_ptr srec.pdf_ptr
          let gen := mixed_pdf.generate sc.2
          let scattered : ray α := ⟨hrec.p, gen.1⟩
          let pdf_value := mixed_pdf.value scattered.direction
          let scatter_pdf := (mats hrec.mat).scattering_pdf r hrec scattered
          let rc := cam.ray_color_counted mats choose rec0 scattered (depth - 1) world lights
            gen.2
          let scattered_light := srec.attenuation * scatter_pdf * rc.1.1 / pdf_value
          ((scattered_light + emitted_light, rc.1.2),
            ⟨rc.2.calls + 1, rc.2.nesting + 1, rc.2.hit_tests + 1⟩)
termination_by Nat.ceil depth
decreasing_by
  all_goals exact ray_color_decreasing hd

/-! ## Random directions (`vec3.h`) -/

/-- The static member `vec3::random(min, max)`; `random_double_range min max`
is `random_double(min, max)` of the missing `rtweekend.h`, drawn from for the
components in the order they are written. -/
def vec3.random {G : Type} (random_double_range : α → α → G → α × G) (min max : α) (g : G) :
    vec3 α × G :=
  let d0 := random_double_range min max g
  let d1 := random_double_range min max d0.2
  let d2 := random_double_range min max d1.2
  (⟨d0.1, d1.1, d2.1⟩, d2.2)

/-- The function `random_unit_vector`.  Its `while (true)` loop runs at most
`fuel` times here and the result is `none` when no draw was accepted. -/
def random_unit_vector {G : Type} (m : rtweekend α)
    (random_double_range : α → α → G → α × G) : Nat → G → Option (vec3 α × G)
  | 0, _ => none
  | fuel + 1, g =>
    let p := vec3.random random_double_range (-1) 1 g
    let lensq := p.1.length_squared
    if 1e-160 < lensq ∧ lensq ≤ 1 then some (p.1 / m.sqrt lensq, p.2)
    else random_unit_vector m random_double_range fuel p.2

/-- The function `random_on_hemisphere`; `none` when `random_unit_vector` ran
out of fuel. -/
def random_on_hemisphere {G : Type} (m : rtweekend α)
    (random_double_range : α → α → G → α × G) (fuel : Nat) (normal : vec3 α) (g : G) :
    Option (vec3 α × G) :=
  match random_unit_vector m random_double_range fuel g with
  | none => none
  | some (on_unit_sphere, g1) =>
    if dot normal on_unit_sphere < 1 then some (-on_unit_sphere, g1)
    else some (on_unit_sphere, g1)

/-! ## Example scenes -/

/-- An example surface: every ray hits it at the origin, where its normal is `(-1, 0, 0)`. -/
def example_wall : hittable α Unit Unit :=
  ⟨fun _ _ rec => (true, { rec with p := ⟨0, 0, 0⟩, normal := ⟨-1, 0, 0⟩, t := 1 }),
   ⟨⟨⊥, ⊤⟩, ⟨⊥, ⊤⟩, ⟨⊥, ⊤⟩⟩, hittable.default_pdf_value, hittable.default_random⟩

/-- An example light that keeps the default members `pdf_value` and `random`
of `hittable` (as `translate` and `rotate_y` do); no ray hits it. -/
def example_light : hittable α Unit Unit :=
  ⟨fun _ _ rec => (false, rec), ⟨⟨⊥, ⊤⟩, ⟨⊥, ⊤⟩, ⟨⊥, ⊤⟩⟩, hittable.default_pdf_value,
   hittable.default_random⟩

/-- An example material: it emits `(1, 1, 1)` and scatters with the attenuation
`(1, 1, 1)` and a density proportional to the cosine to the normal, zero
below the surface, which generates the normal itself. -/
def example_material : Unit → material α Unit Unit := fun _ =>
  ⟨fun _ _ _ _ _ => ⟨1, 1, 1⟩,
   fun _ rec g =>
    (some ⟨⟨1, 1, 1⟩, ⟨fun d => max 0 (dot rec.normal d), fun g1 => (rec.normal, g1)⟩, false,
      ⟨rec.p, rec.normal⟩⟩, g),
   fun _ rec scattered => max 0 (dot rec.normal scattered.direction)⟩

/-! ## Component lemmas -/

namespace vec3

variable {α : Type} [LinearOrderedField α]

@[simp] theorem neg_x (v : vec3 α) : (-v).x = -v.x := rfl
@[simp] theorem neg_y (v : vec3 α) : (-v).y = -v.y := rfl
@[simp] theorem neg_z (v : vec3 α) : (-v).z = -v.z := rfl
@[simp] theorem add_x (u v : vec3 α) : (u + v).x = u.x + v.x := rfl
@[simp] theorem add_y (u v : vec3 α) : (u + v).y = u.y + v.y := rfl
@[simp] theorem add_z (u v : vec3 α) : (u + v).z = u.z + v.z := rfl
@[simp] theorem sub_x (u v : vec3 α) : (u - v).x = u.x - v.x := rfl
@[simp] theorem sub_y (u v : vec3 α) : (u - v).y = u.y - v.y := rfl
@[simp] theorem sub_z (u v : vec3 α) : (u - v).z = u.z - v.z := rfl
@[simp] theorem mul_x (u v : vec3 α) : (u * v).x = u.x * v.x := rfl
@[simp] theorem mul_y (u v : vec3 α) : (u * v).y = u.y * v.y := rfl
@[simp] theorem mul_z (u v : vec3 α) : (u * v).z = u.z * v.z := rfl
@[simp] theorem smul_x (t : α) (v : vec3 α) : (t * v).x = t * v.x := rfl
@[simp] theorem smul_y (t : α) (v : vec3 α) : (t * v).y = t * v.y := rfl
@[simp] theorem smul_z (t : α) (v : vec3 α) : (t * v).z = t * v.z := rfl
@[simp] theorem muls_x (v : vec3 α) (t : α) : (v * t).x = t * v.x := rfl
@[simp] theorem muls_y (v : vec3 α) (t : α) : (v * t).y = t * v.y := rfl
@[simp] theorem muls_z (v : vec3 α) (t : α) : (v * t).z = t * v.z := rfl
@[simp] theorem div_x (v : vec3 α) (t : α) : (v / t).x = 1 / t * v.x := rfl
@[simp] theorem div_y (v : vec3 α) (t : α) : (v / t).y = 1 / t * v.y := rfl
@[simp] theorem div_z (v : vec3 α) (t : α) : (v / t).z = 1 / t * v.z := rfl

end vec3

@[simp] theorem cross_x (u v : vec3 α) : (cross u v).x = u.y * v.z - u.z * v.y := rfl
@[simp] theorem cross_y (u v : vec3 α) : (cross u v).y = u.z * v.x - u.x * v.z := rfl
@[simp] theorem cross_z (u v : vec3 α) : (cross u v).z = u.x * v.y - u.y * v.x := rfl

/-! ## Lemmas on the vector algebra -/

theorem sqrt_one {m : rtweekend α} (hm : m.sqrt_ok) : m.sqrt 1 = 1 := by
  obtain ⟨h0, h1⟩ := hm 1 zero_le_one
  nlinarith

theorem length_squared_nonneg (v : vec3 α) : 0 ≤ v.length_squared := by
  unfold vec3.length_squared
  nlinarith [mul_self_nonneg v.x, mul_self_nonneg v.y, mul_self_nonneg v.z]

theorem length_squared_pos {v : vec3 α} (hv : v ≠ ⟨0, 0, 0⟩) : 0 < v.length_squared := by
  rcases lt_or_eq_of_le (length_squared_nonneg v) with h | h
  · exact h
  · exfalso
    apply hv
    unfold vec3.length_squared at h
    have hx : v.x = 0 := by nlinarith [mul_self_nonneg v.x, mul_self_nonneg v.y, mul_self_nonneg v.z]
    have hy : v.y = 0 := by nlinarith [mul_self_nonneg v.x, mul_self_nonneg v.y, mul_self_nonneg v.z]
    have hz : v.z = 0 := by nlinarith [mul_self_nonneg v.x, mul_self_nonneg v.y, mul_self_nonneg v.z]
    ext <;> assumption

theorem length_nonneg {m : rtweekend α} (hm : m.sqrt_ok) (v : vec3 α) : 0 ≤ v.length m :=
  (hm _ (length_squared_nonneg v)).1

theorem length_mul_self {m : rtweekend α} (hm : m.sqrt_ok) (v : vec3 α) :
    v.length m * v.length m = v.length_squared :=
  (hm _ (length_squared_nonneg v)).2

theorem length_pos {m : rtweekend α} (hm : m.sqrt_ok) {v : vec3 α} (hv : v ≠ ⟨0, 0, 0⟩) :
    0 < v.length m := by
  have h1 := length_nonneg hm v
  have h2 := length_mul_self hm v
  have h3 := length_squared_pos hv
  rcases lt_or_eq_of_le h1 with h | h
  · exact h
  · rw [← h] at h2
    simp at h2
    linarith

theorem length_eq_one_of_sq {m : rtweekend α} (hm : m.sqrt_ok) {v : vec3 α}
    (h : v.length_squared = 1) : v.length m = 1 := by
  have h1 : v.length m = m.sqrt 1 := by
    unfold vec3.length
    unfold vec3.length_squared at h
    rw [h]
  rw [h1, sqrt_one hm]

theorem unit_vector_length_squared {m : rtweekend α} (hm : m.sqrt_ok) {v : vec3 α}
    (hv : v ≠ ⟨0, 0, 0⟩) : (unit_vector m v).length_squared = 1 := by
  have hp := length_pos hm hv
  have hs := length_mul_self hm v
  unfold vec3.length_squared at hs ⊢
  simp only [unit_vector, vec3.div_x, vec3.div_y, vec3.div_z]
  field_simp
  nlinarith

/-! ## C1: the orthonormal basis -/

theorem dot_comm (a b : vec3 α) : dot a b = dot b a := by
  unfold dot; ring

theorem dot_cross_left (a b : vec3 α) : dot a (cross a b) = 0 := by
  simp only [dot, cross_x, cross_y, cross_z]; ring

theorem dot_cross_right (a b : vec3 α) : dot b (cross a b) = 0 := by
  simp only [dot, cross_x, cross_y, cross_z]; ring

theorem length_squared_cross (a b : vec3 α) :
    (cross a b).length_squared = a.length_squared * b.length_squared - dot a b * dot a b := by
  simp only [vec3.length_squared, dot, cross_x, cross_y, cross_z]; ring

theorem dot_unit_vector (m : rtweekend α) (a c : vec3 α) :
    dot a (unit_vector m c) = 1 / c.length m * dot a c := by
  simp only [dot, unit_vector, vec3.div_x, vec3.div_y, vec3.div_z]; ring

theorem onb_helper_cross_ne_zero {w : vec3 α} (hw : w.length_squared = 1) :
    cross w (onb.helper w) ≠ ⟨0, 0, 0⟩ := by
  intro h
  have hx := congrArg vec3.x h
  have hy := congrArg vec3.y h
  have hz := congrArg vec3.z h
  unfold vec3.length_squared at hw
  unfold onb.helper at hx hy hz
  by_cases hc : |w.x| > 0.9
  · simp only [hc, if_true, cross_z] at hz
    have h0 : w.x = 0 := by linarith
    rw [h0, abs_zero] at hc
    norm_num at hc
  · simp only [hc, if_false, cross_y, cross_z] at hy hz
    have hy0 : w.y = 0 := by linarith
    have hz0 : w.z = 0 := by linarith
    rw [hy0, hz0] at hw
    have h1 : |w.x| * |w.x| = 1 := by rw [abs_mul_abs_self]; linarith
    have h2 : |w.x| ≤ 0.9 := not_lt.mp hc
    have h3 : 0 ≤ |w.x| := abs_nonneg _
    have h4 : (0.9 : α) = 9 / 10 := by norm_num
    rw [h4] at h2
    nlinarith

/-- C1: for every non-zero vector `n` the basis `onb(n)` has `w() = n / |n|`
with `|n| > 0` the square root of `n·n`, each of `u()`, `v()`, `w()` has
length 1, the three pairwise dot products are 0, and the helper axis picked by
the `|w.x| > 0.9` cutoff is never parallel to `w`: `cross(w, a)` is not the
zero vector and its length, by which the constructor divides, is positive. -/
theorem onb_orthonormal (m : rtweekend α) (hm : m.sqrt_ok) (n : vec3 α)
    (hn : n ≠ ⟨0, 0, 0⟩) :
    (onb.new m n).w = n / n.length m ∧ 0 < n.length m ∧
    n.length m * n.length m = dot n n ∧
    (onb.new m n).u.length m = 1 ∧ (onb.new m n).v.length m = 1 ∧
    (onb.new m n).w.length m = 1 ∧
    dot (onb.new m n).u (onb.new m n).v = 0 ∧ dot (onb.new m n).u (onb.new m n).w = 0 ∧
    dot (onb.new m n).v (onb.new m n).w = 0 ∧
    cross (onb.new m n).w (onb.helper (onb.new m n).w) ≠ ⟨0, 0, 0⟩ ∧
    0 < (cross (onb.new m n).w (onb.helper (onb.new m n).w)).length m := by
  have hw : (unit_vector m n).length_squared = 1 := unit_vector_length_squared hm hn
  have hc := onb_helper_cross_ne_zero hw
  have hv : (unit_vector m (cross (unit_vector m n) (onb.helper (unit_vector m n)))).length_squared
      = 1 := unit_vector_length_squared hm hc
  have hwv : dot (unit_vector m n)
      (unit_vector m (cross (unit_vector m n) (onb.helper (unit_vector m n)))) = 0 := by
    rw [dot_unit_vector, dot_cross_left, mul_zero]
  have hu : (cross (unit_vector m n)
      (unit_vector m (cross (unit_vector m n) (onb.helper (unit_vector m n))))).length_squared
      = 1 := by
    rw [length_squared_cross, hw, hv, hwv]; ring
  refine ⟨rfl, length_pos hm hn, ?_, length_eq_one_of_sq hm hu, length_eq_one_of_sq hm hv,
    length_eq_one_of_sq hm hw, ?_, ?_, ?_, hc, length_pos hm hc⟩
  · rw [length_mul_self hm]; rfl
  · rw [dot_comm]; exact dot_cross_right _ _
  · rw [dot_comm]; exact dot_cross_left _ _
  · rw [dot_comm]; exact hwv

/-- The reals with `Real.sqrt` and the real trigonometric functions are a
numeric environment in which `std::sqrt` is as assumed. -/
theorem real_env : ∃ m : rtweekend ℝ, m.sqrt = Real.sqrt ∧ m.sqrt_ok :=
  ⟨⟨Real.sqrt, Real.sin, Real.cos, Real.tan, Real.arccos, fun y x => Complex.arg ⟨x, y⟩,
      Real.pi, fun d => d * Real.pi / 180⟩, rfl,
    fun x hx => ⟨Real.sqrt_nonneg x, Real.mul_self_sqrt hx⟩⟩

/-- C1 at the seed `n = (0, 0, 2)` over the reals, with `Real.sqrt` for `std::sqrt`. -/
theorem onb_orthonormal_witness :
    ∃ m : rtweekend ℝ, m.sqrt = Real.sqrt ∧ m.sqrt_ok ∧ (⟨0, 0, 2⟩ : vec3 ℝ) ≠ ⟨0, 0, 0⟩ ∧
      (onb.new m ⟨0, 0, 2⟩).u.length m = 1 ∧ (onb.new m ⟨0, 0, 2⟩).v.length m = 1 ∧
      (onb.new m ⟨0, 0, 2⟩).w.length m = 1 ∧
      dot (onb.new m ⟨0, 0, 2⟩).u (onb.new m ⟨0, 0, 2⟩).v = 0 ∧
      dot (onb.new m ⟨0, 0, 2⟩).u (onb.new m ⟨0, 0, 2⟩).w = 0 ∧
      dot (onb.new m ⟨0, 0, 2⟩).v (onb.new m ⟨0, 0, 2⟩).w = 0 := by
  obtain ⟨m, hs, hm⟩ := real_env
  have h := onb_orthonormal m hm ⟨0, 0, 2⟩ (by simp)
  exact ⟨m, hs, hm, by simp, h.2.2.2.1, h.2.2.2.2.1, h.2.2.2.2.2.1, h.2.2.2.2.2.2.1,
    h.2.2.2.2.2.2.2.1, h.2.2.2.2.2.2.2.2.1⟩

/-! ## Extended doubles and intervals -/

@[simp] theorem fin_lt_fin (a b : α) : xdouble.fin a < xdouble.fin b ↔ a < b := by
  simp [xdouble.fin]

@[simp] theorem fin_le_fin (a b : α) : xdouble.fin a ≤ xdouble.fin b ↔ a ≤ b := by
  simp [xdouble.fin]

@[simp] theorem fin_lt_infinity (a : α) : xdouble.fin a < infinity :=
  WithBot.coe_lt_coe.mpr (WithTop.coe_lt_top a)

@[simp] theorem fin_le_infinity (a : α) : xdouble.fin a ≤ infinity :=
  le_of_lt (fin_lt_infinity a)

theorem surrounds_iff {β : Type} [LinearOrder β] (i : interval β) (x : β) :
    i.surrounds x = true ↔ i.min < x ∧ x < i.max := by
  simp [interval.surrounds]

theorem contains_iff {β : Type} [LinearOrder β] (i : interval β) (x : β) :
    i.contains x = true ↔ i.min ≤ x ∧ x ≤ i.max := by
  simp [interval.contains]

/-! ## The quadratic of `sphere::hit` -/

theorem sphere_hit_eq {M : Type} (s : sphere α M) (m : rtweekend α) (r : ray α)
    (ray_t : interval (xdouble α)) (rec : hit_record α M) :
    s.hit m r ray_t rec =
      if s.discriminant r < 0 ∨ r.direction.length_squared = 0 then (false, rec)
      else if ray_t.surrounds (xdouble.fin (s.root_near m r)) then
        (true, s.record_at m r (s.root_near m r))
      else if ray_t.surrounds (xdouble.fin (s.root_far m r)) then
        (true, s.record_at m r (s.root_far m r))
      else (false, rec) := by
  unfold sphere.hit
  simp only [← sphere.discriminant.eq_1, ← sphere.root_near.eq_1, ← sphere.root_far.eq_1]
  by_cases h1 : s.discriminant r < 0
  · simp [h1]
  by_cases h2 : r.direction.length_squared = 0
  · simp [h1, h2]
  by_cases h3 : ray_t.surrounds (xdouble.fin (s.root_near m r)) = true
  · simp [h1, h2, h3, sphere.record_at, hit_record.set_face_normal]
  by_cases h4 : ray_t.surrounds (xdouble.fin (s.root_far m r)) = true
  · simp [h1, h2, h3, h4, sphere.record_at, hit_record.set_face_normal]
  · simp [h1, h2, h3, h4]

/-- A point lies on the sphere: `|p - center|^2 = radius^2`. -/
theorem sphere_quadratic {M : Type} (s : sphere α M) (r : ray α) (t : α) :
    (r.at' t - s.center).length_squared - s.radius * s.radius =
      r.direction.length_squared * (t * t) - 2 * dot r.direction (s.center - r.origin) * t
        + ((s.center - r.origin).length_squared - s.radius * s.radius) := by
  simp only [ray.at', vec3.length_squared, dot, vec3.add_x, vec3.add_y, vec3.add_z, vec3.sub_x,
    vec3.sub_y, vec3.sub_z, vec3.smul_x, vec3.smul_y, vec3.smul_z]
  ring

theorem quadratic_roots (a h c q t : α) (ha : a ≠ 0) (hq : q * q = h * h - a * c) :
    a * (t * t) - 2 * h * t + c = 0 ↔ t = (h - q) / a ∨ t = (h + q) / a := by
  rw [eq_div_iff ha, eq_div_iff ha]
  have key : (t * a - h - q) * (t * a - h + q) = a * (a * (t * t) - 2 * h * t + c) := by
    have : (t * a - h - q) * (t * a - h + q) = a * (a * (t * t) - 2 * h * t + c)
        + (h * h - a * c) - q * q := by ring
    rw [this, hq]; ring
  constructor
  · intro h0
    rw [h0, mul_zero] at key
    rcases mul_eq_zero.mp key with h2 | h2
    · right; linarith
    · left; linarith
  · intro ht
    have h1 : a * (a * (t * t) - 2 * h * t + c) = 0 := by
      rw [← key]
      rcases ht with ht | ht <;> rw [ht] <;> ring
    rcases mul_eq_zero.mp h1 with h3 | h3
    · exact absurd h3 ha
    · exact h3

theorem quadratic_disc_nonneg (a h c t : α) (h0 : a * (t * t) - 2 * h * t + c = 0) :
    0 ≤ h * h - a * c := by
  have : h * h - a * c = (h - a * t) * (h - a * t) := by
    have : c = 2 * h * t - a * (t * t) := by linarith
    rw [this]; ring
  rw [this]
  exact mul_self_nonneg _

theorem sphere_on_iff_root {M : Type} {m : rtweekend α} (hm : m.sqrt_ok) (s : sphere α M)
    (r : ray α) (ha : r.direction.length_squared ≠ 0) (hd : 0 ≤ s.discriminant r) (t : α) :
    (r.at' t - s.center).length_squared = s.radius * s.radius ↔
      t = s.root_near m r ∨ t = s.root_far m r := by
  have hq := sphere_quadratic s r t
  have hr := quadratic_roots r.direction.length_squared (dot r.direction (s.center - r.origin))
    ((s.center - r.origin).length_squared - s.radius * s.radius) (m.sqrt (s.discriminant r)) t
    ha (hm _ hd).2
  unfold sphere.root_near sphere.root_far
  rw [← hr, ← hq]
  constructor
  · intro h; rw [h]; ring
  · intro h; linarith

theorem sphere_disc_nonneg_of_on {M : Type} (s : sphere α M) (r : ray α) (t : α)
    (ht : (r.at' t - s.center).length_squared = s.radius * s.radius) :
    0 ≤ s.discriminant r := by
  have hq := sphere_quadratic s r t
  apply quadratic_disc_nonneg _ _ _ t
  rw [← hq, ht]; ring

theorem sphere_root_near_le_far {M : Type} {m : rtweekend α} (hm : m.sqrt_ok) (s : sphere α M)
    (r : ray α) (hd : 0 ≤ s.discriminant r) : s.root_near m r ≤ s.root_far m r := by
  obtain ⟨hs0, _⟩ := hm _ hd
  unfold sphere.root_near sphere.root_far
  apply div_le_div_of_nonneg_right _ (length_squared_nonneg _)
  linarith

/-! ## The plane intersection of `quad::hit` -/

theorem quad_hit_eq {M : Type} (q : quad α M) (r : ray α) (ray_t : interval (xdouble α))
    (rec : hit_record α M) :
    q.hit r ray_t rec =
      if |dot q.normal r.direction| < 1e-8 then (false, rec)
      else if ¬ (ray_t.min ≤ xdouble.fin (q.hit_t r) ∧ xdouble.fin (q.hit_t r) ≤ ray_t.max) then
        (false, rec)
      else if ¬ ((0 ≤ q.hit_a r ∧ q.hit_a r ≤ 1) ∧ (0 ≤ q.hit_b r ∧ q.hit_b r ≤ 1)) then
        (false, rec)
      else (true, q.record_at r) := by
  unfold quad.hit
  simp only [← quad.hit_t.eq_1, ← quad.hit_a.eq_1, ← quad.hit_b.eq_1]
  by_cases h1 : |dot q.normal r.direction| < 1e-8
  · simp [h1]
  by_cases h2 : ray_t.min ≤ xdouble.fin (q.hit_t r) ∧ xdouble.fin (q.hit_t r) ≤ ray_t.max
  · by_cases h3 : (0 ≤ q.hit_a r ∧ q.hit_a r ≤ 1) ∧ (0 ≤ q.hit_b r ∧ q.hit_b r ≤ 1)
    · have c2 : ray_t.contains (xdouble.fin (q.hit_t r)) = true := (contains_iff _ _).mpr h2
      have ca : (⟨0, 1⟩ : interval α).contains (q.hit_a r) = true := (contains_iff _ _).mpr h3.1
      have cb : (⟨0, 1⟩ : interval α).contains (q.hit_b r) = true := (contains_iff _ _).mpr h3.2
      simp [h1, h2, h3, c2, ca, cb, quad.is_interior, quad.record_at,
        hit_record.set_face_normal]
    · have c2 : ray_t.contains (xdouble.fin (q.hit_t r)) = true := (contains_iff _ _).mpr h2
      have cab : (!(⟨0, 1⟩ : interval α).contains (q.hit_a r)
          || !(⟨0, 1⟩ : interval α).contains (q.hit_b r)) = true := by
        by_contra hc
        apply h3
        simp only [Bool.or_eq_true, Bool.not_eq_true', not_or, Bool.not_eq_false] at hc
        exact ⟨(contains_iff _ _).mp hc.1, (contains_iff _ _).mp hc.2⟩
      simp [h1, h2, h3, c2, quad.is_interior, cab]
  · have c2 : ray_t.contains (xdouble.fin (q.hit_t r)) = false := by
      rw [← Bool.not_eq_true, contains_iff]; exact h2
    simp [h1, h2, c2]

/-! ## What a successful `hit` of a primitive returns -/

theorem sphere_hit_true_iff {M : Type} (s : sphere α M) (m : rtweekend α) (r : ray α)
    (ray_t : interval (xdouble α)) (rec : hit_record α M) :
    (s.hit m r ray_t rec).1 = true ↔
      0 ≤ s.discriminant r ∧ r.direction.length_squared ≠ 0 ∧
        ((ray_t.min < xdouble.fin (s.root_near m r) ∧ xdouble.fin (s.root_near m r) < ray_t.max) ∨
         (ray_t.min < xdouble.fin (s.root_far m r) ∧ xdouble.fin (s.root_far m r) < ray_t.max)) := by
  rw [sphere_hit_eq, ← surrounds_iff, ← surrounds_iff]
  by_cases h1 : s.discriminant r < 0 ∨ r.direction.length_squared = 0
  · rw [if_pos h1]
    simp only [Bool.false_eq_true, false_iff, not_and]
    intro h2 h3
    rcases h1 with h1 | h1
    · exact absurd h2 (not_le.mpr h1)
    · exact absurd h1 h3
  · rw [if_neg h1]
    rw [not_or, not_lt] at h1
    by_cases h3 : ray_t.surrounds (xdouble.fin (s.root_near m r)) = true
    · simp [h1.1, h1.2, h3]
    · by_cases h4 : ray_t.surrounds (xdouble.fin (s.root_far m r)) = true
      · simp [h1.1, h1.2, h3, h4]
      · simp [h1.1, h1.2, h3, h4]

theorem sphere_hit_record {M : Type} (s : sphere α M) (m : rtweekend α) (r : ray α)
    (ray_t : interval (xdouble α)) (rec : hit_record α M)
    (hit : (s.hit m r ray_t rec).1 = true) :
    (s.hit m r ray_t rec).2 = s.record_at m r
      (if ray_t.min < xdouble.fin (s.root_near m r) ∧ xdouble.fin (s.root_near m r) < ray_t.max
       then s.root_near m r else s.root_far m r) := by
  rw [sphere_hit_eq] at hit ⊢
  by_cases h1 : s.discriminant r < 0 ∨ r.direction.length_squared = 0
  · rw [if_pos h1] at hit; simp at hit
  · rw [if_neg h1] at hit ⊢
    by_cases h3 : ray_t.surrounds (xdouble.fin (s.root_near m r)) = true
    · rw [if_pos h3, if_pos ((surrounds_iff _ _).mp h3)]
    · rw [if_neg h3] at hit ⊢
      rw [if_neg (fun h => h3 ((surrounds_iff _ _).mpr h))]
      by_cases h4 : ray_t.surrounds (xdouble.fin (s.root_far m r)) = true
      · rw [if_pos h4]
      · rw [if_neg h4] at hit; simp at hit

theorem sphere_hit_false {M : Type} (s : sphere α M) (m : rtweekend α) (r : ray α)
    (ray_t : interval (xdouble α)) (rec : hit_record α M)
    (hit : (s.hit m r ray_t rec).1 = false) : (s.hit m r ray_t rec).2 = rec := by
  rw [sphere_hit_eq] at hit ⊢
  split_ifs at hit ⊢ <;> simp_all

theorem quad_hit_true_iff {M : Type} (q : quad α M) (r : ray α) (ray_t : interval (xdouble α))
    (rec : hit_record α M) :
    (q.hit r ray_t rec).1 = true ↔
      ¬ |dot q.normal r.direction| < 1e-8 ∧
      (ray_t.min ≤ xdouble.fin (q.hit_t r) ∧ xdouble.fin (q.hit_t r) ≤ ray_t.max) ∧
      ((0 ≤ q.hit_a r ∧ q.hit_a r ≤ 1) ∧ (0 ≤ q.hit_b r ∧ q.hit_b r ≤ 1)) := by
  rw [quad_hit_eq]
  by_cases h1 : |dot q.normal r.direction| < 1e-8
  · rw [if_pos h1]
    exact ⟨fun h => by simp at h, fun h => absurd h1 h.1⟩
  rw [if_neg h1]
  by_cases h2 : ray_t.min ≤ xdouble.fin (q.hit_t r) ∧ xdouble.fin (q.hit_t r) ≤ ray_t.max
  · rw [if_neg (not_not.mpr h2)]
    by_cases h3 : (0 ≤ q.hit_a r ∧ q.hit_a r ≤ 1) ∧ (0 ≤ q.hit_b r ∧ q.hit_b r ≤ 1)
    · rw [if_neg (not_not.mpr h3)]
      exact ⟨fun _ => ⟨h1, h2, h3⟩, fun _ => rfl⟩
    · rw [if_pos h3]
      exact ⟨fun h => by simp at h, fun h => absurd h.2.2 h3⟩
  · rw [if_pos h2]
    exact ⟨fun h => by simp at h, fun h => absurd h.2.1 h2⟩

theorem quad_hit_record {M : Type} (q : quad α M) (r : ray α) (ray_t : interval (xdouble α))
    (rec : hit_record α M) (hit : (q.hit r ray_t rec).1 = true) :
    (q.hit r ray_t rec).2 = q.record_at r := by
  rw [quad_hit_eq] at hit ⊢
  split_ifs at hit ⊢ <;> simp_all

theorem sqrt_mul_self {m : rtweekend α} (hm : m.sqrt_ok) {y : α} (hy : 0 ≤ y) :
    m.sqrt (y * y) = y := by
  obtain ⟨h0, h1⟩ := hm (y * y) (mul_self_nonneg y)
  have h2 : (m.sqrt (y * y) - y) * (m.sqrt (y * y) + y) = 0 := by
    have : (m.sqrt (y * y) - y) * (m.sqrt (y * y) + y)
        = m.sqrt (y * y) * m.sqrt (y * y) - y * y := by ring
    rw [this, h1]; ring
  rcases mul_eq_zero.mp h2 with h3 | h3
  · linarith
  · have h4 : m.sqrt (y * y) = 0 := by linarith
    have h5 : y = 0 := by linarith
    rw [h4, h5]

/-- A ray of unit direction aimed exactly at the centre of a sphere at distance
`d > radius`: the discriminant is `radius²` and the nearer root `d - radius`. -/
theorem sphere_aimed_at_center {M : Type} {m : rtweekend α} (hm : m.sqrt_ok) (s : sphere α M)
    (r : ray α) (d : α) (hr : 0 ≤ s.radius) (hunit : r.direction.length_squared = 1)
    (haim : s.center = r.at' d) :
    s.discriminant r = s.radius * s.radius ∧ s.root_near m r = d - s.radius ∧
      s.root_far m r = d + s.radius := by
  have hoc : s.center - r.origin = d * r.direction := by
    rw [haim]
    ext <;> simp [ray.at']
  have hh : dot r.direction (s.center - r.origin) = d := by
    rw [hoc]
    unfold vec3.length_squared at hunit
    simp only [dot, vec3.smul_x, vec3.smul_y, vec3.smul_z]
    linear_combination d * hunit
  have hc : (s.center - r.origin).length_squared = d * d := by
    rw [hoc]
    unfold vec3.length_squared at hunit ⊢
    simp only [vec3.smul_x, vec3.smul_y, vec3.smul_z]
    linear_combination d * d * hunit
  have hdisc : s.discriminant r = s.radius * s.radius := by
    show dot r.direction (s.center - r.origin) * dot r.direction (s.center - r.origin)
      - r.direction.length_squared *
        ((s.center - r.origin).length_squared - s.radius * s.radius) = _
    rw [hh, hc, hunit]; ring
  refine ⟨hdisc, ?_, ?_⟩
  · unfold sphere.root_near
    rw [hh, hdisc, sqrt_mul_self hm hr, hunit, div_one]
  · unfold sphere.root_far
    rw [hh, hdisc, sqrt_mul_self hm hr, hunit, div_one]

/-! ## The geometry of `quad::hit` -/

theorem abs_ne_zero_of_not_lt {x : α} (h : ¬ |x| < 1e-8) : x ≠ 0 := by
  intro h0
  apply h
  rw [h0, abs_zero]
  norm_num

theorem quad_plane {M : Type} (q : quad α M) (r : ray α) (hD : q.D = dot q.normal q.Q)
    (hnd : dot q.normal r.direction ≠ 0) :
    dot q.normal (r.at' (q.hit_t r) - q.Q) = 0 := by
  have h1 : dot q.normal (r.at' (q.hit_t r) - q.Q) =
      dot q.normal r.origin + q.hit_t r * dot q.normal r.direction - dot q.normal q.Q := by
    simp only [dot, ray.at', vec3.add_x, vec3.add_y, vec3.add_z, vec3.sub_x, vec3.sub_y,
      vec3.sub_z, vec3.smul_x, vec3.smul_y, vec3.smul_z]
    ring
  rw [h1, quad.hit_t, div_mul_cancel₀ _ hnd, hD]
  ring

theorem plane_decomposition (u v p : vec3 α) :
    dot (cross u v) (cross u v) * p =
      dot (cross u v) (cross p v) * u + dot (cross u v) (cross u p) * v
        + dot (cross u v) p * cross u v := by
  ext <;> simp only [dot, cross_x, cross_y, cross_z, vec3.add_x, vec3.add_y, vec3.add_z,
    vec3.smul_x, vec3.smul_y, vec3.smul_z] <;> ring

theorem dot_self_pos {n : vec3 α} (hn : n ≠ ⟨0, 0, 0⟩) : 0 < dot n n :=
  length_squared_pos hn

/-- For a quad built by the constructor on non-parallel edges, the point where
the ray meets the plane is `Q + a·u + b·v` for the locals `a` and `b` of `hit`. -/
theorem quad_point_decomposes {M : Type} {m : rtweekend α} (hm : m.sqrt_ok) (Q : point3 α)
    (u v : vec3 α) (mat : M) (r : ray α) (huv : cross u v ≠ ⟨0, 0, 0⟩)
    (hnd : dot (quad.new m Q u v mat).normal r.direction ≠ 0) :
    r.at' ((quad.new m Q u v mat).hit_t r) =
      Q + (quad.new m Q u v mat).hit_a r * u + (quad.new m Q u v mat).hit_b r * v := by
  have hplane := quad_plane (quad.new m Q u v mat) r rfl hnd
  set p := r.at' ((quad.new m Q u v mat).hit_t r) - Q with hp
  have hlen := length_pos hm huv
  have hnn := dot_self_pos huv
  have hnp : dot (cross u v) p = 0 := by
    have h1 : dot (quad.new m Q u v mat).normal p = 1 / (cross u v).length m * dot (cross u v) p := by
      show dot (unit_vector m (cross u v)) p = _
      rw [dot_comm, dot_unit_vector, dot_comm]
    have h2 : dot (quad.new m Q u v mat).normal p = 0 := hplane
    rw [h1] at h2
    rcases mul_eq_zero.mp h2 with h3 | h3
    · exact absurd h3 (one_div_ne_zero hlen.ne')
    · exact h3
  have ha : (quad.new m Q u v mat).hit_a r = 1 / dot (cross u v) (cross u v)
      * dot (cross u v) (cross p v) := by
    show dot (cross u v / dot (cross u v) (cross u v)) (cross p v) = _
    simp only [dot, vec3.div_x, vec3.div_y, vec3.div_z]; ring
  have hb : (quad.new m Q u v mat).hit_b r = 1 / dot (cross u v) (cross u v)
      * dot (cross u v) (cross u p) := by
    show dot (cross u v / dot (cross u v) (cross u v)) (cross u p) = _
    simp only [dot, vec3.div_x, vec3.div_y, vec3.div_z]; ring
  have hdec := plane_decomposition u v p
  rw [hnp] at hdec
  have hx := congrArg vec3.x hdec
  have hy := congrArg vec3.y hdec
  have hz := congrArg vec3.z hdec
  simp only [vec3.add_x, vec3.add_y, vec3.add_z, vec3.smul_x, vec3.smul_y, vec3.smul_z] at hx hy hz
  have hpx : p.x = (quad.new m Q u v mat).hit_a r * u.x + (quad.new m Q u v mat).hit_b r * v.x := by
    rw [ha, hb]; field_simp; linarith
  have hpy : p.y = (quad.new m Q u v mat).hit_a r * u.y + (quad.new m Q u v mat).hit_b r * v.y := by
    rw [ha, hb]; field_simp; linarith
  have hpz : p.z = (quad.new m Q u v mat).hit_a r * u.z + (quad.new m Q u v mat).hit_b r * v.z := by
    rw [ha, hb]; field_simp; linarith
  have hpx' : p.x = (r.at' ((quad.new m Q u v mat).hit_t r)).x - Q.x := rfl
  have hpy' : p.y = (r.at' ((quad.new m Q u v mat).hit_t r)).y - Q.y := rfl
  have hpz' : p.z = (r.at' ((quad.new m Q u v mat).hit_t r)).z - Q.z := rfl
  ext
  · simp only [vec3.add_x, vec3.smul_x]; linarith
  · simp only [vec3.add_y, vec3.smul_y]; linarith
  · simp only [vec3.add_z, vec3.smul_z]; linarith

/-! ## The unit quad with corner (0,0,0) and edges (1,0,0), (0,1,0) -/

theorem unit_quad_cross : cross (⟨1, 0, 0⟩ : vec3 α) ⟨0, 1, 0⟩ = ⟨0, 0, 1⟩ := by
  ext <;> simp

theorem unit_quad_fields {M : Type} {m : rtweekend α} (hm : m.sqrt_ok) (mat : M) :
    (quad.new m (⟨0, 0, 0⟩ : vec3 α) ⟨1, 0, 0⟩ ⟨0, 1, 0⟩ mat).normal = ⟨0, 0, 1⟩ ∧
    (quad.new m (⟨0, 0, 0⟩ : vec3 α) ⟨1, 0, 0⟩ ⟨0, 1, 0⟩ mat).D = 0 ∧
    (quad.new m (⟨0, 0, 0⟩ : vec3 α) ⟨1, 0, 0⟩ ⟨0, 1, 0⟩ mat).w = ⟨0, 0, 1⟩ := by
  have hl : (⟨0, 0, 1⟩ : vec3 α).length m = 1 :=
    length_eq_one_of_sq hm (by simp [vec3.length_squared])
  have hn : (quad.new m (⟨0, 0, 0⟩ : vec3 α) ⟨1, 0, 0⟩ ⟨0, 1, 0⟩ mat).normal = ⟨0, 0, 1⟩ := by
    show unit_vector m (cross (⟨1, 0, 0⟩ : vec3 α) ⟨0, 1, 0⟩) = _
    rw [unit_quad_cross]
    ext <;> simp [unit_vector, hl]
  refine ⟨hn, ?_, ?_⟩
  · show dot (quad.new m (⟨0, 0, 0⟩ : vec3 α) ⟨1, 0, 0⟩ ⟨0, 1, 0⟩ mat).normal ⟨0, 0, 0⟩ = 0
    simp [dot]
  · show cross (⟨1, 0, 0⟩ : vec3 α) ⟨0, 1, 0⟩
      / dot (cross (⟨1, 0, 0⟩ : vec3 α) ⟨0, 1, 0⟩) (cross (⟨1, 0, 0⟩ : vec3 α) ⟨0, 1, 0⟩) = _
    rw [unit_quad_cross]
    ext <;> simp [dot]

/-- The locals of `quad::hit` on the unit quad for a ray that passes through
its centre `(0.5, 0.5, 0)` at the parameter `t0` and is not near-parallel. -/
theorem unit_quad_locals {M : Type} {m : rtweekend α} (hm : m.sqrt_ok) (mat : M) (r : ray α)
    (t0 : α) (hc : r.at' t0 = ⟨0.5, 0.5, 0⟩) :
    dot (quad.new m (⟨0, 0, 0⟩ : vec3 α) ⟨1, 0, 0⟩ ⟨0, 1, 0⟩ mat).normal r.direction
      = r.direction.z ∧
    (r.direction.z ≠ 0 →
      (quad.new m (⟨0, 0, 0⟩ : vec3 α) ⟨1, 0, 0⟩ ⟨0, 1, 0⟩ mat).hit_t r = t0 ∧
      (quad.new m (⟨0, 0, 0⟩ : vec3 α) ⟨1, 0, 0⟩ ⟨0, 1, 0⟩ mat).hit_a r = 0.5 ∧
      (quad.new m (⟨0, 0, 0⟩ : vec3 α) ⟨1, 0, 0⟩ ⟨0, 1, 0⟩ mat).hit_b r = 0.5) := by
  obtain ⟨hn, hD, hw⟩ := unit_quad_fields hm mat
  have hnd : dot (quad.new m (⟨0, 0, 0⟩ : vec3 α) ⟨1, 0, 0⟩ ⟨0, 1, 0⟩ mat).normal r.direction
      = r.direction.z := by
    rw [hn]; simp [dot]
  refine ⟨hnd, fun hz => ?_⟩
  have hcz : r.origin.z + t0 * r.direction.z = 0 := by
    have := congrArg vec3.z hc
    simpa [ray.at'] using this
  have ht : (quad.new m (⟨0, 0, 0⟩ : vec3 α) ⟨1, 0, 0⟩ ⟨0, 1, 0⟩ mat).hit_t r = t0 := by
    unfold quad.hit_t
    rw [hnd, hD, hn, eq_comm, eq_div_iff hz]
    simp only [dot]
    linarith
  refine ⟨ht, ?_, ?_⟩
  · unfold quad.hit_a
    rw [ht, hc, hw]
    show dot (⟨0, 0, 1⟩ : vec3 α) (cross ((⟨0.5, 0.5, 0⟩ : vec3 α) - ⟨0, 0, 0⟩) ⟨0, 1, 0⟩) = 0.5
    simp [dot]
  · unfold quad.hit_b
    rw [ht, hc, hw]
    show dot (⟨0, 0, 1⟩ : vec3 α) (cross ⟨1, 0, 0⟩ ((⟨0.5, 0.5, 0⟩ : vec3 α) - ⟨0, 0, 0⟩)) = 0.5
    simp [dot]

theorem unit_quad_hit_iff {M : Type} {m : rtweekend α} (hm : m.sqrt_ok) (mat : M) (r : ray α)
    (ray_t : interval (xdouble α)) (rec : hit_record α M) (t0 : α)
    (hc : r.at' t0 = ⟨0.5, 0.5, 0⟩) :
    ((quad.new m (⟨0, 0, 0⟩ : vec3 α) ⟨1, 0, 0⟩ ⟨0, 1, 0⟩ mat).hit r ray_t rec).1 = true ↔
      ¬ |r.direction.z| < 1e-8 ∧ ray_t.min ≤ xdouble.fin t0 ∧ xdouble.fin t0 ≤ ray_t.max := by
  obtain ⟨hnd, hloc⟩ := unit_quad_locals hm mat r t0 hc
  rw [quad_hit_true_iff, hnd]
  constructor
  · rintro ⟨h1, h2, _⟩
    obtain ⟨ht, _, _⟩ := hloc (abs_ne_zero_of_not_lt h1)
    rw [ht] at h2
    exact ⟨h1, h2.1, h2.2⟩
  · rintro ⟨h1, h2, h3⟩
    obtain ⟨ht, ha, hb⟩ := hloc (abs_ne_zero_of_not_lt h1)
    rw [ht, ha, hb]
    refine ⟨h1, ⟨h2, h3⟩, ?_⟩
    norm_num

theorem sphere_new_radius {M : Type} (center : point3 α) {radius : α} (mat : M)
    (hr : 0 ≤ radius) : (sphere.new center radius mat).radius = radius :=
  max_eq_right hr

/-- A ray of unit direction aimed exactly at the centre of a sphere, at
distance `d`, for which `d - radius` is strictly inside `ray_t`: `hit` returns
`true` with `t = d - radius`. -/
theorem sphere_center_hit {M : Type} {m : rtweekend α} (hm : m.sqrt_ok) (center : point3 α)
    (radius : α) (mat : M) (r : ray α) (ray_t : interval (xdouble α)) (rec : hit_record α M)
    (d : α) (hr : 0 ≤ radius) (hunit : r.direction.length_squared = 1)
    (haim : center = r.at' d)
    (hin : ray_t.min < xdouble.fin (d - radius) ∧ xdouble.fin (d - radius) < ray_t.max) :
    ((sphere.new center radius mat).hit m r ray_t rec).1 = true ∧
    ((sphere.new center radius mat).hit m r ray_t rec).2.t = d - radius := by
  have hrad := sphere_new_radius center mat hr
  obtain ⟨hdisc, hnear, _⟩ := sphere_aimed_at_center hm (sphere.new center radius mat) r d
    (by rw [hrad]; exact hr) hunit haim
  rw [hrad] at hdisc hnear
  have hit : ((sphere.new center radius mat).hit m r ray_t rec).1 = true := by
    rw [sphere_hit_true_iff, hdisc, hnear, hunit]
    exact ⟨mul_self_nonneg _, one_ne_zero, Or.inl hin⟩
  refine ⟨hit, ?_⟩
  rw [sphere_hit_record _ _ _ _ _ hit, hnear, if_pos hin]
  rfl
/-! ## C2: the parameter lies in the interval and the point on the ray -/

/-- C2: when `sphere::hit` (radius > 0, non-zero ray direction) returns `true`
the recorded `t` is strictly inside `ray_t` and `rec.p = r.origin + rec.t *
r.direction`; when `quad::hit` (non-parallel edges) returns `true` the recorded
`t` is contained in `ray_t`, bounds included, and `rec.p = r.origin + rec.t *
r.direction`. -/
theorem hit_parameter_in_interval {M : Type} (m : rtweekend α) (center : point3 α)
    (radius : α) (Q : point3 α) (u v : vec3 α) (mat : M) (r : ray α)
    (ray_t : interval (xdouble α)) (rec : hit_record α M)
    (_hradius : 0 < radius) (_hdir : r.direction ≠ ⟨0, 0, 0⟩)
    (_huv : cross u v ≠ ⟨0, 0, 0⟩) :
    (((sphere.new center radius mat).hit m r ray_t rec).1 = true →
      ray_t.min < xdouble.fin ((sphere.new center radius mat).hit m r ray_t rec).2.t ∧
      xdouble.fin ((sphere.new center radius mat).hit m r ray_t rec).2.t < ray_t.max ∧
      ((sphere.new center radius mat).hit m r ray_t rec).2.p =
        r.origin + ((sphere.new center radius mat).hit m r ray_t rec).2.t * r.direction) ∧
    (((quad.new m Q u v mat).hit r ray_t rec).1 = true →
      ray_t.min ≤ xdouble.fin ((quad.new m Q u v mat).hit r ray_t rec).2.t ∧
      xdouble.fin ((quad.new m Q u v mat).hit r ray_t rec).2.t ≤ ray_t.max ∧
      ((quad.new m Q u v mat).hit r ray_t rec).2.p =
        r.origin + ((quad.new m Q u v mat).hit r ray_t rec).2.t * r.direction) := by
  constructor
  · intro hit
    rw [sphere_hit_record _ _ _ _ _ hit]
    obtain ⟨_, _, h3⟩ := (sphere_hit_true_iff _ _ _ _ _).mp hit
    refine ⟨?_, ?_, rfl⟩
    · simp only [sphere.record_at]
      split_ifs with h4
      · exact h4.1
      · exact (h3.resolve_left h4).1
    · simp only [sphere.record_at]
      split_ifs with h4
      · exact h4.2
      · exact (h3.resolve_left h4).2
  · intro hit
    rw [quad_hit_record _ _ _ _ hit]
    obtain ⟨_, h2, _⟩ := (quad_hit_true_iff _ _ _ _).mp hit
    exact ⟨h2.1, h2.2, rfl⟩

/-- C2 over the reals: the ray from `(0.5, 0.5, 1)` along `(0, 0, -1)` hits the
sphere of centre `(0.5, 0.5, -4)` and radius 2 and the unit quad within
`(0.001, infinity)`. -/
theorem hit_parameter_in_interval_witness :
    ∃ m : rtweekend ℝ, m.sqrt = Real.sqrt ∧ m.sqrt_ok ∧ (0 : ℝ) < 2 ∧
      (⟨0, 0, -1⟩ : vec3 ℝ) ≠ ⟨0, 0, 0⟩ ∧ cross (⟨1, 0, 0⟩ : vec3 ℝ) ⟨0, 1, 0⟩ ≠ ⟨0, 0, 0⟩ ∧
      ((sphere.new (⟨0.5, 0.5, -4⟩ : vec3 ℝ) 2 ()).hit m ⟨⟨0.5, 0.5, 1⟩, ⟨0, 0, -1⟩⟩
        ⟨xdouble.fin 0.001, infinity⟩ ⟨⟨0, 0, 0⟩, ⟨0, 0, 0⟩, (), 0, 0, 0, false⟩).1 = true ∧
      ((sphere.new (⟨0.5, 0.5, -4⟩ : vec3 ℝ) 2 ()).hit m ⟨⟨0.5, 0.5, 1⟩, ⟨0, 0, -1⟩⟩
        ⟨xdouble.fin 0.001, infinity⟩ ⟨⟨0, 0, 0⟩, ⟨0, 0, 0⟩, (), 0, 0, 0, false⟩).2.p =
        (⟨0.5, 0.5, 1⟩ : vec3 ℝ) +
          ((sphere.new (⟨0.5, 0.5, -4⟩ : vec3 ℝ) 2 ()).hit m ⟨⟨0.5, 0.5, 1⟩, ⟨0, 0, -1⟩⟩
            ⟨xdouble.fin 0.001, infinity⟩ ⟨⟨0, 0, 0⟩, ⟨0, 0, 0⟩, (), 0, 0, 0, false⟩).2.t
            * (⟨0, 0, -1⟩ : vec3 ℝ) ∧
      ((quad.new m (⟨0, 0, 0⟩ : vec3 ℝ) ⟨1, 0, 0⟩ ⟨0, 1, 0⟩ ()).hit ⟨⟨0.5, 0.5, 1⟩, ⟨0, 0, -1⟩⟩
        ⟨xdouble.fin 0.001, infinity⟩ ⟨⟨0, 0, 0⟩, ⟨0, 0, 0⟩, (), 0, 0, 0, false⟩).1 = true ∧
      xdouble.fin 0.001 ≤ xdouble.fin
        ((quad.new m (⟨0, 0, 0⟩ : vec3 ℝ) ⟨1, 0, 0⟩ ⟨0, 1, 0⟩ ()).hit
          ⟨⟨0.5, 0.5, 1⟩, ⟨0, 0, -1⟩⟩ ⟨xdouble.fin 0.001, infinity⟩
          ⟨⟨0, 0, 0⟩, ⟨0, 0, 0⟩, (), 0, 0, 0, false⟩).2.t := by
  obtain ⟨m, hsq, hm⟩ := real_env
  have hdir : (⟨0, 0, -1⟩ : vec3 ℝ) ≠ ⟨0, 0, 0⟩ := by simp
  have huv : cross (⟨1, 0, 0⟩ : vec3 ℝ) ⟨0, 1, 0⟩ ≠ ⟨0, 0, 0⟩ := by simp [cross]
  have hs := sphere_center_hit hm (⟨0.5, 0.5, -4⟩ : vec3 ℝ) 2 () ⟨⟨0.5, 0.5, 1⟩, ⟨0, 0, -1⟩⟩
    ⟨xdouble.fin 0.001, infinity⟩ ⟨⟨0, 0, 0⟩, ⟨0, 0, 0⟩, (), 0, 0, 0, false⟩ 5 (by norm_num)
    (by simp [vec3.length_squared]) (by ext <;> simp [ray.at'] <;> norm_num)
    ⟨by simp; norm_num, by simp⟩
  have hq := (unit_quad_hit_iff hm () ⟨⟨0.5, 0.5, 1⟩, ⟨0, 0, -1⟩⟩
    ⟨xdouble.fin 0.001, infinity⟩ ⟨⟨0, 0, 0⟩, ⟨0, 0, 0⟩, (), 0, 0, 0, false⟩ 1
    (by ext <;> simp [ray.at'])).mpr ⟨by norm_num, by simp; norm_num, by simp⟩
  have h := hit_parameter_in_interval m (⟨0.5, 0.5, -4⟩ : vec3 ℝ) 2 (⟨0, 0, 0⟩ : vec3 ℝ)
    ⟨1, 0, 0⟩ ⟨0, 1, 0⟩ () ⟨⟨0.5, 0.5, 1⟩, ⟨0, 0, -1⟩⟩ ⟨xdouble.fin 0.001, infinity⟩
    ⟨⟨0, 0, 0⟩, ⟨0, 0, 0⟩, (), 0, 0, 0, false⟩ (by norm_num) hdir huv
  exact ⟨m, hsq, hm, by norm_num, hdir, huv, hs.1, (h.1 hs.1).2.2, hq, (h.2 hq).1⟩

/-! ## C3 and C8: the wrappers `translate` and `rotate_y` -/

theorem translate_hit_true {M G : Type} (w : translate α M G) (r : ray α)
    (ray_t : interval (xdouble α)) (rec : hit_record α M)
    (h : (w.object.hit ⟨r.origin - w.offset, r.direction⟩ ray_t rec).1 = true) :
    w.hit r ray_t rec = (true,
      { (w.object.hit ⟨r.origin - w.offset, r.direction⟩ ray_t rec).2 with
        p := (w.object.hit ⟨r.origin - w.offset, r.direction⟩ ray_t rec).2.p + w.offset }) := by
  rcases hc : w.object.hit ⟨r.origin - w.offset, r.direction⟩ ray_t rec with ⟨b, rec1⟩
  rw [hc] at h
  simp only at h
  subst h
  simp only [translate.hit, hc]

theorem translate_hit_false {M G : Type} (w : translate α M G) (r : ray α)
    (ray_t : interval (xdouble α)) (rec : hit_record α M)
    (h : (w.object.hit ⟨r.origin - w.offset, r.direction⟩ ray_t rec).1 = false) :
    w.hit r ray_t rec =
      (false, (w.object.hit ⟨r.origin - w.offset, r.direction⟩ ray_t rec).2) := by
  rcases hc : w.object.hit ⟨r.origin - w.offset, r.direction⟩ ray_t rec with ⟨b, rec1⟩
  rw [hc] at h
  simp only at h
  subst h
  simp only [translate.hit, hc]

theorem rotate_y_hit_true {M G : Type} (w : rotate_y α M G) (r : ray α)
    (ray_t : interval (xdouble α)) (rec : hit_record α M)
    (h : (w.object.hit ⟨w.to_object r.origin, w.to_object r.direction⟩ ray_t rec).1 = true) :
    w.hit r ray_t rec = (true,
      { (w.object.hit ⟨w.to_object r.origin, w.to_object r.direction⟩ ray_t rec).2 with
        p := w.to_world
          (w.object.hit ⟨w.to_object r.origin, w.to_object r.direction⟩ ray_t rec).2.p
        normal := w.to_world
          (w.object.hit ⟨w.to_object r.origin, w.to_object r.direction⟩ ray_t rec).2.normal }) := by
  rcases hc : w.object.hit ⟨w.to_object r.origin, w.to_object r.direction⟩ ray_t rec
    with ⟨b, rec1⟩
  rw [hc] at h
  simp only at h
  subst h
  simp only [rotate_y.hit, hc]

theorem rotate_y_hit_false {M G : Type} (w : rotate_y α M G) (r : ray α)
    (ray_t : interval (xdouble α)) (rec : hit_record α M)
    (h : (w.object.hit ⟨w.to_object r.origin, w.to_object r.direction⟩ ray_t rec).1 = false) :
    w.hit r ray_t rec =
      (false, (w.object.hit ⟨w.to_object r.origin, w.to_object r.direction⟩ ray_t rec).2) := by
  rcases hc : w.object.hit ⟨w.to_object r.origin, w.to_object r.direction⟩ ray_t rec
    with ⟨b, rec1⟩
  rw [hc] at h
  simp only at h
  subst h
  simp only [rotate_y.hit, hc]

/-- Rotating into object space and back is the identity when `sin² + cos² = 1`. -/
theorem rotate_y_to_world_to_object {M G : Type} (w : rotate_y α M G)
    (htrig : w.sin_theta * w.sin_theta + w.cos_theta * w.cos_theta = 1) (a : vec3 α) :
    w.to_world (w.to_object a) = a := by
  ext
  · simp only [rotate_y.to_world, rotate_y.to_object]
    linear_combination a.x * htrig
  · rfl
  · simp only [rotate_y.to_world, rotate_y.to_object]
    linear_combination a.z * htrig

theorem rotate_y_to_world_add {M G : Type} (w : rotate_y α M G) (a b : vec3 α) :
    w.to_world (a + b) = w.to_world a + w.to_world b := by
  ext <;> simp only [rotate_y.to_world, vec3.add_x, vec3.add_y, vec3.add_z] <;> ring

theorem rotate_y_to_world_smul {M G : Type} (w : rotate_y α M G) (t : α) (a : vec3 α) :
    w.to_world (t * a) = t * w.to_world a := by
  ext <;> simp only [rotate_y.to_world, vec3.smul_x, vec3.smul_y, vec3.smul_z] <;> ring

/-- C3: `translate` and `rotate_y` preserve the hit contract.  If the child's
`hit` on the transformed ray returns `true` with a record whose point is the
transformed ray at the recorded `t`, then the wrapper's `hit` returns `true`
with the same `t` (so `t` is in `ray_t`, strictly or inclusively, whenever the
child's is) and its point is `r.origin + t * r.direction` for the original ray
`r`; for `rotate_y` this uses `sin_theta² + cos_theta² = 1`. -/
theorem wrappers_preserve_hit_contract {M G : Type} (object : hittable α M G) (offset : vec3 α)
    (sin_theta cos_theta : α) (bbox : aabb (xdouble α)) (r : ray α)
    (ray_t : interval (xdouble α)) (rec : hit_record α M)
    (htrig : sin_theta * sin_theta + cos_theta * cos_theta = 1) :
    ((object.hit ⟨r.origin - offset, r.direction⟩ ray_t rec).1 = true →
      (object.hit ⟨r.origin - offset, r.direction⟩ ray_t rec).2.p =
        (⟨r.origin - offset, r.direction⟩ : ray α).at'
          (object.hit ⟨r.origin - offset, r.direction⟩ ray_t rec).2.t →
      ((⟨object, offset, bbox⟩ : translate α M G).hit r ray_t rec).1 = true ∧
      ((⟨object, offset, bbox⟩ : translate α M G).hit r ray_t rec).2.t =
        (object.hit ⟨r.origin - offset, r.direction⟩ ray_t rec).2.t ∧
      ((⟨object, offset, bbox⟩ : translate α M G).hit r ray_t rec).2.p =
        r.origin + ((⟨object, offset, bbox⟩ : translate α M G).hit r ray_t rec).2.t
          * r.direction) ∧
    ((object.hit ⟨(⟨object, sin_theta, cos_theta, bbox⟩ : rotate_y α M G).to_object r.origin,
        (⟨object, sin_theta, cos_theta, bbox⟩ : rotate_y α M G).to_object r.direction⟩
        ray_t rec).1 = true →
      (object.hit ⟨(⟨object, sin_theta, cos_theta, bbox⟩ : rotate_y α M G).to_object r.origin,
        (⟨object, sin_theta, cos_theta, bbox⟩ : rotate_y α M G).to_object r.direction⟩
        ray_t rec).2.p =
        (⟨(⟨object, sin_theta, cos_theta, bbox⟩ : rotate_y α M G).to_object r.origin,
          (⟨object, sin_theta, cos_theta, bbox⟩ : rotate_y α M G).to_object r.direction⟩
          : ray α).at'
          (object.hit
            ⟨(⟨object, sin_theta, cos_theta, bbox⟩ : rotate_y α M G).to_object r.origin,
             (⟨object, sin_theta, cos_theta, bbox⟩ : rotate_y α M G).to_object r.direction⟩
            ray_t rec).2.t →
      ((⟨object, sin_theta, cos_theta, bbox⟩ : rotate_y α M G).hit r ray_t rec).1 = true ∧
      ((⟨object, sin_theta, cos_theta, bbox⟩ : rotate_y α M G).hit r ray_t rec).2.t =
        (object.hit
          ⟨(⟨object, sin_theta, cos_theta, bbox⟩ : rotate_y α M G).to_object r.origin,
           (⟨object, sin_theta, cos_theta, bbox⟩ : rotate_y α M G).to_object r.direction⟩
          ray_t rec).2.t ∧
      ((⟨object, sin_theta, cos_theta, bbox⟩ : rotate_y α M G).hit r ray_t rec).2.p =
        r.origin + ((⟨object, sin_theta, cos_theta, bbox⟩ : rotate_y α M G).hit r ray_t rec).2.t
          * r.direction) := by
  constructor
  · intro hit hp
    rw [translate_hit_true ⟨object, offset, bbox⟩ r ray_t rec hit]
    refine ⟨rfl, rfl, ?_⟩
    show (object.hit ⟨r.origin - offset, r.direction⟩ ray_t rec).2.p + offset = _
    rw [hp]
    ext <;> simp only [ray.at', vec3.add_x, vec3.add_y, vec3.add_z, vec3.sub_x, vec3.sub_y,
      vec3.sub_z, vec3.smul_x, vec3.smul_y, vec3.smul_z] <;> ring
  · intro hit hp
    rw [rotate_y_hit_true ⟨object, sin_theta, cos_theta, bbox⟩ r ray_t rec hit]
    refine ⟨rfl, rfl, ?_⟩
    show rotate_y.to_world _ (object.hit _ ray_t rec).2.p = _
    rw [hp, ray.at', rotate_y_to_world_add, rotate_y_to_world_smul,
      rotate_y_to_world_to_object _ htrig, rotate_y_to_world_to_object _ htrig]

theorem sphere_hit_point_on_ray {M : Type} (s : sphere α M) (m : rtweekend α) (r : ray α)
    (ray_t : interval (xdouble α)) (rec : hit_record α M)
    (hit : (s.hit m r ray_t rec).1 = true) :
    (s.hit m r ray_t rec).2.p = r.at' (s.hit m r ray_t rec).2.t := by
  rw [sphere_hit_record _ _ _ _ _ hit]
  rfl

/-- C3 over the reals: the sphere of centre `(0.5, 0.5, -4)` and radius 2,
translated by `(1, 0, 0)` and hit by the ray from `(1.5, 0.5, 1)` along
`(0, 0, -1)`, and rotated by the angle 0 (`sin = 0`, `cos = 1`) and hit by the
ray from `(0.5, 0.5, 1)` along `(0, 0, -1)`. -/
theorem wrappers_preserve_hit_contract_witness :
    ∃ m : rtweekend ℝ, m.sqrt = Real.sqrt ∧ m.sqrt_ok ∧ (0 : ℝ) * 0 + 1 * 1 = 1 ∧
      ((⟨(sphere.new (⟨0.5, 0.5, -4⟩ : vec3 ℝ) 2 ()).toHittable m
          (fun g : Unit => ((0 : ℝ), g)) ⟨⟨0, 0, 0⟩, ⟨0, 0, 0⟩, (), 0, 0, 0, false⟩,
          ⟨1, 0, 0⟩, ⟨⟨⊥, ⊤⟩, ⟨⊥, ⊤⟩, ⟨⊥, ⊤⟩⟩⟩ : translate ℝ Unit Unit).hit ⟨⟨1.5, 0.5, 1⟩, ⟨0, 0, -1⟩⟩ ⟨xdouble.fin 0.001, infinity⟩
          ⟨⟨0, 0, 0⟩, ⟨0, 0, 0⟩, (), 0, 0, 0, false⟩).1 = true ∧
      ((⟨(sphere.new (⟨0.5, 0.5, -4⟩ : vec3 ℝ) 2 ()).toHittable m
          (fun g : Unit => ((0 : ℝ), g)) ⟨⟨0, 0, 0⟩, ⟨0, 0, 0⟩, (), 0, 0, 0, false⟩,
          ⟨1, 0, 0⟩, ⟨⟨⊥, ⊤⟩, ⟨⊥, ⊤⟩, ⟨⊥, ⊤⟩⟩⟩ : translate ℝ Unit Unit).hit ⟨⟨1.5, 0.5, 1⟩, ⟨0, 0, -1⟩⟩ ⟨xdouble.fin 0.001, infinity⟩
          ⟨⟨0, 0, 0⟩, ⟨0, 0, 0⟩, (), 0, 0, 0, false⟩).2.p = (⟨1.5, 0.5, 1⟩ : vec3 ℝ) +
        ((⟨(sphere.new (⟨0.5, 0.5, -4⟩ : vec3 ℝ) 2 ()).toHittable m
          (fun g : Unit => ((0 : ℝ), g)) ⟨⟨0, 0, 0⟩, ⟨0, 0, 0⟩, (), 0, 0, 0, false⟩,
          ⟨1, 0, 0⟩, ⟨⟨⊥, ⊤⟩, ⟨⊥, ⊤⟩, ⟨⊥, ⊤⟩⟩⟩ : translate ℝ Unit Unit).hit ⟨⟨1.5, 0.5, 1⟩, ⟨0, 0, -1⟩⟩ ⟨xdouble.fin 0.001, infinity⟩
          ⟨⟨0, 0, 0⟩, ⟨0, 0, 0⟩, (), 0, 0, 0, false⟩).2.t * (⟨0, 0, -1⟩ : vec3 ℝ) ∧
      ((⟨(sphere.new (⟨0.5, 0.5, -4⟩ : vec3 ℝ) 2 ()).toHittable m
          (fun g : Unit => ((0 : ℝ), g)) ⟨⟨0, 0, 0⟩, ⟨0, 0, 0⟩, (), 0, 0, 0, false⟩, 0, 1,
          ⟨⟨⊥, ⊤⟩, ⟨⊥, ⊤⟩, ⟨⊥, ⊤⟩⟩⟩ : rotate_y ℝ Unit Unit).hit ⟨⟨0.5, 0.5, 1⟩, ⟨0, 0, -1⟩⟩
          ⟨xdouble.fin 0.001, infinity⟩ ⟨⟨0, 0, 0⟩, ⟨0, 0, 0⟩, (), 0, 0, 0, false⟩).1 = true := by
  obtain ⟨m, hsq, hm⟩ := real_env
  have hs1 := sphere_center_hit hm (⟨0.5, 0.5, -4⟩ : vec3 ℝ) 2 ()
    ⟨(⟨1.5, 0.5, 1⟩ : vec3 ℝ) - ⟨1, 0, 0⟩, ⟨0, 0, -1⟩⟩
    ⟨xdouble.fin 0.001, infinity⟩ ⟨⟨0, 0, 0⟩, ⟨0, 0, 0⟩, (), 0, 0, 0, false⟩ 5 (by norm_num)
    (by simp [vec3.length_squared]) (by ext <;> simp [ray.at'] <;> norm_num)
    ⟨by simp; norm_num, by simp⟩
  have hs2 := sphere_center_hit hm (⟨0.5, 0.5, -4⟩ : vec3 ℝ) 2 ()
    ⟨rotate_y.to_object (⟨(sphere.new (⟨0.5, 0.5, -4⟩ : vec3 ℝ) 2 ()).toHittable m
          (fun g : Unit => ((0 : ℝ), g)) ⟨⟨0, 0, 0⟩, ⟨0, 0, 0⟩, (), 0, 0, 0, false⟩, 0, 1,
          ⟨⟨⊥, ⊤⟩, ⟨⊥, ⊤⟩, ⟨⊥, ⊤⟩⟩⟩ : rotate_y ℝ Unit Unit) ⟨0.5, 0.5, 1⟩,
     rotate_y.to_object (⟨(sphere.new (⟨0.5, 0.5, -4⟩ : vec3 ℝ) 2 ()).toHittable m
          (fun g : Unit => ((0 : ℝ), g)) ⟨⟨0, 0, 0⟩, ⟨0, 0, 0⟩, (), 0, 0, 0, false⟩, 0, 1,
          ⟨⟨⊥, ⊤⟩, ⟨⊥, ⊤⟩, ⟨⊥, ⊤⟩⟩⟩ : rotate_y ℝ Unit Unit) ⟨0, 0, -1⟩⟩
    ⟨xdouble.fin 0.001, infinity⟩ ⟨⟨0, 0, 0⟩, ⟨0, 0, 0⟩, (), 0, 0, 0, false⟩ 5 (by norm_num)
    (by simp [vec3.length_squared, rotate_y.to_object])
    (by ext <;> simp [ray.at', rotate_y.to_object] <;> norm_num)
    ⟨by simp; norm_num, by simp⟩
  have h1 := (wrappers_preserve_hit_contract
    ((sphere.new (⟨0.5, 0.5, -4⟩ : vec3 ℝ) 2 ()).toHittable m
      (fun g : Unit => ((0 : ℝ), g)) ⟨⟨0, 0, 0⟩, ⟨0, 0, 0⟩, (), 0, 0, 0, false⟩)
    ⟨1, 0, 0⟩ 0 1 ⟨⟨⊥, ⊤⟩, ⟨⊥, ⊤⟩, ⟨⊥, ⊤⟩⟩ ⟨⟨1.5, 0.5, 1⟩, ⟨0, 0, -1⟩⟩
    ⟨xdouble.fin 0.001, infinity⟩
    ⟨⟨0, 0, 0⟩, ⟨0, 0, 0⟩, (), 0, 0, 0, false⟩ (by norm_num)).1 hs1.1
    (sphere_hit_point_on_ray _ _ _ _ _ hs1.1)
  have h2 := (wrappers_preserve_hit_contract
    ((sphere.new (⟨0.5, 0.5, -4⟩ : vec3 ℝ) 2 ()).toHittable m
      (fun g : Unit => ((0 : ℝ), g)) ⟨⟨0, 0, 0⟩, ⟨0, 0, 0⟩, (), 0, 0, 0, false⟩)
    ⟨1, 0, 0⟩ 0 1 ⟨⟨⊥, ⊤⟩, ⟨⊥, ⊤⟩, ⟨⊥, ⊤⟩⟩ ⟨⟨0.5, 0.5, 1⟩, ⟨0, 0, -1⟩⟩
    ⟨xdouble.fin 0.001, infinity⟩
    ⟨⟨0, 0, 0⟩, ⟨0, 0, 0⟩, (), 0, 0, 0, false⟩ (by norm_num)).2 hs2.1
    (sphere_hit_point_on_ray _ _ _ _ _ hs2.1)
  exact ⟨m, hsq, hm, by norm_num, h1.1, h1.2.2, h2.1⟩

/-- C8: `translate::hit` returns `true` exactly when the child's `hit` on the
ray `(r.origin - offset, r.direction)` with the same interval `ray_t` returns
`true`; the record it leaves has the `t`, `normal`, `front_face`, `u`, `v` and
`mat` of the child's record, and on `true` its point is the child's point plus
`offset`. -/
theorem translate_hit_frame {M G : Type} (w : translate α M G) (r : ray α)
    (ray_t : interval (xdouble α)) (rec : hit_record α M) :
    (w.hit r ray_t rec).1 = (w.object.hit ⟨r.origin - w.offset, r.direction⟩ ray_t rec).1 ∧
    (w.hit r ray_t rec).2.t = (w.object.hit ⟨r.origin - w.offset, r.direction⟩ ray_t rec).2.t ∧
    (w.hit r ray_t rec).2.normal =
      (w.object.hit ⟨r.origin - w.offset, r.direction⟩ ray_t rec).2.normal ∧
    (w.hit r ray_t rec).2.front_face =
      (w.object.hit ⟨r.origin - w.offset, r.direction⟩ ray_t rec).2.front_face ∧
    (w.hit r ray_t rec).2.u = (w.object.hit ⟨r.origin - w.offset, r.direction⟩ ray_t rec).2.u ∧
    (w.hit r ray_t rec).2.v = (w.object.hit ⟨r.origin - w.offset, r.direction⟩ ray_t rec).2.v ∧
    (w.hit r ray_t rec).2.mat =
      (w.object.hit ⟨r.origin - w.offset, r.direction⟩ ray_t rec).2.mat ∧
    ((w.hit r ray_t rec).1 = true →
      (w.hit r ray_t rec).2.p =
        (w.object.hit ⟨r.origin - w.offset, r.direction⟩ ray_t rec).2.p + w.offset) := by
  cases hc : (w.object.hit ⟨r.origin - w.offset, r.direction⟩ ray_t rec).1
  · rw [translate_hit_false w r ray_t rec hc]
    simp
  · rw [translate_hit_true w r ray_t rec hc]
    simp

/-! ## C4: which rays hit a sphere, and where -/

theorem sphere_hit_iff_exists {M : Type} {m : rtweekend α} (hm : m.sqrt_ok) (s : sphere α M)
    (r : ray α) (ray_t : interval (xdouble α)) (rec : hit_record α M)
    (hdir : r.direction ≠ ⟨0, 0, 0⟩) :
    (s.hit m r ray_t rec).1 = true ↔
      ∃ t : α, ray_t.min < xdouble.fin t ∧ xdouble.fin t < ray_t.max ∧
        (r.at' t - s.center).length_squared = s.radius * s.radius := by
  have ha : r.direction.length_squared ≠ 0 := (length_squared_pos hdir).ne'
  rw [sphere_hit_true_iff]
  constructor
  · rintro ⟨hd, _, h | h⟩
    · exact ⟨_, h.1, h.2, (sphere_on_iff_root hm s r ha hd _).mpr (Or.inl rfl)⟩
    · exact ⟨_, h.1, h.2, (sphere_on_iff_root hm s r ha hd _).mpr (Or.inr rfl)⟩
  · rintro ⟨t, h1, h2, h3⟩
    have hd := sphere_disc_nonneg_of_on s r t h3
    refine ⟨hd, ha, ?_⟩
    rcases (sphere_on_iff_root hm s r ha hd t).mp h3 with h | h
    · left; rw [← h]; exact ⟨h1, h2⟩
    · right; rw [← h]; exact ⟨h1, h2⟩

theorem sphere_hit_t {M : Type} (s : sphere α M) (m : rtweekend α) (r : ray α)
    (ray_t : interval (xdouble α)) (rec : hit_record α M)
    (hit : (s.hit m r ray_t rec).1 = true) :
    (s.hit m r ray_t rec).2.t =
      if ray_t.min < xdouble.fin (s.root_near m r) ∧ xdouble.fin (s.root_near m r) < ray_t.max
      then s.root_near m r else s.root_far m r := by
  rw [sphere_hit_record _ _ _ _ _ hit]
  rfl

theorem sphere_hit_t_least {M : Type} {m : rtweekend α} (hm : m.sqrt_ok) (s : sphere α M)
    (r : ray α) (ray_t : interval (xdouble α)) (rec : hit_record α M)
    (hdir : r.direction ≠ ⟨0, 0, 0⟩) (hit : (s.hit m r ray_t rec).1 = true) (t : α)
    (h1 : ray_t.min < xdouble.fin t ∧ xdouble.fin t < ray_t.max)
    (h3 : (r.at' t - s.center).length_squared = s.radius * s.radius) :
    (s.hit m r ray_t rec).2.t ≤ t := by
  have ha : r.direction.length_squared ≠ 0 := (length_squared_pos hdir).ne'
  have hd := sphere_disc_nonneg_of_on s r t h3
  have hle := sphere_root_near_le_far hm s r hd
  rw [sphere_hit_t _ _ _ _ _ hit]
  split_ifs with hn
  · rcases (sphere_on_iff_root hm s r ha hd t).mp h3 with h | h
    · rw [h]
    · rw [h]; exact hle
  · rcases (sphere_on_iff_root hm s r ha hd t).mp h3 with h | h
    · rw [h] at h1; exact absurd h1 hn
    · rw [h]

/-- C4: for a sphere of radius > 0 and a ray of non-zero direction,
`sphere::hit` returns `true` if and only if some `t` strictly inside `ray_t`
satisfies `|r.at(t) - center|² = radius²`; then `rec.t` is such a `t`, it is the
least one, and it is the nearer root `(h - sqrtd) / a` when that is strictly
inside `ray_t` and the farther root `(h + sqrtd) / a` otherwise; `hit` returns
`false` whenever the discriminant is negative; and a ray of unit direction
aimed exactly at the centre from the distance `d > radius`, with `d - radius`
strictly inside `ray_t`, hits at `t = d - radius`. -/
theorem sphere_hit_characterisation {M : Type} (m : rtweekend α) (hm : m.sqrt_ok)
    (center : point3 α) (radius : α) (mat : M) (r : ray α) (ray_t : interval (xdouble α))
    (rec : hit_record α M) (hradius : 0 < radius) (hdir : r.direction ≠ ⟨0, 0, 0⟩) :
    (((sphere.new center radius mat).hit m r ray_t rec).1 = true ↔
      ∃ t : α, ray_t.min < xdouble.fin t ∧ xdouble.fin t < ray_t.max ∧
        (r.at' t - center).length_squared = radius * radius) ∧
    (((sphere.new center radius mat).hit m r ray_t rec).1 = true →
      (ray_t.min < xdouble.fin ((sphere.new center radius mat).hit m r ray_t rec).2.t ∧
        xdouble.fin ((sphere.new center radius mat).hit m r ray_t rec).2.t < ray_t.max ∧
        (r.at' ((sphere.new center radius mat).hit m r ray_t rec).2.t - center).length_squared
          = radius * radius) ∧
      (∀ t : α, ray_t.min < xdouble.fin t → xdouble.fin t < ray_t.max →
        (r.at' t - center).length_squared = radius * radius →
        ((sphere.new center radius mat).hit m r ray_t rec).2.t ≤ t) ∧
      ((sphere.new center radius mat).hit m r ray_t rec).2.t =
        if ray_t.min < xdouble.fin ((sphere.new center radius mat).root_near m r) ∧
            xdouble.fin ((sphere.new center radius mat).root_near m r) < ray_t.max
        then (sphere.new center radius mat).root_near m r
        else (sphere.new center radius mat).root_far m r) ∧
    ((sphere.new center radius mat).discriminant r < 0 →
      ((sphere.new center radius mat).hit m r ray_t rec).1 = false) ∧
    (∀ d : α, r.direction.length m = 1 → center = r.origin + d * r.direction → radius < d →
      ray_t.min < xdouble.fin (d - radius) → xdouble.fin (d - radius) < ray_t.max →
      ((sphere.new center radius mat).hit m r ray_t rec).1 = true ∧
      ((sphere.new center radius mat).hit m r ray_t rec).2.t = d - radius) := by
  have hrad : (sphere.new center radius mat).radius = radius :=
    sphere_new_radius center mat hradius.le
  have hiff := sphere_hit_iff_exists hm (sphere.new center radius mat) r ray_t rec hdir
  rw [hrad] at hiff
  refine ⟨hiff, fun hit => ⟨?_, ?_, sphere_hit_t _ _ _ _ _ hit⟩, ?_, ?_⟩
  · have ha : r.direction.length_squared ≠ 0 := (length_squared_pos hdir).ne'
    obtain ⟨hd, _, hor⟩ := (sphere_hit_true_iff _ _ _ _ _).mp hit
    have hon := fun t => sphere_on_iff_root hm (sphere.new center radius mat) r ha hd t
    rw [hrad] at hon
    rw [sphere_hit_t _ _ _ _ _ hit]
    split_ifs with hn
    · exact ⟨hn.1, hn.2, (hon _).mpr (Or.inl rfl)⟩
    · exact ⟨(hor.resolve_left hn).1, (hor.resolve_left hn).2, (hon _).mpr (Or.inr rfl)⟩
  · intro t h1 h2 h3
    have := sphere_hit_t_least hm (sphere.new center radius mat) r ray_t rec hdir hit t
      ⟨h1, h2⟩
    rw [hrad] at this
    exact this h3
  · intro hneg
    rw [← Bool.not_eq_true, sphere_hit_true_iff]
    intro h
    exact absurd h.1 (not_le.mpr hneg)
  · intro d hunit haim _ h1 h2
    have hu : r.direction.length_squared = 1 := by
      rw [← length_mul_self hm, hunit, one_mul]
    exact sphere_center_hit hm center radius mat r ray_t rec d hradius.le hu haim ⟨h1, h2⟩

/-- C4 over the reals: the ray from the origin along `(0, 0, -1)` and the
sphere of centre `(0, 0, -5)` and radius 2 within `(0.001, infinity)`: the hit
is at `t = 5 - 2`. -/
theorem sphere_hit_characterisation_witness :
    ∃ m : rtweekend ℝ, m.sqrt = Real.sqrt ∧ m.sqrt_ok ∧ (0 : ℝ) < 2 ∧
      (⟨0, 0, -1⟩ : vec3 ℝ) ≠ ⟨0, 0, 0⟩ ∧
      ((sphere.new (⟨0, 0, -5⟩ : vec3 ℝ) 2 ()).hit m ⟨⟨0, 0, 0⟩, ⟨0, 0, -1⟩⟩
        ⟨xdouble.fin 0.001, infinity⟩ ⟨⟨0, 0, 0⟩, ⟨0, 0, 0⟩, (), 0, 0, 0, false⟩).1 = true ∧
      ((sphere.new (⟨0, 0, -5⟩ : vec3 ℝ) 2 ()).hit m ⟨⟨0, 0, 0⟩, ⟨0, 0, -1⟩⟩
        ⟨xdouble.fin 0.001, infinity⟩ ⟨⟨0, 0, 0⟩, ⟨0, 0, 0⟩, (), 0, 0, 0, false⟩).2.t = 5 - 2 ∧
      ∃ t : ℝ, xdouble.fin 0.001 < xdouble.fin t ∧ xdouble.fin t < infinity ∧
        ((⟨⟨0, 0, 0⟩, ⟨0, 0, -1⟩⟩ : ray ℝ).at' t - ⟨0, 0, -5⟩).length_squared = 2 * 2 := by
  obtain ⟨m, hsq, hm⟩ := real_env
  have hdir : (⟨0, 0, -1⟩ : vec3 ℝ) ≠ ⟨0, 0, 0⟩ := by simp
  have h := sphere_hit_characterisation m hm (⟨0, 0, -5⟩ : vec3 ℝ) 2 ()
    ⟨⟨0, 0, 0⟩, ⟨0, 0, -1⟩⟩ ⟨xdouble.fin 0.001, infinity⟩
    ⟨⟨0, 0, 0⟩, ⟨0, 0, 0⟩, (), 0, 0, 0, false⟩ (by norm_num) hdir
  have h5 := h.2.2.2 5 (length_eq_one_of_sq hm (by simp [vec3.length_squared]))
    (by ext <;> simp) (by norm_num) (by simp; norm_num) (by simp)
  exact ⟨m, hsq, hm, by norm_num, hdir, h5.1, h5.2, h.1.mp h5.1⟩

/-! ## C5: the surface coordinates of a quad -/

/-- C5: when `quad::hit` returns `true` on a quad of corner `Q` and
non-parallel edges `u`, `v`, the recorded coordinates satisfy `0 ≤ rec.u ≤ 1`
and `0 ≤ rec.v ≤ 1` and the hit point is `Q + rec.u * u + rec.v * v`; and on
the unit quad `Q = (0,0,0)`, `u = (1,0,0)`, `v = (0,1,0)` a ray through the
centre `(0.5, 0.5, 0)` is hit exactly when it is not near-parallel to the plane
and meets the centre at a parameter contained in `ray_t`, and then
`(rec.u, rec.v) = (0.5, 0.5)`. -/
theorem quad_surface_coordinates {M : Type} (m : rtweekend α) (hm : m.sqrt_ok) (Q : point3 α)
    (u v : vec3 α) (mat : M) (r : ray α) (ray_t : interval (xdouble α)) (rec : hit_record α M)
    (huv : cross u v ≠ ⟨0, 0, 0⟩) :
    (((quad.new m Q u v mat).hit r ray_t rec).1 = true →
      0 ≤ ((quad.new m Q u v mat).hit r ray_t rec).2.u ∧
      ((quad.new m Q u v mat).hit r ray_t rec).2.u ≤ 1 ∧
      0 ≤ ((quad.new m Q u v mat).hit r ray_t rec).2.v ∧
      ((quad.new m Q u v mat).hit r ray_t rec).2.v ≤ 1 ∧
      ((quad.new m Q u v mat).hit r ray_t rec).2.p =
        Q + ((quad.new m Q u v mat).hit r ray_t rec).2.u * u
          + ((quad.new m Q u v mat).hit r ray_t rec).2.v * v) ∧
    (∀ t0 : α, r.at' t0 = ⟨0.5, 0.5, 0⟩ →
      (((quad.new m (⟨0, 0, 0⟩ : vec3 α) ⟨1, 0, 0⟩ ⟨0, 1, 0⟩ mat).hit r ray_t rec).1 = true ↔
        ¬ |r.direction.z| < 1e-8 ∧ ray_t.min ≤ xdouble.fin t0 ∧ xdouble.fin t0 ≤ ray_t.max) ∧
      (((quad.new m (⟨0, 0, 0⟩ : vec3 α) ⟨1, 0, 0⟩ ⟨0, 1, 0⟩ mat).hit r ray_t rec).1 = true →
        ((quad.new m (⟨0, 0, 0⟩ : vec3 α) ⟨1, 0, 0⟩ ⟨0, 1, 0⟩ mat).hit r ray_t rec).2.u = 0.5 ∧
        ((quad.new m (⟨0, 0, 0⟩ : vec3 α) ⟨1, 0, 0⟩ ⟨0, 1, 0⟩ mat).hit r ray_t rec).2.v
          = 0.5)) := by
  constructor
  · intro hit
    obtain ⟨h1, _, ha, hb⟩ := (quad_hit_true_iff _ _ _ _).mp hit
    rw [quad_hit_record _ _ _ _ hit]
    exact ⟨ha.1, ha.2, hb.1, hb.2,
      quad_point_decomposes hm Q u v mat r huv (abs_ne_zero_of_not_lt h1)⟩
  · intro t0 hc
    refine ⟨unit_quad_hit_iff hm mat r ray_t rec t0 hc, fun hit => ?_⟩
    obtain ⟨hnd, hloc⟩ := unit_quad_locals hm mat r t0 hc
    obtain ⟨h1, _, _⟩ := (quad_hit_true_iff _ _ _ _).mp hit
    rw [hnd] at h1
    obtain ⟨_, ha, hb⟩ := hloc (abs_ne_zero_of_not_lt h1)
    rw [quad_hit_record _ _ _ _ hit]
    exact ⟨ha, hb⟩

/-- C5 over the reals: the ray from `(0.5, 0.5, 1)` along `(0, 0, -1)` hits the
unit quad within `(0.001, infinity)` at the coordinates `(0.5, 0.5)`. -/
theorem quad_surface_coordinates_witness :
    ∃ m : rtweekend ℝ, m.sqrt = Real.sqrt ∧ m.sqrt_ok ∧
      cross (⟨1, 0, 0⟩ : vec3 ℝ) ⟨0, 1, 0⟩ ≠ ⟨0, 0, 0⟩ ∧
      ((quad.new m (⟨0, 0, 0⟩ : vec3 ℝ) ⟨1, 0, 0⟩ ⟨0, 1, 0⟩ ()).hit ⟨⟨0.5, 0.5, 1⟩, ⟨0, 0, -1⟩⟩
        ⟨xdouble.fin 0.001, infinity⟩ ⟨⟨0, 0, 0⟩, ⟨0, 0, 0⟩, (), 0, 0, 0, false⟩).1 = true ∧
      ((quad.new m (⟨0, 0, 0⟩ : vec3 ℝ) ⟨1, 0, 0⟩ ⟨0, 1, 0⟩ ()).hit ⟨⟨0.5, 0.5, 1⟩, ⟨0, 0, -1⟩⟩
        ⟨xdouble.fin 0.001, infinity⟩ ⟨⟨0, 0, 0⟩, ⟨0, 0, 0⟩, (), 0, 0, 0, false⟩).2.u = 0.5 ∧
      ((quad.new m (⟨0, 0, 0⟩ : vec3 ℝ) ⟨1, 0, 0⟩ ⟨0, 1, 0⟩ ()).hit ⟨⟨0.5, 0.5, 1⟩, ⟨0, 0, -1⟩⟩
        ⟨xdouble.fin 0.001, infinity⟩ ⟨⟨0, 0, 0⟩, ⟨0, 0, 0⟩, (), 0, 0, 0, false⟩).2.v = 0.5 ∧
      ((quad.new m (⟨0, 0, 0⟩ : vec3 ℝ) ⟨1, 0, 0⟩ ⟨0, 1, 0⟩ ()).hit ⟨⟨0.5, 0.5, 1⟩, ⟨0, 0, -1⟩⟩
        ⟨xdouble.fin 0.001, infinity⟩ ⟨⟨0, 0, 0⟩, ⟨0, 0, 0⟩, (), 0, 0, 0, false⟩).2.p =
        (⟨0, 0, 0⟩ : vec3 ℝ) +
        ((quad.new m (⟨0, 0, 0⟩ : vec3 ℝ) ⟨1, 0, 0⟩ ⟨0, 1, 0⟩ ()).hit
          ⟨⟨0.5, 0.5, 1⟩, ⟨0, 0, -1⟩⟩ ⟨xdouble.fin 0.001, infinity⟩
          ⟨⟨0, 0, 0⟩, ⟨0, 0, 0⟩, (), 0, 0, 0, false⟩).2.u * (⟨1, 0, 0⟩ : vec3 ℝ) +
        ((quad.new m (⟨0, 0, 0⟩ : vec3 ℝ) ⟨1, 0, 0⟩ ⟨0, 1, 0⟩ ()).hit
          ⟨⟨0.5, 0.5, 1⟩, ⟨0, 0, -1⟩⟩ ⟨xdouble.fin 0.001, infinity⟩
          ⟨⟨0, 0, 0⟩, ⟨0, 0, 0⟩, (), 0, 0, 0, false⟩).2.v * (⟨0, 1, 0⟩ : vec3 ℝ) := by
  obtain ⟨m, hsq, hm⟩ := real_env
  have huv : cross (⟨1, 0, 0⟩ : vec3 ℝ) ⟨0, 1, 0⟩ ≠ ⟨0, 0, 0⟩ := by simp [cross]
  have h := quad_surface_coordinates m hm (⟨0, 0, 0⟩ : vec3 ℝ) ⟨1, 0, 0⟩ ⟨0, 1, 0⟩ ()
    ⟨⟨0.5, 0.5, 1⟩, ⟨0, 0, -1⟩⟩ ⟨xdouble.fin 0.001, infinity⟩
    ⟨⟨0, 0, 0⟩, ⟨0, 0, 0⟩, (), 0, 0, 0, false⟩ huv
  have hc := h.2 1 (by ext <;> simp [ray.at'])
  have hit := hc.1.mpr ⟨by norm_num, by simp; norm_num, by simp⟩
  exact ⟨m, hsq, hm, huv, hit, (hc.2 hit).1, (hc.2 hit).2, (h.1 hit).2.2.2.2⟩

/-! ## C6: the boxes of the primitives contain the hit points -/

theorem sphere_hit_on_sphere {M : Type} {m : rtweekend α} (hm : m.sqrt_ok) (s : sphere α M)
    (r : ray α) (ray_t : interval (xdouble α)) (rec : hit_record α M)
    (hit : (s.hit m r ray_t rec).1 = true) :
    ((s.hit m r ray_t rec).2.p - s.center).length_squared = s.radius * s.radius := by
  obtain ⟨hd, ha, _⟩ := (sphere_hit_true_iff _ _ _ _ _).mp hit
  rw [sphere_hit_point_on_ray _ _ _ _ _ hit, sphere_hit_t _ _ _ _ _ hit]
  split_ifs
  · exact (sphere_on_iff_root hm s r ha hd _).mpr (Or.inl rfl)
  · exact (sphere_on_iff_root hm s r ha hd _).mpr (Or.inr rfl)

theorem coordinate_within_radius {x y z rad : α} (hr : 0 ≤ rad)
    (h : x * x + y * y + z * z = rad * rad) : -rad ≤ x ∧ x ≤ rad := by
  constructor
  · by_contra hc
    push_neg at hc
    nlinarith [mul_self_nonneg y, mul_self_nonneg z]
  · by_contra hc
    push_neg at hc
    nlinarith [mul_self_nonneg y, mul_self_nonneg z]

theorem bilinear_between (q ux vx a b : α) (ha : 0 ≤ a ∧ a ≤ 1) (hb : 0 ≤ b ∧ b ≤ 1) :
    min (min q (q + ux + vx)) (min (q + ux) (q + vx)) ≤ q + a * ux + b * vx ∧
    q + a * ux + b * vx ≤ max (max q (q + ux + vx)) (max (q + ux) (q + vx)) := by
  have ha1 : 0 ≤ 1 - a := by linarith [ha.2]
  have hb1 : 0 ≤ 1 - b := by linarith [hb.2]
  constructor
  · set mn := min (min q (q + ux + vx)) (min (q + ux) (q + vx)) with hmn
    have h1 : mn ≤ q := le_trans (min_le_left _ _) (min_le_left _ _)
    have h2 : mn ≤ q + ux + vx := le_trans (min_le_left _ _) (min_le_right _ _)
    have h3 : mn ≤ q + ux := le_trans (min_le_right _ _) (min_le_left _ _)
    have h4 : mn ≤ q + vx := le_trans (min_le_right _ _) (min_le_right _ _)
    have e : q + a * ux + b * vx - mn = (1 - a) * (1 - b) * (q - mn)
        + a * (1 - b) * (q + ux - mn) + (1 - a) * b * (q + vx - mn)
        + a * b * (q + ux + vx - mn) := by ring
    have p1 := mul_nonneg (mul_nonneg ha1 hb1) (sub_nonneg.mpr h1)
    have p2 := mul_nonneg (mul_nonneg ha.1 hb1) (sub_nonneg.mpr h3)
    have p3 := mul_nonneg (mul_nonneg ha1 hb.1) (sub_nonneg.mpr h4)
    have p4 := mul_nonneg (mul_nonneg ha.1 hb.1) (sub_nonneg.mpr h2)
    linarith
  · set mx := max (max q (q + ux + vx)) (max (q + ux) (q + vx)) with hmx
    have h1 : q ≤ mx := le_trans (le_max_left _ _) (le_max_left _ _)
    have h2 : q + ux + vx ≤ mx := le_trans (le_max_right _ _) (le_max_left _ _)
    have h3 : q + ux ≤ mx := le_trans (le_max_left _ _) (le_max_right _ _)
    have h4 : q + vx ≤ mx := le_trans (le_max_right _ _) (le_max_right _ _)
    have e : mx - (q + a * ux + b * vx) = (1 - a) * (1 - b) * (mx - q)
        + a * (1 - b) * (mx - (q + ux)) + (1 - a) * b * (mx - (q + vx))
        + a * b * (mx - (q + ux + vx)) := by ring
    have p1 := mul_nonneg (mul_nonneg ha1 hb1) (sub_nonneg.mpr h1)
    have p2 := mul_nonneg (mul_nonneg ha.1 hb1) (sub_nonneg.mpr h3)
    have p3 := mul_nonneg (mul_nonneg ha1 hb.1) (sub_nonneg.mpr h4)
    have p4 := mul_nonneg (mul_nonneg ha.1 hb.1) (sub_nonneg.mpr h2)
    linarith

/-- C6: the box of a primitive contains every hit point it returns.  For a
sphere of radius ≥ 0 each coordinate of `rec.p` lies in
`[center_c - radius, center_c + radius]`, the interval of the box built by the
constructor; for a quad of non-parallel edges each coordinate of `rec.p` lies
between the minimum and the maximum of that coordinate over the four corners
`Q`, `Q + u`, `Q + v`, `Q + u + v`, the interval of the box `set_bounding_box`
builds as the union of the boxes of the two diagonals. -/
theorem primitive_bbox_contains_hit {M : Type} (m : rtweekend α) (hm : m.sqrt_ok)
    (center : point3 α) (radius : α) (Q : point3 α) (u v : vec3 α) (mat : M) (r : ray α)
    (ray_t : interval (xdouble α)) (rec : hit_record α M)
    (hradius : 0 ≤ radius) (huv : cross u v ≠ ⟨0, 0, 0⟩) :
    (((sphere.new center radius mat).hit m r ray_t rec).1 = true →
      (center.x - radius ≤ ((sphere.new center radius mat).hit m r ray_t rec).2.p.x ∧
        ((sphere.new center radius mat).hit m r ray_t rec).2.p.x ≤ center.x + radius) ∧
      (center.y - radius ≤ ((sphere.new center radius mat).hit m r ray_t rec).2.p.y ∧
        ((sphere.new center radius mat).hit m r ray_t rec).2.p.y ≤ center.y + radius) ∧
      (center.z - radius ≤ ((sphere.new center radius mat).hit m r ray_t rec).2.p.z ∧
        ((sphere.new center radius mat).hit m r ray_t rec).2.p.z ≤ center.z + radius) ∧
      (sphere.new center radius mat).bbox =
        ⟨⟨center.x - radius, center.x + radius⟩, ⟨center.y - radius, center.y + radius⟩,
         ⟨center.z - radius, center.z + radius⟩⟩ ∧
      (sphere.new center radius mat).bbox.encloses
        ((sphere.new center radius mat).hit m r ray_t rec).2.p) ∧
    (((quad.new m Q u v mat).hit r ray_t rec).1 = true →
      (min (min Q.x (Q.x + u.x + v.x)) (min (Q.x + u.x) (Q.x + v.x))
          ≤ ((quad.new m Q u v mat).hit r ray_t rec).2.p.x ∧
        ((quad.new m Q u v mat).hit r ray_t rec).2.p.x
          ≤ max (max Q.x (Q.x + u.x + v.x)) (max (Q.x + u.x) (Q.x + v.x))) ∧
      (min (min Q.y (Q.y + u.y + v.y)) (min (Q.y + u.y) (Q.y + v.y))
          ≤ ((quad.new m Q u v mat).hit r ray_t rec).2.p.y ∧
        ((quad.new m Q u v mat).hit r ray_t rec).2.p.y
          ≤ max (max Q.y (Q.y + u.y + v.y)) (max (Q.y + u.y) (Q.y + v.y))) ∧
      (min (min Q.z (Q.z + u.z + v.z)) (min (Q.z + u.z) (Q.z + v.z))
          ≤ ((quad.new m Q u v mat).hit r ray_t rec).2.p.z ∧
        ((quad.new m Q u v mat).hit r ray_t rec).2.p.z
          ≤ max (max Q.z (Q.z + u.z + v.z)) (max (Q.z + u.z) (Q.z + v.z))) ∧
      (quad.new m Q u v mat).bbox.encloses ((quad.new m Q u v mat).hit r ray_t rec).2.p) := by
  constructor
  · intro hit
    have hon := sphere_hit_on_sphere hm _ r ray_t rec hit
    rw [sphere_new_radius center mat hradius] at hon
    have hc : (sphere.new center radius mat).center = center := rfl
    rw [hc] at hon
    simp only [vec3.length_squared, vec3.sub_x, vec3.sub_y, vec3.sub_z] at hon
    generalize ((sphere.new center radius mat).hit m r ray_t rec).2.p = P at hon ⊢
    have hx := coordinate_within_radius (x := P.x - center.x) (y := P.y - center.y)
      (z := P.z - center.z) hradius hon
    have hy := coordinate_within_radius (x := P.y - center.y) (y := P.x - center.x)
      (z := P.z - center.z) hradius (by linarith)
    have hz := coordinate_within_radius (x := P.z - center.z) (y := P.x - center.x)
      (z := P.y - center.y) hradius (by linarith)
    have hbox : (sphere.new center radius mat).bbox =
        ⟨⟨center.x - radius, center.x + radius⟩, ⟨center.y - radius, center.y + radius⟩,
         ⟨center.z - radius, center.z + radius⟩⟩ := by
      simp only [sphere.new, aabb.of_points, vec3.sub_x, vec3.sub_y, vec3.sub_z, vec3.add_x,
        vec3.add_y, vec3.add_z]
      rw [min_eq_left (by linarith), max_eq_right (by linarith), min_eq_left (by linarith),
        max_eq_right (by linarith), min_eq_left (by linarith), max_eq_right (by linarith)]
    refine ⟨⟨by linarith [hx.1], by linarith [hx.2]⟩, ⟨by linarith [hy.1], by linarith [hy.2]⟩,
      ⟨by linarith [hz.1], by linarith [hz.2]⟩, hbox, ?_⟩
    rw [hbox]
    simp only [aabb.encloses]
    exact ⟨⟨by linarith [hx.1], by linarith [hx.2]⟩, ⟨by linarith [hy.1], by linarith [hy.2]⟩,
      ⟨by linarith [hz.1], by linarith [hz.2]⟩⟩
  · intro hit
    obtain ⟨h1, _, ha, hb⟩ := (quad_hit_true_iff _ _ _ _).mp hit
    have hp := quad_point_decomposes hm Q u v mat r huv (abs_ne_zero_of_not_lt h1)
    rw [quad_hit_record _ _ _ _ hit]
    have hpx : ((quad.new m Q u v mat).record_at r).p.x = Q.x
        + (quad.new m Q u v mat).hit_a r * u.x + (quad.new m Q u v mat).hit_b r * v.x := by
      show (r.at' _).x = _
      rw [hp]; rfl
    have hpy : ((quad.new m Q u v mat).record_at r).p.y = Q.y
        + (quad.new m Q u v mat).hit_a r * u.y + (quad.new m Q u v mat).hit_b r * v.y := by
      show (r.at' _).y = _
      rw [hp]; rfl
    have hpz : ((quad.new m Q u v mat).record_at r).p.z = Q.z
        + (quad.new m Q u v mat).hit_a r * u.z + (quad.new m Q u v mat).hit_b r * v.z := by
      show (r.at' _).z = _
      rw [hp]; rfl
    have bx := bilinear_between Q.x u.x v.x _ _ ha hb
    have by' := bilinear_between Q.y u.y v.y _ _ ha hb
    have bz := bilinear_between Q.z u.z v.z _ _ ha hb
    rw [← hpx] at bx
    rw [← hpy] at by'
    rw [← hpz] at bz
    exact ⟨bx, by', bz, bx, by', bz⟩

/-- C6 over the reals: the ray from `(0.5, 0.5, 1)` along `(0, 0, -1)` hits the
sphere of centre `(0.5, 0.5, -4)` and radius 2 and the unit quad, at points
their boxes enclose. -/
theorem primitive_bbox_contains_hit_witness :
    ∃ m : rtweekend ℝ, m.sqrt = Real.sqrt ∧ m.sqrt_ok ∧ (0 : ℝ) ≤ 2 ∧
      cross (⟨1, 0, 0⟩ : vec3 ℝ) ⟨0, 1, 0⟩ ≠ ⟨0, 0, 0⟩ ∧
      ((sphere.new (⟨0.5, 0.5, -4⟩ : vec3 ℝ) 2 ()).hit m ⟨⟨0.5, 0.5, 1⟩, ⟨0, 0, -1⟩⟩
        ⟨xdouble.fin 0.001, infinity⟩ ⟨⟨0, 0, 0⟩, ⟨0, 0, 0⟩, (), 0, 0, 0, false⟩).1 = true ∧
      (sphere.new (⟨0.5, 0.5, -4⟩ : vec3 ℝ) 2 ()).bbox.encloses
        ((sphere.new (⟨0.5, 0.5, -4⟩ : vec3 ℝ) 2 ()).hit m ⟨⟨0.5, 0.5, 1⟩, ⟨0, 0, -1⟩⟩
          ⟨xdouble.fin 0.001, infinity⟩ ⟨⟨0, 0, 0⟩, ⟨0, 0, 0⟩, (), 0, 0, 0, false⟩).2.p ∧
      ((quad.new m (⟨0, 0, 0⟩ : vec3 ℝ) ⟨1, 0, 0⟩ ⟨0, 1, 0⟩ ()).hit ⟨⟨0.5, 0.5, 1⟩, ⟨0, 0, -1⟩⟩
        ⟨xdouble.fin 0.001, infinity⟩ ⟨⟨0, 0, 0⟩, ⟨0, 0, 0⟩, (), 0, 0, 0, false⟩).1 = true ∧
      (quad.new m (⟨0, 0, 0⟩ : vec3 ℝ) ⟨1, 0, 0⟩ ⟨0, 1, 0⟩ ()).bbox.encloses
        ((quad.new m (⟨0, 0, 0⟩ : vec3 ℝ) ⟨1, 0, 0⟩ ⟨0, 1, 0⟩ ()).hit
          ⟨⟨0.5, 0.5, 1⟩, ⟨0, 0, -1⟩⟩ ⟨xdouble.fin 0.001, infinity⟩
          ⟨⟨0, 0, 0⟩, ⟨0, 0, 0⟩, (), 0, 0, 0, false⟩).2.p := by
  obtain ⟨m, hsq, hm⟩ := real_env
  have huv : cross (⟨1, 0, 0⟩ : vec3 ℝ) ⟨0, 1, 0⟩ ≠ ⟨0, 0, 0⟩ := by simp [cross]
  have hs := sphere_center_hit hm (⟨0.5, 0.5, -4⟩ : vec3 ℝ) 2 () ⟨⟨0.5, 0.5, 1⟩, ⟨0, 0, -1⟩⟩
    ⟨xdouble.fin 0.001, infinity⟩ ⟨⟨0, 0, 0⟩, ⟨0, 0, 0⟩, (), 0, 0, 0, false⟩ 5 (by norm_num)
    (by simp [vec3.length_squared]) (by ext <;> simp [ray.at'] <;> norm_num)
    ⟨by simp; norm_num, by simp⟩
  have hq := (unit_quad_hit_iff hm () ⟨⟨0.5, 0.5, 1⟩, ⟨0, 0, -1⟩⟩
    ⟨xdouble.fin 0.001, infinity⟩ ⟨⟨0, 0, 0⟩, ⟨0, 0, 0⟩, (), 0, 0, 0, false⟩ 1
    (by ext <;> simp [ray.at'])).mpr ⟨by norm_num, by simp; norm_num, by simp⟩
  have h := primitive_bbox_contains_hit m hm (⟨0.5, 0.5, -4⟩ : vec3 ℝ) 2 (⟨0, 0, 0⟩ : vec3 ℝ)
    ⟨1, 0, 0⟩ ⟨0, 1, 0⟩ () ⟨⟨0.5, 0.5, 1⟩, ⟨0, 0, -1⟩⟩ ⟨xdouble.fin 0.001, infinity⟩
    ⟨⟨0, 0, 0⟩, ⟨0, 0, 0⟩, (), 0, 0, 0, false⟩ (by norm_num) huv
  exact ⟨m, hsq, hm, by norm_num, huv, hs.1, (h.1 hs.1).2.2.2.2, hq, (h.2 hq).2.2.2⟩

/-! ## C7: the box of `rotate_y` -/

theorem fin_min_fin (a b : α) : min (xdouble.fin a) (xdouble.fin b) = xdouble.fin (min a b) := by
  simp [xdouble.fin, WithBot.coe_min, WithTop.coe_min]

theorem fin_max_fin (a b : α) : max (xdouble.fin a) (xdouble.fin b) = xdouble.fin (max a b) := by
  simp [xdouble.fin, WithBot.coe_max, WithTop.coe_max]

theorem fin_min_infinity (a : α) : min (xdouble.fin a) infinity = xdouble.fin a :=
  min_eq_left (fin_le_infinity a)

theorem fin_max_bot (a : α) : max (xdouble.fin a) ⊥ = xdouble.fin a :=
  max_eq_left bot_le

/-- One corner of the loops of the constructor of `rotate_y`: the first two
components of the running `min` and `max` take the rotated corner in, the
third is left as it was. -/
theorem corner_step_eq (s c : α) (bbox : aabb α) (i j k : Nat)
    (acc : vec3 (xdouble α) × vec3 (xdouble α)) :
    rotate_y.corner_step s c bbox i j k acc =
      (⟨min (xdouble.fin (rotate_y.rotated_corner s c bbox i j k).x) acc.1.x,
        min (xdouble.fin (rotate_y.rotated_corner s c bbox i j k).y) acc.1.y, acc.1.z⟩,
       ⟨max (xdouble.fin (rotate_y.rotated_corner s c bbox i j k).x) acc.2.x,
        max (xdouble.fin (rotate_y.rotated_corner s c bbox i j k).y) acc.2.y, acc.2.z⟩) := by
  simp [rotate_y.corner_step, rotate_y.rotated_corner, List.range_succ, vec3.set, vec3.get]

/-- The loop `for (int c = 0; c < 2; c++)` of the constructor of `rotate_y`
never writes the third component: whatever the child's box and the angle, the
running `min.z` is still `+infinity` and `max.z` still `-infinity` after the
eight corners. -/
theorem rotate_y_extrema_z (s c : α) (bbox : aabb α) :
    (rotate_y.extrema s c bbox).1.z = infinity ∧ (rotate_y.extrema s c bbox).2.z = ⊥ := by
  simp only [rotate_y.extrema, List.range_succ, List.range_zero, List.nil_append,
    List.cons_append, List.foldl_cons, List.foldl_nil, corner_step_eq, and_self]

/-- On the first two axes the loops of the constructor of `rotate_y` do compute
the minimum and the maximum over the eight rotated corners. -/
theorem rotate_y_extrema_xy (s c : α) (bbox : aabb α) :
    (rotate_y.extrema s c bbox).1.x = xdouble.fin
      (min (rotate_y.rotated_corner s c bbox 1 1 1).x (min (rotate_y.rotated_corner s c bbox 1 1 0).x
      (min (rotate_y.rotated_corner s c bbox 1 0 1).x (min (rotate_y.rotated_corner s c bbox 1 0 0).x
      (min (rotate_y.rotated_corner s c bbox 0 1 1).x (min (rotate_y.rotated_corner s c bbox 0 1 0).x
      (min (rotate_y.rotated_corner s c bbox 0 0 1).x
        (rotate_y.rotated_corner s c bbox 0 0 0).x))))))) ∧
    (rotate_y.extrema s c bbox).2.x = xdouble.fin
      (max (rotate_y.rotated_corner s c bbox 1 1 1).x (max (rotate_y.rotated_corner s c bbox 1 1 0).x
      (max (rotate_y.rotated_corner s c bbox 1 0 1).x (max (rotate_y.rotated_corner s c bbox 1 0 0).x
      (max (rotate_y.rotated_corner s c bbox 0 1 1).x (max (rotate_y.rotated_corner s c bbox 0 1 0).x
      (max (rotate_y.rotated_corner s c bbox 0 0 1).x
        (rotate_y.rotated_corner s c bbox 0 0 0).x))))))) ∧
    (rotate_y.extrema s c bbox).1.y = xdouble.fin
      (min (rotate_y.rotated_corner s c bbox 1 1 1).y (min (rotate_y.rotated_corner s c bbox 1 1 0).y
      (min (rotate_y.rotated_corner s c bbox 1 0 1).y (min (rotate_y.rotated_corner s c bbox 1 0 0).y
      (min (rotate_y.rotated_corner s c bbox 0 1 1).y (min (rotate_y.rotated_corner s c bbox 0 1 0).y
      (min (rotate_y.rotated_corner s c bbox 0 0 1).y
        (rotate_y.rotated_corner s c bbox 0 0 0).y))))))) ∧
    (rotate_y.extrema s c bbox).2.y = xdouble.fin
      (max (rotate_y.rotated_corner s c bbox 1 1 1).y (max (rotate_y.rotated_corner s c bbox 1 1 0).y
      (max (rotate_y.rotated_corner s c bbox 1 0 1).y (max (rotate_y.rotated_corner s c bbox 1 0 0).y
      (max (rotate_y.rotated_corner s c bbox 0 1 1).y (max (rotate_y.rotated_corner s c bbox 0 1 0).y
      (max (rotate_y.rotated_corner s c bbox 0 0 1).y
        (rotate_y.rotated_corner s c bbox 0 0 0).y))))))) := by
  simp only [rotate_y.extrema, List.range_succ, List.range_zero, List.nil_append,
    List.cons_append, List.foldl_cons, List.foldl_nil, corner_step_eq, fin_min_infinity,
    fin_max_bot, fin_min_fin, fin_max_fin, zero_add]
  exact ⟨trivial, trivial, trivial, trivial⟩

theorem rotate_y_new_bbox_z {M G : Type} (m : rtweekend α) (object : hittable α M G)
    (bbox : aabb α) (angle : α) :
    (rotate_y.new m object bbox angle).bbox.z = ⟨⊥, infinity⟩ := by
  have h := rotate_y_extrema_z (m.sin (m.degrees_to_radians angle))
    (m.cos (m.degrees_to_radians angle)) bbox
  simp only [rotate_y.new, aabb.of_points, h.1, h.2]
  simp [infinity]

/-- C7, where the code departs from the claim: for the child box `[0,1]³` and
the angle 0 (`sin_theta = 0`, `cos_theta = 1`) the loops of the constructor of
`rotate_y` end with `min = (0, 0, +infinity)` and `max = (1, 1, -infinity)`.
The rotated corners have the third coordinates 0 and 1, yet the third axis of
`aabb(min, max)` is not `[0, 1]`: it is built from the two infinities. -/
theorem rotate_y_bbox_z_axis_at_unit_box :
    rotate_y.extrema (0 : ℚ) 1 ⟨⟨0, 1⟩, ⟨0, 1⟩, ⟨0, 1⟩⟩ =
      (⟨xdouble.fin 0, xdouble.fin 0, infinity⟩, ⟨xdouble.fin 1, xdouble.fin 1, ⊥⟩) ∧
    (rotate_y.rotated_corner (0 : ℚ) 1 ⟨⟨0, 1⟩, ⟨0, 1⟩, ⟨0, 1⟩⟩ 0 0 0).z = 0 ∧
    (rotate_y.rotated_corner (0 : ℚ) 1 ⟨⟨0, 1⟩, ⟨0, 1⟩, ⟨0, 1⟩⟩ 1 1 1).z = 1 ∧
    (aabb.of_points (rotate_y.extrema (0 : ℚ) 1 ⟨⟨0, 1⟩, ⟨0, 1⟩, ⟨0, 1⟩⟩).1
      (rotate_y.extrema (0 : ℚ) 1 ⟨⟨0, 1⟩, ⟨0, 1⟩, ⟨0, 1⟩⟩).2).z = ⟨⊥, infinity⟩ ∧
    (aabb.of_points (rotate_y.extrema (0 : ℚ) 1 ⟨⟨0, 1⟩, ⟨0, 1⟩, ⟨0, 1⟩⟩).1
      (rotate_y.extrema (0 : ℚ) 1 ⟨⟨0, 1⟩, ⟨0, 1⟩, ⟨0, 1⟩⟩).2).z
        ≠ ⟨xdouble.fin 0, xdouble.fin 1⟩ := by
  have hz := rotate_y_extrema_z (0 : ℚ) 1 ⟨⟨0, 1⟩, ⟨0, 1⟩, ⟨0, 1⟩⟩
  have hbox : (aabb.of_points (rotate_y.extrema (0 : ℚ) 1 ⟨⟨0, 1⟩, ⟨0, 1⟩, ⟨0, 1⟩⟩).1
      (rotate_y.extrema (0 : ℚ) 1 ⟨⟨0, 1⟩, ⟨0, 1⟩, ⟨0, 1⟩⟩).2).z = ⟨⊥, infinity⟩ := by
    simp only [aabb.of_points, hz.1, hz.2]
    simp [infinity]
  refine ⟨?_, ?_, ?_, hbox, ?_⟩
  · simp [rotate_y.extrema, rotate_y.corner_step, List.range_succ, vec3.set, vec3.get, infinity,
      xdouble.fin]
  · simp [rotate_y.rotated_corner]
  · simp [rotate_y.rotated_corner]
  · rw [hbox]
    intro h
    have h1 := congrArg interval.min h
    simp [xdouble.fin] at h1

/-! ## C9: the recorded normal -/

theorem length_squared_neg (a : vec3 α) : (-a).length_squared = a.length_squared := by
  simp only [vec3.length_squared, vec3.neg_x, vec3.neg_y, vec3.neg_z]; ring

theorem dot_neg_right (a b : vec3 α) : dot a (-b) = -dot a b := by
  simp only [dot, vec3.neg_x, vec3.neg_y, vec3.neg_z]; ring

/-- What `set_face_normal` establishes for an outward normal of length 1. -/
theorem oriented_of_face_normal {M : Type} {m : rtweekend α} (hm : m.sqrt_ok)
    (rec : hit_record α M) (r : ray α) (N : vec3 α) (hN : N.length_squared = 1)
    (hff : rec.front_face = decide (dot r.direction N < 0))
    (hn : rec.normal = if dot r.direction N < 0 then N else -N) :
    rec.oriented m r N := by
  by_cases h : dot r.direction N < 0
  · rw [if_pos h] at hn
    rw [decide_eq_true h] at hff
    refine ⟨?_, ?_, length_eq_one_of_sq hm hN, ?_, ?_⟩
    · rw [hn]; exact length_eq_one_of_sq hm hN
    · rw [hn]; exact h.le
    · rw [hff]; exact ⟨fun _ => h, fun _ => rfl⟩
    · rw [hff, if_pos rfl, hn]
  · rw [if_neg h] at hn
    rw [decide_eq_false h] at hff
    refine ⟨?_, ?_, length_eq_one_of_sq hm hN, ?_, ?_⟩
    · rw [hn]; exact length_eq_one_of_sq hm (by rw [length_squared_neg]; exact hN)
    · rw [hn, dot_neg_right]; linarith [not_lt.mp h]
    · rw [hff]; exact ⟨fun hc => by simp at hc, fun hc => absurd hc h⟩
    · rw [hff, hn]; simp

theorem sphere_hit_oriented {M : Type} {m : rtweekend α} (hm : m.sqrt_ok) (s : sphere α M)
    (r : ray α) (ray_t : interval (xdouble α)) (rec : hit_record α M) (hr : 0 < s.radius)
    (hit : (s.hit m r ray_t rec).1 = true) :
    (s.hit m r ray_t rec).2.oriented m r (((s.hit m r ray_t rec).2.p - s.center) / s.radius) := by
  have hon := sphere_hit_on_sphere hm s r ray_t rec hit
  have hN : ((((s.hit m r ray_t rec).2.p - s.center) / s.radius)).length_squared = 1 := by
    simp only [vec3.length_squared, vec3.div_x, vec3.div_y, vec3.div_z, vec3.sub_x, vec3.sub_y,
      vec3.sub_z] at hon ⊢
    field_simp
    linarith
  apply oriented_of_face_normal hm _ r _ hN
  · rw [sphere_hit_record _ _ _ _ _ hit]; rfl
  · rw [sphere_hit_record _ _ _ _ _ hit]; rfl

theorem quad_hit_oriented {M : Type} {m : rtweekend α} (hm : m.sqrt_ok) (Q : point3 α)
    (u v : vec3 α) (mat : M) (r : ray α) (ray_t : interval (xdouble α)) (rec : hit_record α M)
    (huv : cross u v ≠ ⟨0, 0, 0⟩) (hit : ((quad.new m Q u v mat).hit r ray_t rec).1 = true) :
    ((quad.new m Q u v mat).hit r ray_t rec).2.oriented m r (unit_vector m (cross u v)) := by
  apply oriented_of_face_normal hm _ r _ (unit_vector_length_squared hm huv)
  · rw [quad_hit_record _ _ _ _ hit]; rfl
  · rw [quad_hit_record _ _ _ _ hit]; rfl

theorem dot_to_object {M G : Type} (w : rotate_y α M G) (d n : vec3 α) :
    dot (w.to_object d) n = dot d (w.to_world n) := by
  simp only [dot, rotate_y.to_object, rotate_y.to_world]; ring

theorem length_squared_to_world {M G : Type} (w : rotate_y α M G)
    (htrig : w.sin_theta * w.sin_theta + w.cos_theta * w.cos_theta = 1) (n : vec3 α) :
    (w.to_world n).length_squared = n.length_squared := by
  simp only [vec3.length_squared, rotate_y.to_world]
  linear_combination (n.x * n.x + n.z * n.z) * htrig

theorem length_to_world {M G : Type} (w : rotate_y α M G) (m : rtweekend α)
    (htrig : w.sin_theta * w.sin_theta + w.cos_theta * w.cos_theta = 1) (n : vec3 α) :
    (w.to_world n).length m = n.length m := by
  have h := length_squared_to_world w htrig n
  unfold vec3.length_squared at h
  unfold vec3.length
  rw [h]

theorem to_world_neg {M G : Type} (w : rotate_y α M G) (n : vec3 α) :
    w.to_world (-n) = -w.to_world n := by
  ext <;> simp only [rotate_y.to_world, vec3.neg_x, vec3.neg_y, vec3.neg_z] <;> ring

/-- The orientation contract passes through `rotate_y::hit`: if the child's
record is oriented for the rotated ray and the object-space normal `N`, the
wrapper's record is oriented for the world ray and the rotated normal. -/
theorem rotate_y_hit_oriented {M G : Type} (w : rotate_y α M G) (m : rtweekend α)
    (htrig : w.sin_theta * w.sin_theta + w.cos_theta * w.cos_theta = 1) (r : ray α)
    (ray_t : interval (xdouble α)) (rec : hit_record α M) (N : vec3 α)
    (hit : (w.object.hit ⟨w.to_object r.origin, w.to_object r.direction⟩ ray_t rec).1 = true)
    (ho : (w.object.hit ⟨w.to_object r.origin, w.to_object r.direction⟩ ray_t rec).2.oriented m
      ⟨w.to_object r.origin, w.to_object r.direction⟩ N) :
    (w.hit r ray_t rec).2.oriented m r (w.to_world N) := by
  rw [rotate_y_hit_true w r ray_t rec hit]
  obtain ⟨h1, h2, h3, h4, h5⟩ := ho
  refine ⟨?_, ?_, ?_, ?_, ?_⟩
  · show (w.to_world _).length m = 1
    rw [length_to_world w m htrig]; exact h1
  · show dot r.direction (w.to_world _) ≤ 0
    rw [← dot_to_object]; exact h2
  · rw [length_to_world w m htrig]; exact h3
  · rw [← dot_to_object]; exact h4
  · show w.to_world _ = if _ then _ else _
    rw [h5]
    split_ifs
    · rfl
    · exact to_world_neg w N

theorem rotate_y_to_object_to_world {M G : Type} (w : rotate_y α M G)
    (htrig : w.sin_theta * w.sin_theta + w.cos_theta * w.cos_theta = 1) (a : vec3 α) :
    w.to_object (w.to_world a) = a := by
  ext
  · simp only [rotate_y.to_world, rotate_y.to_object]
    linear_combination a.x * htrig
  · rfl
  · simp only [rotate_y.to_world, rotate_y.to_object]
    linear_combination a.z * htrig

theorem rotate_y_hit_fst {M G : Type} (w : rotate_y α M G) (r : ray α)
    (ray_t : interval (xdouble α)) (rec : hit_record α M) :
    (w.hit r ray_t rec).1 =
      (w.object.hit ⟨w.to_object r.origin, w.to_object r.direction⟩ ray_t rec).1 := by
  cases hc : (w.object.hit ⟨w.to_object r.origin, w.to_object r.direction⟩ ray_t rec).1
  · rw [rotate_y_hit_false w r ray_t rec hc]
  · rw [rotate_y_hit_true w r ray_t rec hc]

/-- C9: every record `sphere::hit` (radius > 0) or `quad::hit` (non-parallel
edges) produces, also through a `rotate_y` wrapper with `sin_theta² +
cos_theta² = 1`, is oriented: its normal has length 1 and
`dot(r.direction, rec.normal) ≤ 0` for the world-space ray `r`, and
`front_face` is true exactly when the ray direction has a negative dot product
with the geometric outward normal, the recorded normal being that outward
normal then and its negation otherwise.  The outward normal is
`(rec.p - center) / radius` for the sphere and `unit_vector(cross(u, v))` for
the quad, rotated to world space under the wrapper. -/
theorem hit_normal_contract {M G : Type} (m : rtweekend α) (hm : m.sqrt_ok)
    (center : point3 α) (radius : α) (Q : point3 α) (u v : vec3 α) (mat : M)
    (random_double : G → α × G) (rec0 : hit_record α M) (r : ray α)
    (ray_t : interval (xdouble α)) (rec : hit_record α M)
    (hradius : 0 < radius) (huv : cross u v ≠ ⟨0, 0, 0⟩) :
    (((sphere.new center radius mat).hit m r ray_t rec).1 = true →
      ((sphere.new center radius mat).hit m r ray_t rec).2.oriented m r
        ((((sphere.new center radius mat).hit m r ray_t rec).2.p - center) / radius)) ∧
    (((quad.new m Q u v mat).hit r ray_t rec).1 = true →
      ((quad.new m Q u v mat).hit r ray_t rec).2.oriented m r (unit_vector m (cross u v))) ∧
    (∀ w : rotate_y α M G,
      w.object = (sphere.new center radius mat).toHittable m random_double rec0 →
      w.sin_theta * w.sin_theta + w.cos_theta * w.cos_theta = 1 →
      (w.hit r ray_t rec).1 = true →
      (w.hit r ray_t rec).2.oriented m r
        (w.to_world ((w.to_object (w.hit r ray_t rec).2.p - center) / radius))) ∧
    (∀ w : rotate_y α M G,
      w.object = (quad.new m Q u v mat).toHittable m random_double rec0 →
      w.sin_theta * w.sin_theta + w.cos_theta * w.cos_theta = 1 →
      (w.hit r ray_t rec).1 = true →
      (w.hit r ray_t rec).2.oriented m r (w.to_world (unit_vector m (cross u v)))) := by
  have hrad : (sphere.new center radius mat).radius = radius :=
    sphere_new_radius center mat hradius.le
  refine ⟨fun hit => ?_, fun hit => quad_hit_oriented hm Q u v mat r ray_t rec huv hit, ?_, ?_⟩
  · have h := sphere_hit_oriented hm (sphere.new center radius mat) r ray_t rec
      (by rw [hrad]; exact hradius) hit
    rw [hrad] at h
    exact h
  · intro w hobj htrig hit
    rw [rotate_y_hit_fst] at hit
    have hp : w.to_object (w.hit r ray_t rec).2.p =
        (w.object.hit ⟨w.to_object r.origin, w.to_object r.direction⟩ ray_t rec).2.p := by
      rw [rotate_y_hit_true w r ray_t rec hit]
      exact rotate_y_to_object_to_world w htrig _
    rw [hp]
    apply rotate_y_hit_oriented w m htrig r ray_t rec _ hit
    rw [hobj] at hit ⊢
    have h := sphere_hit_oriented hm (sphere.new center radius mat)
      ⟨w.to_object r.origin, w.to_object r.direction⟩ ray_t rec (by rw [hrad]; exact hradius) hit
    rw [hrad] at h
    exact h
  · intro w hobj htrig hit
    rw [rotate_y_hit_fst] at hit
    apply rotate_y_hit_oriented w m htrig r ray_t rec _ hit
    rw [hobj] at hit ⊢
    exact quad_hit_oriented hm Q u v mat ⟨w.to_object r.origin, w.to_object r.direction⟩
      ray_t rec huv hit

/-- C9 over the reals: the ray from `(0.5, 0.5, 1)` along `(0, 0, -1)` hits the
sphere of centre `(0.5, 0.5, -4)` and radius 2, the unit quad, and that sphere
under `rotate_y` at the angle 0, each time with an oriented record. -/
theorem hit_normal_contract_witness :
    ∃ m : rtweekend ℝ, m.sqrt = Real.sqrt ∧ m.sqrt_ok ∧ (0 : ℝ) < 2 ∧
      cross (⟨1, 0, 0⟩ : vec3 ℝ) ⟨0, 1, 0⟩ ≠ ⟨0, 0, 0⟩ ∧
      ((sphere.new (⟨0.5, 0.5, -4⟩ : vec3 ℝ) 2 ()).hit m ⟨⟨0.5, 0.5, 1⟩, ⟨0, 0, -1⟩⟩
        ⟨xdouble.fin 0.001, infinity⟩ ⟨⟨0, 0, 0⟩, ⟨0, 0, 0⟩, (), 0, 0, 0, false⟩).1 = true ∧
      ((sphere.new (⟨0.5, 0.5, -4⟩ : vec3 ℝ) 2 ()).hit m ⟨⟨0.5, 0.5, 1⟩, ⟨0, 0, -1⟩⟩
        ⟨xdouble.fin 0.001, infinity⟩
        ⟨⟨0, 0, 0⟩, ⟨0, 0, 0⟩, (), 0, 0, 0, false⟩).2.normal.length m = 1 ∧
      dot (⟨0, 0, -1⟩ : vec3 ℝ)
        ((sphere.new (⟨0.5, 0.5, -4⟩ : vec3 ℝ) 2 ()).hit m ⟨⟨0.5, 0.5, 1⟩, ⟨0, 0, -1⟩⟩
          ⟨xdouble.fin 0.001, infinity⟩
          ⟨⟨0, 0, 0⟩, ⟨0, 0, 0⟩, (), 0, 0, 0, false⟩).2.normal ≤ 0 ∧
      ((quad.new m (⟨0, 0, 0⟩ : vec3 ℝ) ⟨1, 0, 0⟩ ⟨0, 1, 0⟩ ()).hit ⟨⟨0.5, 0.5, 1⟩, ⟨0, 0, -1⟩⟩
        ⟨xdouble.fin 0.001, infinity⟩ ⟨⟨0, 0, 0⟩, ⟨0, 0, 0⟩, (), 0, 0, 0, false⟩).1 = true ∧
      ((quad.new m (⟨0, 0, 0⟩ : vec3 ℝ) ⟨1, 0, 0⟩ ⟨0, 1, 0⟩ ()).hit ⟨⟨0.5, 0.5, 1⟩, ⟨0, 0, -1⟩⟩
        ⟨xdouble.fin 0.001, infinity⟩ ⟨⟨0, 0, 0⟩, ⟨0, 0, 0⟩, (), 0, 0, 0, false⟩).2.oriented m
        ⟨⟨0.5, 0.5, 1⟩, ⟨0, 0, -1⟩⟩ (unit_vector m (cross ⟨1, 0, 0⟩ ⟨0, 1, 0⟩)) ∧
      ((⟨(sphere.new (⟨0.5, 0.5, -4⟩ : vec3 ℝ) 2 ()).toHittable m
          (fun g : Unit => ((0 : ℝ), g)) ⟨⟨0, 0, 0⟩, ⟨0, 0, 0⟩, (), 0, 0, 0, false⟩, 0, 1,
          ⟨⟨⊥, ⊤⟩, ⟨⊥, ⊤⟩, ⟨⊥, ⊤⟩⟩⟩ : rotate_y ℝ Unit Unit).hit ⟨⟨0.5, 0.5, 1⟩, ⟨0, 0, -1⟩⟩
          ⟨xdouble.fin 0.001, infinity⟩ ⟨⟨0, 0, 0⟩, ⟨0, 0, 0⟩, (), 0, 0, 0, false⟩).1 = true ∧
      dot (⟨0, 0, -1⟩ : vec3 ℝ)
        ((⟨(sphere.new (⟨0.5, 0.5, -4⟩ : vec3 ℝ) 2 ()).toHittable m
          (fun g : Unit => ((0 : ℝ), g)) ⟨⟨0, 0, 0⟩, ⟨0, 0, 0⟩, (), 0, 0, 0, false⟩, 0, 1,
          ⟨⟨⊥, ⊤⟩, ⟨⊥, ⊤⟩, ⟨⊥, ⊤⟩⟩⟩ : rotate_y ℝ Unit Unit).hit ⟨⟨0.5, 0.5, 1⟩, ⟨0, 0, -1⟩⟩
          ⟨xdouble.fin 0.001, infinity⟩
          ⟨⟨0, 0, 0⟩, ⟨0, 0, 0⟩, (), 0, 0, 0, false⟩).2.normal ≤ 0 := by
  obtain ⟨m, hsq, hm⟩ := real_env
  have huv : cross (⟨1, 0, 0⟩ : vec3 ℝ) ⟨0, 1, 0⟩ ≠ ⟨0, 0, 0⟩ := by simp [cross]
  have hs := sphere_center_hit hm (⟨0.5, 0.5, -4⟩ : vec3 ℝ) 2 () ⟨⟨0.5, 0.5, 1⟩, ⟨0, 0, -1⟩⟩
    ⟨xdouble.fin 0.001, infinity⟩ ⟨⟨0, 0, 0⟩, ⟨0, 0, 0⟩, (), 0, 0, 0, false⟩ 5 (by norm_num)
    (by simp [vec3.length_squared]) (by ext <;> simp [ray.at'] <;> norm_num)
    ⟨by simp; norm_num, by simp⟩
  have hq := (unit_quad_hit_iff hm () ⟨⟨0.5, 0.5, 1⟩, ⟨0, 0, -1⟩⟩
    ⟨xdouble.fin 0.001, infinity⟩ ⟨⟨0, 0, 0⟩, ⟨0, 0, 0⟩, (), 0, 0, 0, false⟩ 1
    (by ext <;> simp [ray.at'])).mpr ⟨by norm_num, by simp; norm_num, by simp⟩
  have hs2 := sphere_center_hit hm (⟨0.5, 0.5, -4⟩ : vec3 ℝ) 2 ()
    ⟨rotate_y.to_object (⟨(sphere.new (⟨0.5, 0.5, -4⟩ : vec3 ℝ) 2 ()).toHittable m
          (fun g : Unit => ((0 : ℝ), g)) ⟨⟨0, 0, 0⟩, ⟨0, 0, 0⟩, (), 0, 0, 0, false⟩, 0, 1,
          ⟨⟨⊥, ⊤⟩, ⟨⊥, ⊤⟩, ⟨⊥, ⊤⟩⟩⟩ : rotate_y ℝ Unit Unit) ⟨0.5, 0.5, 1⟩,
     rotate_y.to_object (⟨(sphere.new (⟨0.5, 0.5, -4⟩ : vec3 ℝ) 2 ()).toHittable m
          (fun g : Unit => ((0 : ℝ), g)) ⟨⟨0, 0, 0⟩, ⟨0, 0, 0⟩, (), 0, 0, 0, false⟩, 0, 1,
          ⟨⟨⊥, ⊤⟩, ⟨⊥, ⊤⟩, ⟨⊥, ⊤⟩⟩⟩ : rotate_y ℝ Unit Unit) ⟨0, 0, -1⟩⟩
    ⟨xdouble.fin 0.001, infinity⟩ ⟨⟨0, 0, 0⟩, ⟨0, 0, 0⟩, (), 0, 0, 0, false⟩ 5 (by norm_num)
    (by simp [vec3.length_squared, rotate_y.to_object])
    (by ext <;> simp [ray.at', rotate_y.to_object] <;> norm_num)
    ⟨by simp; norm_num, by simp⟩
  have h := hit_normal_contract m hm (⟨0.5, 0.5, -4⟩ : vec3 ℝ) 2 (⟨0, 0, 0⟩ : vec3 ℝ)
    ⟨1, 0, 0⟩ ⟨0, 1, 0⟩ () (fun g : Unit => ((0 : ℝ), g))
    ⟨⟨0, 0, 0⟩, ⟨0, 0, 0⟩, (), 0, 0, 0, false⟩ ⟨⟨0.5, 0.5, 1⟩, ⟨0, 0, -1⟩⟩
    ⟨xdouble.fin 0.001, infinity⟩ ⟨⟨0, 0, 0⟩, ⟨0, 0, 0⟩, (), 0, 0, 0, false⟩ (by norm_num) huv
  have hw : ((⟨(sphere.new (⟨0.5, 0.5, -4⟩ : vec3 ℝ) 2 ()).toHittable m
          (fun g : Unit => ((0 : ℝ), g)) ⟨⟨0, 0, 0⟩, ⟨0, 0, 0⟩, (), 0, 0, 0, false⟩, 0, 1,
          ⟨⟨⊥, ⊤⟩, ⟨⊥, ⊤⟩, ⟨⊥, ⊤⟩⟩⟩ : rotate_y ℝ Unit Unit).hit ⟨⟨0.5, 0.5, 1⟩, ⟨0, 0, -1⟩⟩
          ⟨xdouble.fin 0.001, infinity⟩ ⟨⟨0, 0, 0⟩, ⟨0, 0, 0⟩, (), 0, 0, 0, false⟩).1 = true := by
    rw [rotate_y_hit_fst]; exact hs2.1
  have h3 := h.2.2.1 _ rfl (by norm_num) hw
  exact ⟨m, hsq, hm, by norm_num, huv, hs.1, (h.1 hs.1).1, (h.1 hs.1).2.1, hq, h.2.1 hq, hw,
    h3.2.1⟩

/-! ## C10: the recurrence of `ray_color` -/

theorem vec3_add_comm (a b : vec3 α) : a + b = b + a := by
  ext <;> simp only [vec3.add_x, vec3.add_y, vec3.add_z] <;> ring

/-- C10: `ray_color` satisfies the recurrence of the spec.  It returns black
when `depth ≤ 0`; else the background colour when the scene is not hit in
`(0.001, infinity)`; else the emitted light alone when the material gives no
scatter event; else `attenuation ⊙ ray_color(skip_pdf_ray, depth - 1)` when the
scatter record sets `skip_pdf` (no emitted light is added); and otherwise
`emitted + attenuation * scattering_pdf * ray_color(ray(hit point, direction),
depth - 1) / value(direction)`, where the direction is generated by, and
`value` is the value of, the same mixture of the light density at the hit point
and the material's density, whose value is the mean of the two.  The quotient
is stated where `value(direction)` is not zero, where the quotient of the field
is the quotient of the code.  The state of the random source is threaded
through `scatter`, `generate` and the recursive call in this order. -/
theorem ray_color_recurrence {M G : Type} [FloorRing α] (cam : camera α)
    (mats : M → material α M G) (choose : G → Bool × G) (rec0 : hit_record α M) (r : ray α)
    (depth : α) (world lights : hittable α M G) (g : G) :
    (depth ≤ 0 →
      cam.ray_color mats choose rec0 r depth world lights g = (⟨0, 0, 0⟩, g)) ∧
    (0 < depth → (world.hit r ⟨xdouble.fin 0.001, infinity⟩ rec0).1 = false →
      cam.ray_color mats choose rec0 r depth world lights g = (cam.background, g)) ∧
    (0 < depth → (world.hit r ⟨xdouble.fin 0.001, infinity⟩ rec0).1 = true →
      ∀ hrec : hit_record α M, hrec = (world.hit r ⟨xdouble.fin 0.001, infinity⟩ rec0).2 →
      ((mats hrec.mat).scatter r hrec g).1 = none →
      cam.ray_color mats choose rec0 r depth world lights g =
        ((mats hrec.mat).emitted r hrec hrec.u hrec.v hrec.p,
         ((mats hrec.mat).scatter r hrec g).2)) ∧
    (0 < depth → (world.hit r ⟨xdouble.fin 0.001, infinity⟩ rec0).1 = true →
      ∀ hrec : hit_record α M, hrec = (world.hit r ⟨xdouble.fin 0.001, infinity⟩ rec0).2 →
      ∀ srec : scatter_record α G, ((mats hrec.mat).scatter r hrec g).1 = some srec →
      srec.skip_pdf = true →
      cam.ray_color mats choose rec0 r depth world lights g =
        (srec.attenuation *
          (cam.ray_color mats choose rec0 srec.skip_pdf_ray (depth - 1) world lights
            ((mats hrec.mat).scatter r hrec g).2).1,
         (cam.ray_color mats choose rec0 srec.skip_pdf_ray (depth - 1) world lights
            ((mats hrec.mat).scatter r hrec g).2).2)) ∧
    (0 < depth → (world.hit r ⟨xdouble.fin 0.001, infinity⟩ rec0).1 = true →
      ∀ hrec : hit_record α M, hrec = (world.hit r ⟨xdouble.fin 0.001, infinity⟩ rec0).2 →
      ∀ srec : scatter_record α G, ((mats hrec.mat).scatter r hrec g).1 = some srec →
      srec.skip_pdf = false →
      ∀ mixed : pdf α G, mixed = mixture_pdf choose (hittable_pdf lights hrec.p) srec.pdf_ptr →
      ∀ direction : vec3 α, direction = (mixed.generate ((mats hrec.mat).scatter r hrec g).2).1 →
      (mixed.value direction =
        (lights.pdf_value hrec.p direction + srec.pdf_ptr.value direction) / 2) ∧
      (mixed.value direction ≠ 0 →
        cam.ray_color mats choose rec0 r depth world lights g =
          ((mats hrec.mat).emitted r hrec hrec.u hrec.v hrec.p +
            srec.attenuation * (mats hrec.mat).scattering_pdf r hrec ⟨hrec.p, direction⟩ *
              (cam.ray_color mats choose rec0 ⟨hrec.p, direction⟩ (depth - 1) world lights
                (mixed.generate ((mats hrec.mat).scatter r hrec g).2).2).1
              / mixed.value direction,
           (cam.ray_color mats choose rec0 ⟨hrec.p, direction⟩ (depth - 1) world lights
              (mixed.generate ((mats hrec.mat).scatter r hrec g).2).2).2))) := by
  refine ⟨?_, ?_, ?_, ?_, ?_⟩
  · intro hd
    rw [camera.ray_color, dif_pos hd]
  · intro hd hh
    rw [camera.ray_color, dif_neg (not_le.mpr hd)]
    simp [hh]
  · intro hd hh hrec hhrec hs
    subst hhrec
    rw [camera.ray_color, dif_neg (not_le.mpr hd)]
    simp [hh, hs]
  · intro hd hh hrec hhrec srec hs hskip
    subst hhrec
    rw [camera.ray_color, dif_neg (not_le.mpr hd)]
    simp [hh, hs, hskip]
  · intro hd hh hrec hhrec srec hs hskip mixed hmixed direction hdir
    subst hhrec hmixed hdir
    refine ⟨rfl, fun _ => ?_⟩
    rw [camera.ray_color, dif_neg (not_le.mpr hd)]
    simp only [hh, hs, hskip]
    rw [vec3_add_comm]
    simp

/-! ## C15: the handedness of the basis -/

/-- The reals with `Real.sqrt`: `std::sqrt` is as assumed, whatever the other fields. -/
theorem real_sqrt_ok (f1 f2 f3 f4 : ℝ → ℝ) (f5 : ℝ → ℝ → ℝ) (c : ℝ) (f6 : ℝ → ℝ) :
    rtweekend.sqrt_ok (⟨Real.sqrt, f1, f2, f3, f4, f5, c, f6⟩ : rtweekend ℝ) :=
  fun x hx => ⟨Real.sqrt_nonneg x, Real.mul_self_sqrt hx⟩

theorem cross_cross_right (w v : vec3 α) :
    cross (cross w v) v = dot w v * v - dot v v * w := by
  ext <;> simp only [dot, cross_x, cross_y, cross_z, vec3.sub_x, vec3.sub_y, vec3.sub_z,
    vec3.smul_x, vec3.smul_y, vec3.smul_z] <;> ring

theorem triple_cross_left (w v : vec3 α) :
    dot (cross w v) (cross v w) = -(cross w v).length_squared := by
  simp only [dot, vec3.length_squared, cross_x, cross_y, cross_z]; ring

/-- The frame `onb(n)` builds satisfies `cross(u, v) = -w` and `u · (v × w) = -1`. -/
theorem onb_left_handed {m : rtweekend α} (hm : m.sqrt_ok) {n : vec3 α}
    (hn : n ≠ ⟨0, 0, 0⟩) :
    cross (onb.new m n).u (onb.new m n).v = -(onb.new m n).w ∧
    dot (onb.new m n).u (cross (onb.new m n).v (onb.new m n).w) = -1 := by
  have hw : (unit_vector m n).length_squared = 1 := unit_vector_length_squared hm hn
  have hc := onb_helper_cross_ne_zero hw
  have hv : (unit_vector m (cross (unit_vector m n) (onb.helper (unit_vector m n)))).length_squared
      = 1 := unit_vector_length_squared hm hc
  have hwv : dot (unit_vector m n)
      (unit_vector m (cross (unit_vector m n) (onb.helper (unit_vector m n)))) = 0 := by
    rw [dot_unit_vector, dot_cross_left, mul_zero]
  have hu : (cross (unit_vector m n)
      (unit_vector m (cross (unit_vector m n) (onb.helper (unit_vector m n))))).length_squared
      = 1 := by
    rw [length_squared_cross, hw, hv, hwv]; ring
  constructor
  · simp only [onb.new]
    rw [cross_cross_right, hwv]
    have hvv : dot (unit_vector m (cross (unit_vector m n) (onb.helper (unit_vector m n))))
        (unit_vector m (cross (unit_vector m n) (onb.helper (unit_vector m n)))) = 1 := hv
    rw [hvv]
    ext <;> simp
  · simp only [onb.new]
    rw [triple_cross_left, hu]

theorem neg_ne_self_of_unit {w : vec3 α} (hw : w.length_squared = 1) : -w ≠ w := by
  intro h
  have hx := congrArg vec3.x h
  have hy := congrArg vec3.y h
  have hz := congrArg vec3.z h
  simp only [vec3.neg_x, vec3.neg_y, vec3.neg_z] at hx hy hz
  have hx0 : w.x = 0 := by linarith
  have hy0 : w.y = 0 := by linarith
  have hz0 : w.z = 0 := by linarith
  unfold vec3.length_squared at hw
  rw [hx0, hy0, hz0] at hw
  norm_num at hw

/-- C15 as stated fails: over the reals the frame built from the seed
`n = (0, 0, 2)` has `cross(axis0, axis1) ≠ axis2` and its scalar triple product
`axis0 · (axis1 × axis2)` is not `+1`. -/
theorem onb_not_right_handed :
    cross
      (onb.new (⟨Real.sqrt, Real.sin, Real.cos, Real.tan, Real.arccos,
        fun y x => Complex.arg ⟨x, y⟩, Real.pi, fun d => d * Real.pi / 180⟩ : rtweekend ℝ)
        ⟨0, 0, 2⟩).u
      (onb.new (⟨Real.sqrt, Real.sin, Real.cos, Real.tan, Real.arccos,
        fun y x => Complex.arg ⟨x, y⟩, Real.pi, fun d => d * Real.pi / 180⟩ : rtweekend ℝ)
        ⟨0, 0, 2⟩).v
      ≠ (onb.new (⟨Real.sqrt, Real.sin, Real.cos, Real.tan, Real.arccos,
        fun y x => Complex.arg ⟨x, y⟩, Real.pi, fun d => d * Real.pi / 180⟩ : rtweekend ℝ)
        ⟨0, 0, 2⟩).w ∧
    dot
      (onb.new (⟨Real.sqrt, Real.sin, Real.cos, Real.tan, Real.arccos,
        fun y x => Complex.arg ⟨x, y⟩, Real.pi, fun d => d * Real.pi / 180⟩ : rtweekend ℝ)
        ⟨0, 0, 2⟩).u
      (cross
        (onb.new (⟨Real.sqrt, Real.sin, Real.cos, Real.tan, Real.arccos,
          fun y x => Complex.arg ⟨x, y⟩, Real.pi, fun d => d * Real.pi / 180⟩ : rtweekend ℝ)
          ⟨0, 0, 2⟩).v
        (onb.new (⟨Real.sqrt, Real.sin, Real.cos, Real.tan, Real.arccos,
          fun y x => Complex.arg ⟨x, y⟩, Real.pi, fun d => d * Real.pi / 180⟩ : rtweekend ℝ)
          ⟨0, 0, 2⟩).w) ≠ 1 := by
  have hm := real_sqrt_ok Real.sin Real.cos Real.tan Real.arccos
    (fun y x => Complex.arg ⟨x, y⟩) Real.pi (fun d => d * Real.pi / 180)
  have hn : (⟨0, 0, 2⟩ : vec3 ℝ) ≠ ⟨0, 0, 0⟩ := by simp
  obtain ⟨h1, h2⟩ := onb_left_handed hm hn
  refine ⟨?_, ?_⟩
  · rw [h1]
    exact neg_ne_self_of_unit (unit_vector_length_squared hm hn)
  · rw [h2]; norm_num

/-- C15, amended: for every non-zero seed direction `n` the frame
`(axis0, axis1, axis2) = (u(), v(), w())` built by `onb(n)` is left-handed:
`cross(axis0, axis1) = -axis2`, and the scalar triple product
`axis0 · (axis1 × axis2)` equals `-1`. -/
theorem onb_handedness (m : rtweekend α) (hm : m.sqrt_ok) (n : vec3 α)
    (hn : n ≠ ⟨0, 0, 0⟩) :
    cross (onb.new m n).u (onb.new m n).v = -(onb.new m n).w ∧
    dot (onb.new m n).u (cross (onb.new m n).v (onb.new m n).w) = -1 :=
  onb_left_handed hm hn

/-- C15, amended, at the seed `n = (0, 0, 2)` over the reals. -/
theorem onb_handedness_witness :
    ∃ m : rtweekend ℝ, m.sqrt = Real.sqrt ∧ m.sqrt_ok ∧ (⟨0, 0, 2⟩ : vec3 ℝ) ≠ ⟨0, 0, 0⟩ ∧
      cross (onb.new m ⟨0, 0, 2⟩).u (onb.new m ⟨0, 0, 2⟩).v = -(onb.new m ⟨0, 0, 2⟩).w ∧
      dot (onb.new m ⟨0, 0, 2⟩).u (cross (onb.new m ⟨0, 0, 2⟩).v (onb.new m ⟨0, 0, 2⟩).w)
        = -1 := by
  obtain ⟨m, hs, hm⟩ := real_env
  have h := onb_handedness m hm ⟨0, 0, 2⟩ (by simp)
  exact ⟨m, hs, hm, by simp, h.1, h.2⟩

/-! ## C16: the complete behaviour of `quad::hit` -/

theorem quad_plane_unique {M : Type} (q : quad α M) (r : ray α)
    (hnd : dot q.normal r.direction ≠ 0) (t : α) :
    dot q.normal (r.at' t) = q.D ↔ t = q.hit_t r := by
  have h1 : dot q.normal (r.at' t) = dot q.normal r.origin + t * dot q.normal r.direction := by
    simp only [dot, ray.at', vec3.add_x, vec3.add_y, vec3.add_z, vec3.smul_x, vec3.smul_y,
      vec3.smul_z]
    ring
  rw [h1, quad.hit_t, eq_div_iff hnd]
  constructor <;> intro h <;> linarith

/-- The locals `a` and `b` of `quad::hit` are the coordinates of the plane point
in the parallelogram: if it is `Q + a·u + b·v` then they are `a` and `b`. -/
theorem quad_coordinates_unique {M : Type} (m : rtweekend α) (Q : point3 α) (u v : vec3 α)
    (mat : M) (r : ray α) (huv : cross u v ≠ ⟨0, 0, 0⟩) (a b : α)
    (hp : r.at' ((quad.new m Q u v mat).hit_t r) = Q + a * u + b * v) :
    (quad.new m Q u v mat).hit_a r = a ∧ (quad.new m Q u v mat).hit_b r = b := by
  have hnn : dot (cross u v) (cross u v) ≠ 0 := (dot_self_pos huv).ne'
  have hpq : r.at' ((quad.new m Q u v mat).hit_t r) - Q = a * u + b * v := by
    rw [hp]
    ext <;> simp only [vec3.add_x, vec3.add_y, vec3.add_z, vec3.sub_x, vec3.sub_y, vec3.sub_z,
      vec3.smul_x, vec3.smul_y, vec3.smul_z] <;> ring
  constructor
  · show dot (cross u v / dot (cross u v) (cross u v))
      (cross (r.at' ((quad.new m Q u v mat).hit_t r) - Q) v) = a
    rw [hpq]
    have e : dot (cross u v / dot (cross u v) (cross u v)) (cross (a * u + b * v) v)
        = 1 / dot (cross u v) (cross u v) * (a * dot (cross u v) (cross u v)) := by
      simp only [dot, cross_x, cross_y, cross_z, vec3.div_x, vec3.div_y, vec3.div_z, vec3.add_x,
        vec3.add_y, vec3.add_z, vec3.smul_x, vec3.smul_y, vec3.smul_z]
      ring
    rw [e]
    field_simp
  · show dot (cross u v / dot (cross u v) (cross u v))
      (cross u (r.at' ((quad.new m Q u v mat).hit_t r) - Q)) = b
    rw [hpq]
    have e : dot (cross u v / dot (cross u v) (cross u v)) (cross u (a * u + b * v))
        = 1 / dot (cross u v) (cross u v) * (b * dot (cross u v) (cross u v)) := by
      simp only [dot, cross_x, cross_y, cross_z, vec3.div_x, vec3.div_y, vec3.div_z, vec3.add_x,
        vec3.add_y, vec3.add_z, vec3.smul_x, vec3.smul_y, vec3.smul_z]
      ring
    rw [e]
    field_simp

theorem quad_hit_iff_in_parallelogram {M : Type} {m : rtweekend α} (hm : m.sqrt_ok)
    (Q : point3 α) (u v : vec3 α) (mat : M) (r : ray α) (ray_t : interval (xdouble α))
    (rec : hit_record α M) (huv : cross u v ≠ ⟨0, 0, 0⟩)
    (hnp : ¬ |dot (quad.new m Q u v mat).normal r.direction| < 1e-8) :
    ((quad.new m Q u v mat).hit r ray_t rec).1 = true ↔
      (ray_t.min ≤ xdouble.fin ((quad.new m Q u v mat).hit_t r) ∧
        xdouble.fin ((quad.new m Q u v mat).hit_t r) ≤ ray_t.max) ∧
      ∃ a b : α, 0 ≤ a ∧ a ≤ 1 ∧ 0 ≤ b ∧ b ≤ 1 ∧
        r.at' ((quad.new m Q u v mat).hit_t r) = Q + a * u + b * v := by
  rw [quad_hit_true_iff]
  constructor
  · rintro ⟨_, h2, ha, hb⟩
    exact ⟨h2, _, _, ha.1, ha.2, hb.1, hb.2,
      quad_point_decomposes hm Q u v mat r huv (abs_ne_zero_of_not_lt hnp)⟩
  · rintro ⟨h2, a, b, ha0, ha1, hb0, hb1, hp⟩
    obtain ⟨ea, eb⟩ := quad_coordinates_unique m Q u v mat r huv a b hp
    rw [ea, eb]
    exact ⟨hnp, h2, ⟨ha0, ha1⟩, ⟨hb0, hb1⟩⟩

/-- C16: for a quad of non-parallel edges, `quad::hit` returns `false` on every
ray with `|normal · direction| < 1e-8`; on every other ray the plane
`normal · x = D` is met at exactly one parameter `t`, and `hit` returns `true`
if and only if `ray_t` contains `t` (bounds included) and `r.at(t)` is a point
`Q + a·u + b·v` with `0 ≤ a ≤ 1` and `0 ≤ b ≤ 1` (edges included); the record
then holds that `t` and that point. -/
theorem quad_hit_characterisation {M : Type} (m : rtweekend α) (hm : m.sqrt_ok) (Q : point3 α)
    (u v : vec3 α) (mat : M) (r : ray α) (ray_t : interval (xdouble α)) (rec : hit_record α M)
    (huv : cross u v ≠ ⟨0, 0, 0⟩) :
    (|dot (quad.new m Q u v mat).normal r.direction| < 1e-8 →
      ((quad.new m Q u v mat).hit r ray_t rec).1 = false) ∧
    (¬ |dot (quad.new m Q u v mat).normal r.direction| < 1e-8 →
      (∀ t : α, dot (quad.new m Q u v mat).normal (r.at' t) = (quad.new m Q u v mat).D ↔
        t = (quad.new m Q u v mat).hit_t r) ∧
      (((quad.new m Q u v mat).hit r ray_t rec).1 = true ↔
        (ray_t.min ≤ xdouble.fin ((quad.new m Q u v mat).hit_t r) ∧
          xdouble.fin ((quad.new m Q u v mat).hit_t r) ≤ ray_t.max) ∧
        ∃ a b : α, 0 ≤ a ∧ a ≤ 1 ∧ 0 ≤ b ∧ b ≤ 1 ∧
          r.at' ((quad.new m Q u v mat).hit_t r) = Q + a * u + b * v) ∧
      (((quad.new m Q u v mat).hit r ray_t rec).1 = true →
        ((quad.new m Q u v mat).hit r ray_t rec).2.t = (quad.new m Q u v mat).hit_t r ∧
        ((quad.new m Q u v mat).hit r ray_t rec).2.p =
          r.at' ((quad.new m Q u v mat).hit_t r))) := by
  constructor
  · intro h
    rw [← Bool.not_eq_true, quad_hit_true_iff]
    exact fun hc => hc.1 h
  · intro hnp
    refine ⟨quad_plane_unique _ r (abs_ne_zero_of_not_lt hnp),
      quad_hit_iff_in_parallelogram hm Q u v mat r ray_t rec huv hnp, fun hit => ?_⟩
    rw [quad_hit_record _ _ _ _ hit]
    exact ⟨rfl, rfl⟩

/-- C16 over the reals: the ray from `(0.5, 0.5, 1)` along `(0, 0, -1)` meets
the plane of the unit quad at `t = 1`, inside `(0.001, infinity)`, at a point
of the parallelogram, and `hit` returns `true`. -/
theorem quad_hit_characterisation_witness :
    ∃ m : rtweekend ℝ, m.sqrt = Real.sqrt ∧ m.sqrt_ok ∧
      cross (⟨1, 0, 0⟩ : vec3 ℝ) ⟨0, 1, 0⟩ ≠ ⟨0, 0, 0⟩ ∧
      ¬ |dot (quad.new m (⟨0, 0, 0⟩ : vec3 ℝ) ⟨1, 0, 0⟩ ⟨0, 1, 0⟩ ()).normal
          (⟨0, 0, -1⟩ : vec3 ℝ)| < 1e-8 ∧
      ((quad.new m (⟨0, 0, 0⟩ : vec3 ℝ) ⟨1, 0, 0⟩ ⟨0, 1, 0⟩ ()).hit ⟨⟨0.5, 0.5, 1⟩, ⟨0, 0, -1⟩⟩
        ⟨xdouble.fin 0.001, infinity⟩ ⟨⟨0, 0, 0⟩, ⟨0, 0, 0⟩, (), 0, 0, 0, false⟩).1 = true ∧
      ∃ a b : ℝ, 0 ≤ a ∧ a ≤ 1 ∧ 0 ≤ b ∧ b ≤ 1 ∧
        (⟨⟨0.5, 0.5, 1⟩, ⟨0, 0, -1⟩⟩ : ray ℝ).at'
          ((quad.new m (⟨0, 0, 0⟩ : vec3 ℝ) ⟨1, 0, 0⟩ ⟨0, 1, 0⟩ ()).hit_t
            ⟨⟨0.5, 0.5, 1⟩, ⟨0, 0, -1⟩⟩) = (⟨0, 0, 0⟩ : vec3 ℝ) + a * (⟨1, 0, 0⟩ : vec3 ℝ)
              + b * (⟨0, 1, 0⟩ : vec3 ℝ) := by
  obtain ⟨m, hsq, hm⟩ := real_env
  have huv : cross (⟨1, 0, 0⟩ : vec3 ℝ) ⟨0, 1, 0⟩ ≠ ⟨0, 0, 0⟩ := by simp [cross]
  have hq := (unit_quad_hit_iff hm () ⟨⟨0.5, 0.5, 1⟩, ⟨0, 0, -1⟩⟩
    ⟨xdouble.fin 0.001, infinity⟩ ⟨⟨0, 0, 0⟩, ⟨0, 0, 0⟩, (), 0, 0, 0, false⟩ 1
    (by ext <;> simp [ray.at'])).mpr ⟨by norm_num, by simp; norm_num, by simp⟩
  have hnp := ((quad_hit_true_iff _ _ _ _).mp hq).1
  have h := quad_hit_characterisation m hm (⟨0, 0, 0⟩ : vec3 ℝ) ⟨1, 0, 0⟩ ⟨0, 1, 0⟩ ()
    ⟨⟨0.5, 0.5, 1⟩, ⟨0, 0, -1⟩⟩ ⟨xdouble.fin 0.001, infinity⟩
    ⟨⟨0, 0, 0⟩, ⟨0, 0, 0⟩, (), 0, 0, 0, false⟩ huv
  exact ⟨m, hsq, hm, huv, hnp, hq, (((h.2 hnp).2.1).mp hq).2⟩

/-! ## C13: the density of a quad light -/

theorem quad_pdf_value_eq {M : Type} (q : quad α M) (m : rtweekend α) (rec0 : hit_record α M)
    (origin : point3 α) (direction : vec3 α) :
    q.pdf_value m rec0 origin direction =
      if (q.hit ⟨origin, direction⟩ ⟨xdouble.fin 0.001, infinity⟩ rec0).1 = true then
        (q.hit ⟨origin, direction⟩ ⟨xdouble.fin 0.001, infinity⟩ rec0).2.t
          * (q.hit ⟨origin, direction⟩ ⟨xdouble.fin 0.001, infinity⟩ rec0).2.t
          * direction.length_squared
          / (|dot direction (q.hit ⟨origin, direction⟩ ⟨xdouble.fin 0.001, infinity⟩ rec0).2.normal
              / direction.length m| * q.area)
      else 0 := by
  unfold quad.pdf_value
  rcases hc : q.hit ⟨origin, direction⟩ ⟨xdouble.fin 0.001, infinity⟩ rec0 with ⟨b, rec1⟩
  cases b <;> simp

theorem abs_dot_record_normal {M : Type} (q : quad α M) (r : ray α) :
    |dot r.direction (q.record_at r).normal| = |dot r.direction q.normal| := by
  simp only [quad.record_at]
  split_ifs
  · rfl
  · rw [dot_neg_right, abs_neg]

theorem length_squared_at_sub (r : ray α) (t : α) :
    (r.at' t - r.origin).length_squared = t * t * r.direction.length_squared := by
  simp only [vec3.length_squared, ray.at', vec3.add_x, vec3.add_y, vec3.add_z, vec3.sub_x,
    vec3.sub_y, vec3.sub_z, vec3.smul_x, vec3.smul_y, vec3.smul_z]
  ring

/-- The value of `quad::pdf_value` on a hit, and its sign. -/
theorem quad_pdf_value_on_hit {M : Type} {m : rtweekend α} (hm : m.sqrt_ok) (Q : point3 α)
    (u v : vec3 α) (mat : M) (rec0 : hit_record α M) (o : point3 α) (d : vec3 α)
    (huv : cross u v ≠ ⟨0, 0, 0⟩) (hd : d ≠ ⟨0, 0, 0⟩)
    (hit : ((quad.new m Q u v mat).hit ⟨o, d⟩ ⟨xdouble.fin 0.001, infinity⟩ rec0).1 = true) :
    (quad.new m Q u v mat).pdf_value m rec0 o d =
      (((quad.new m Q u v mat).hit ⟨o, d⟩ ⟨xdouble.fin 0.001, infinity⟩ rec0).2.p - o).length_squared
        / (|dot d (quad.new m Q u v mat).normal| / d.length m * (cross u v).length m) ∧
    0 < |dot d (quad.new m Q u v mat).normal| / d.length m * (cross u v).length m ∧
    0 < (quad.new m Q u v mat).pdf_value m rec0 o d := by
  have hdl : 0 < d.length m := length_pos hm hd
  have hdl2 : 0 < d.length_squared := length_squared_pos hd
  have harea : 0 < (cross u v).length m := length_pos hm huv
  obtain ⟨h1, h2, _⟩ := (quad_hit_true_iff _ _ _ _).mp hit
  have hnd : 0 < |dot d (quad.new m Q u v mat).normal| := by
    rw [dot_comm]
    exact abs_pos.mpr (abs_ne_zero_of_not_lt h1)
  have ht : (0 : α) < (quad.new m Q u v mat).hit_t ⟨o, d⟩ := by
    have := (fin_le_fin _ _).mp h2.1
    have h0 : (0 : α) < 0.001 := by norm_num
    exact lt_of_lt_of_le h0 this
  have hden : 0 < |dot d (quad.new m Q u v mat).normal| / d.length m * (cross u v).length m :=
    mul_pos (div_pos hnd hdl) harea
  have hval : (quad.new m Q u v mat).pdf_value m rec0 o d =
      (((quad.new m Q u v mat).hit ⟨o, d⟩ ⟨xdouble.fin 0.001, infinity⟩ rec0).2.p
        - o).length_squared
        / (|dot d (quad.new m Q u v mat).normal| / d.length m * (cross u v).length m) := by
    rw [quad_pdf_value_eq, if_pos hit, quad_hit_record _ _ _ _ hit, abs_div,
      abs_dot_record_normal (quad.new m Q u v mat) ⟨o, d⟩, abs_of_pos hdl]
    show _ = ((⟨o, d⟩ : ray α).at' _ - (⟨o, d⟩ : ray α).origin).length_squared / _
    rw [length_squared_at_sub]
    rfl
  refine ⟨hval, hden, ?_⟩
  rw [hval]
  apply div_pos _ hden
  rw [quad_hit_record _ _ _ _ hit]
  show 0 < ((⟨o, d⟩ : ray α).at' _ - (⟨o, d⟩ : ray α).origin).length_squared
  rw [length_squared_at_sub]
  exact mul_pos (mul_pos ht ht) hdl2

/-- C13: for a quad of non-parallel edges `u`, `v`, an origin `o` and a
non-zero direction `d`, `quad::pdf_value(o, d)` is 0 when the ray `(o, d)` does
not hit the quad within `(0.001, infinity)`, and otherwise it is
`t² |d|² / ((|d · n| / |d|) * area)`, which is `|p - o|²` over the absolute
cosine of the angle between `d` and the unit plane normal `n` times
`area = |u × v|`, for the hit point `p`; the value is never negative, and on a
hit the denominator and the value are strictly positive. -/
theorem quad_pdf_value_spec {M : Type} (m : rtweekend α) (hm : m.sqrt_ok) (Q : point3 α)
    (u v : vec3 α) (mat : M) (rec0 : hit_record α M) (o : point3 α) (d : vec3 α)
    (huv : cross u v ≠ ⟨0, 0, 0⟩) (hd : d ≠ ⟨0, 0, 0⟩) :
    (((quad.new m Q u v mat).hit ⟨o, d⟩ ⟨xdouble.fin 0.001, infinity⟩ rec0).1 = false →
      (quad.new m Q u v mat).pdf_value m rec0 o d = 0) ∧
    (((quad.new m Q u v mat).hit ⟨o, d⟩ ⟨xdouble.fin 0.001, infinity⟩ rec0).1 = true →
      (quad.new m Q u v mat).pdf_value m rec0 o d =
        (((quad.new m Q u v mat).hit ⟨o, d⟩ ⟨xdouble.fin 0.001, infinity⟩ rec0).2.p
          - o).length_squared
          / (|dot d (quad.new m Q u v mat).normal| / d.length m * (cross u v).length m) ∧
      (((quad.new m Q u v mat).hit ⟨o, d⟩ ⟨xdouble.fin 0.001, infinity⟩ rec0).2.p
          - o).length_squared =
        ((quad.new m Q u v mat).hit ⟨o, d⟩ ⟨xdouble.fin 0.001, infinity⟩ rec0).2.t
          * ((quad.new m Q u v mat).hit ⟨o, d⟩ ⟨xdouble.fin 0.001, infinity⟩ rec0).2.t
          * d.length_squared ∧
      0 < |dot d (quad.new m Q u v mat).normal| / d.length m * (cross u v).length m ∧
      0 < (quad.new m Q u v mat).pdf_value m rec0 o d) ∧
    0 ≤ (quad.new m Q u v mat).pdf_value m rec0 o d ∧
    (quad.new m Q u v mat).normal.length m = 1 ∧
    (quad.new m Q u v mat).area = (cross u v).length m := by
  have hfalse : ((quad.new m Q u v mat).hit ⟨o, d⟩ ⟨xdouble.fin 0.001, infinity⟩ rec0).1 = false →
      (quad.new m Q u v mat).pdf_value m rec0 o d = 0 := by
    intro h
    rw [quad_pdf_value_eq, if_neg (by rw [h]; simp)]
  refine ⟨hfalse, fun hit => ?_, ?_,
    length_eq_one_of_sq hm (unit_vector_length_squared hm huv), rfl⟩
  · obtain ⟨h1, h2, h3⟩ := quad_pdf_value_on_hit hm Q u v mat rec0 o d huv hd hit
    refine ⟨h1, ?_, h2, h3⟩
    rw [quad_hit_record _ _ _ _ hit]
    exact length_squared_at_sub ⟨o, d⟩ _
  · cases hc : ((quad.new m Q u v mat).hit ⟨o, d⟩ ⟨xdouble.fin 0.001, infinity⟩ rec0).1
    · rw [hfalse hc]
    · exact (quad_pdf_value_on_hit hm Q u v mat rec0 o d huv hd hc).2.2.le

/-- C13 over the reals: seen from `(0.5, 0.5, 1)` along `(0, 0, -1)` the unit
quad is hit and its density is positive. -/
theorem quad_pdf_value_spec_witness :
    ∃ m : rtweekend ℝ, m.sqrt = Real.sqrt ∧ m.sqrt_ok ∧
      cross (⟨1, 0, 0⟩ : vec3 ℝ) ⟨0, 1, 0⟩ ≠ ⟨0, 0, 0⟩ ∧ (⟨0, 0, -1⟩ : vec3 ℝ) ≠ ⟨0, 0, 0⟩ ∧
      ((quad.new m (⟨0, 0, 0⟩ : vec3 ℝ) ⟨1, 0, 0⟩ ⟨0, 1, 0⟩ ()).hit ⟨⟨0.5, 0.5, 1⟩, ⟨0, 0, -1⟩⟩
        ⟨xdouble.fin 0.001, infinity⟩ ⟨⟨0, 0, 0⟩, ⟨0, 0, 0⟩, (), 0, 0, 0, false⟩).1 = true ∧
      0 < (quad.new m (⟨0, 0, 0⟩ : vec3 ℝ) ⟨1, 0, 0⟩ ⟨0, 1, 0⟩ ()).pdf_value m
        ⟨⟨0, 0, 0⟩, ⟨0, 0, 0⟩, (), 0, 0, 0, false⟩ ⟨0.5, 0.5, 1⟩ ⟨0, 0, -1⟩ := by
  obtain ⟨m, hsq, hm⟩ := real_env
  have huv : cross (⟨1, 0, 0⟩ : vec3 ℝ) ⟨0, 1, 0⟩ ≠ ⟨0, 0, 0⟩ := by simp [cross]
  have hd : (⟨0, 0, -1⟩ : vec3 ℝ) ≠ ⟨0, 0, 0⟩ := by simp
  have hq := (unit_quad_hit_iff hm () ⟨⟨0.5, 0.5, 1⟩, ⟨0, 0, -1⟩⟩
    ⟨xdouble.fin 0.001, infinity⟩ ⟨⟨0, 0, 0⟩, ⟨0, 0, 0⟩, (), 0, 0, 0, false⟩ 1
    (by ext <;> simp [ray.at'])).mpr ⟨by norm_num, by simp; norm_num, by simp⟩
  have h := quad_pdf_value_spec m hm (⟨0, 0, 0⟩ : vec3 ℝ) ⟨1, 0, 0⟩ ⟨0, 1, 0⟩ ()
    ⟨⟨0, 0, 0⟩, ⟨0, 0, 0⟩, (), 0, 0, 0, false⟩ ⟨0.5, 0.5, 1⟩ ⟨0, 0, -1⟩ huv hd
  exact ⟨m, hsq, hm, huv, hd, hq, (h.2.1 hq).2.2.2⟩

/-! ## C14: the density of a sphere light -/

/-- The reals with `Real.sqrt`, the real trigonometric functions and `Real.pi`. -/
theorem real_env_trig : ∃ m : rtweekend ℝ, m.sqrt = Real.sqrt ∧ m.sin = Real.sin ∧
    m.cos = Real.cos ∧ m.tan = Real.tan ∧ m.pi = Real.pi ∧
    m.degrees_to_radians = (fun d => d * Real.pi / 180) ∧ m.sqrt_ok :=
  ⟨⟨Real.sqrt, Real.sin, Real.cos, Real.tan, Real.arccos, fun y x => Complex.arg ⟨x, y⟩,
      Real.pi, fun d => d * Real.pi / 180⟩, rfl, rfl, rfl, rfl, rfl, rfl,
    fun x hx => ⟨Real.sqrt_nonneg x, Real.mul_self_sqrt hx⟩⟩

theorem sqrt_lt_one {m : rtweekend α} (hm : m.sqrt_ok) {y : α} (h0 : 0 ≤ y) (h1 : y < 1) :
    m.sqrt y < 1 := by
  obtain ⟨hs0, hs1⟩ := hm y h0
  by_contra hc
  push_neg at hc
  nlinarith

theorem sphere_pdf_value_eq {M : Type} (s : sphere α M) (m : rtweekend α) (rec0 : hit_record α M)
    (origin : point3 α) (direction : vec3 α) :
    s.pdf_value m rec0 origin direction =
      if (s.hit m ⟨origin, direction⟩ ⟨xdouble.fin 0.001, infinity⟩ rec0).1 = true then
        1 / (2 * m.pi * (1 - m.sqrt (1 - (s.radius * s.radius)
          / (origin - s.center).length_squared)))
      else 0 := by
  unfold sphere.pdf_value
  cases hc : (s.hit m ⟨origin, direction⟩ ⟨xdouble.fin 0.001, infinity⟩ rec0).1 <;> simp

/-- Seen from a point strictly outside, the solid angle of a sphere is positive. -/
theorem sphere_solid_angle_pos {m : rtweekend α} (hm : m.sqrt_ok) (hpi : 0 < m.pi)
    {radius L : α} (hr : 0 < radius) (hout : radius * radius < L) :
    0 < 1 - radius * radius / L ∧ 1 - radius * radius / L < 1 ∧
    0 < 2 * m.pi * (1 - m.sqrt (1 - radius * radius / L)) := by
  have hL : 0 < L := lt_trans (mul_pos hr hr) hout
  have hx0 : 0 < radius * radius / L := div_pos (mul_pos hr hr) hL
  have hx1 : radius * radius / L < 1 := (div_lt_one hL).mpr hout
  have hy0 : 0 < 1 - radius * radius / L := by linarith
  have hy1 : 1 - radius * radius / L < 1 := by linarith
  have hs := sqrt_lt_one hm hy0.le hy1
  exact ⟨hy0, hy1, mul_pos (mul_pos two_pos hpi) (by linarith)⟩

/-- C14: for a sphere of radius `r > 0`, an origin `o` strictly outside it and
a non-zero direction `d`, `sphere::pdf_value(o, d)` is 0 when the ray `(o, d)`
does not hit the sphere within `(0.001, infinity)` and otherwise
`1 / (2π (1 - sqrt(1 - r² / |o - center|²)))`; the value is never negative and
the solid angle in the denominator is strictly positive.  The constant `pi` of
the missing `rtweekend.h` is assumed positive. -/
theorem sphere_pdf_value_spec {M : Type} (m : rtweekend α) (hm : m.sqrt_ok) (hpi : 0 < m.pi)
    (center : point3 α) (radius : α) (mat : M) (rec0 : hit_record α M) (o : point3 α)
    (d : vec3 α) (hradius : 0 < radius) (hout : radius < (o - center).length m)
    (_hd : d ≠ ⟨0, 0, 0⟩) :
    (((sphere.new center radius mat).hit m ⟨o, d⟩ ⟨xdouble.fin 0.001, infinity⟩ rec0).1 = false →
      (sphere.new center radius mat).pdf_value m rec0 o d = 0) ∧
    (((sphere.new center radius mat).hit m ⟨o, d⟩ ⟨xdouble.fin 0.001, infinity⟩ rec0).1 = true →
      (sphere.new center radius mat).pdf_value m rec0 o d =
        1 / (2 * m.pi * (1 - m.sqrt (1 - radius * radius / (o - center).length_squared)))) ∧
    0 ≤ (sphere.new center radius mat).pdf_value m rec0 o d ∧
    0 < 2 * m.pi * (1 - m.sqrt (1 - radius * radius / (o - center).length_squared)) := by
  have hrad : (sphere.new center radius mat).radius = radius :=
    sphere_new_radius center mat hradius.le
  have hc : (sphere.new center radius mat).center = center := rfl
  have hL : radius * radius < (o - center).length_squared := by
    rw [← length_mul_self hm]
    exact mul_lt_mul'' hout hout hradius.le hradius.le
  have hsolid := (sphere_solid_angle_pos hm hpi hradius hL).2.2
  have heq := sphere_pdf_value_eq (sphere.new center radius mat) m rec0 o d
  rw [hrad, hc] at heq
  refine ⟨fun h => ?_, fun h => ?_, ?_, hsolid⟩
  · rw [heq, if_neg (by rw [h]; simp)]
  · rw [heq, if_pos h]
  · rw [heq]
    split_ifs
    · exact (one_div_pos.mpr hsolid).le
    · exact le_refl 0

/-- C14 over the reals: the sphere of centre `(0, 0, -5)` and radius 2 seen from
the origin along `(0, 0, -1)` is hit and has a positive density. -/
theorem sphere_pdf_value_spec_witness :
    ∃ m : rtweekend ℝ, m.sqrt = Real.sqrt ∧ m.pi = Real.pi ∧ m.sqrt_ok ∧ 0 < m.pi ∧
      (0 : ℝ) < 2 ∧ 2 < ((⟨0, 0, 0⟩ : vec3 ℝ) - ⟨0, 0, -5⟩).length m ∧
      (⟨0, 0, -1⟩ : vec3 ℝ) ≠ ⟨0, 0, 0⟩ ∧
      ((sphere.new (⟨0, 0, -5⟩ : vec3 ℝ) 2 ()).hit m ⟨⟨0, 0, 0⟩, ⟨0, 0, -1⟩⟩
        ⟨xdouble.fin 0.001, infinity⟩ ⟨⟨0, 0, 0⟩, ⟨0, 0, 0⟩, (), 0, 0, 0, false⟩).1 = true ∧
      (sphere.new (⟨0, 0, -5⟩ : vec3 ℝ) 2 ()).pdf_value m
        ⟨⟨0, 0, 0⟩, ⟨0, 0, 0⟩, (), 0, 0, 0, false⟩ ⟨0, 0, 0⟩ ⟨0, 0, -1⟩ =
        1 / (2 * m.pi * (1 - m.sqrt (1 - 2 * 2
          / ((⟨0, 0, 0⟩ : vec3 ℝ) - ⟨0, 0, -5⟩).length_squared))) ∧
      0 < 2 * m.pi * (1 - m.sqrt (1 - 2 * 2
          / ((⟨0, 0, 0⟩ : vec3 ℝ) - ⟨0, 0, -5⟩).length_squared)) := by
  obtain ⟨m, hsq, _, _, _, hpi, _, hm⟩ := real_env_trig
  have hpos : 0 < m.pi := by rw [hpi]; exact Real.pi_pos
  have hd : (⟨0, 0, -1⟩ : vec3 ℝ) ≠ ⟨0, 0, 0⟩ := by simp
  have hout : 2 < ((⟨0, 0, 0⟩ : vec3 ℝ) - ⟨0, 0, -5⟩).length m := by
    have h1 := length_mul_self hm ((⟨0, 0, 0⟩ : vec3 ℝ) - ⟨0, 0, -5⟩)
    have h2 := length_nonneg hm ((⟨0, 0, 0⟩ : vec3 ℝ) - ⟨0, 0, -5⟩)
    have h3 : ((⟨0, 0, 0⟩ : vec3 ℝ) - ⟨0, 0, -5⟩).length_squared = 25 := by
      simp [vec3.length_squared]; norm_num
    rw [h3] at h1
    nlinarith
  have hs := sphere_center_hit hm (⟨0, 0, -5⟩ : vec3 ℝ) 2 () ⟨⟨0, 0, 0⟩, ⟨0, 0, -1⟩⟩
    ⟨xdouble.fin 0.001, infinity⟩ ⟨⟨0, 0, 0⟩, ⟨0, 0, 0⟩, (), 0, 0, 0, false⟩ 5 (by norm_num)
    (by simp [vec3.length_squared]) (by ext <;> simp [ray.at'])
    ⟨by simp; norm_num, by simp⟩
  have h := sphere_pdf_value_spec m hm hpos (⟨0, 0, -5⟩ : vec3 ℝ) 2 ()
    ⟨⟨0, 0, 0⟩, ⟨0, 0, 0⟩, (), 0, 0, 0, false⟩ ⟨0, 0, 0⟩ ⟨0, 0, -1⟩ (by norm_num) hout hd
  exact ⟨m, hsq, hpi, hm, hpos, by norm_num, hout, hd, hs.1, h.2.1 hs.1, h.2.2.2⟩

/-! ## C20: `refract` -/

theorem dot_le_one_of_unit {v n : vec3 α} (hv : v.length_squared = 1)
    (hn : n.length_squared = 1) : dot v n * dot v n ≤ 1 := by
  have h := length_squared_cross v n
  have h0 := length_squared_nonneg (cross v n)
  rw [hv, hn] at h
  linarith

theorem length_squared_of_length_one {m : rtweekend α} (hm : m.sqrt_ok) {v : vec3 α}
    (h : v.length m = 1) : v.length_squared = 1 := by
  rw [← length_mul_self hm, h, one_mul]

/-- The two parts `refract` adds, for unit `v` and `n` without total internal
reflection. -/
theorem refract_parts (m : rtweekend α) {v n : vec3 α} {eta : α}
    (hv : v.length_squared = 1) (hn : n.length_squared = 1)
    (htir : eta * eta * (1 - dot v n * dot v n) ≤ 1) :
    refract m v n eta = eta * (v - dot v n * n)
      + (-m.sqrt (1 - eta * eta * (1 - dot v n * dot v n))) * n ∧
    dot (eta * (v - dot v n * n)) n = 0 ∧
    (eta * (v - dot v n * n)).length_squared = eta * eta * (1 - dot v n * dot v n) := by
  have hc := dot_le_one_of_unit hv hn
  have hc1 : dot v n ≤ 1 := by nlinarith
  have hnn : dot n n = 1 := hn
  have hvv : dot v v = 1 := hv
  have hperp : dot (eta * (v - dot v n * n)) n = 0 := by
    have : dot (eta * (v - dot v n * n)) n = eta * (dot v n - dot v n * dot n n) := by
      simp only [dot, vec3.smul_x, vec3.smul_y, vec3.smul_z, vec3.sub_x, vec3.sub_y, vec3.sub_z]
      ring
    rw [this, hnn]; ring
  have hls : (eta * (v - dot v n * n)).length_squared
      = eta * eta * (1 - dot v n * dot v n) := by
    have : (eta * (v - dot v n * n)).length_squared
        = eta * eta * (dot v v - 2 * (dot v n * dot v n) + dot v n * dot v n * dot n n) := by
      simp only [dot, vec3.length_squared, vec3.smul_x, vec3.smul_y, vec3.smul_z, vec3.sub_x,
        vec3.sub_y, vec3.sub_z]
      ring
    rw [this, hnn, hvv]; ring
  refine ⟨?_, hperp, hls⟩
  unfold refract
  have h1 : (1.0 : α) = 1 := by norm_num
  simp only [h1, min_eq_left hc1, hls]
  rw [abs_of_nonneg (by linarith)]

/-- C20: for a unit incident direction `v`, a unit normal `n` and a ratio
`eta ≥ 0` without total internal reflection (`eta² (1 - (v·n)²) ≤ 1`),
`refract(v, n, eta)` is a unit vector; its component perpendicular to `n` is
`eta (v - (v·n) n)`, its component along `n` is
`-sqrt(1 - eta² (1 - (v·n)²)) n`, and its dot product with `n` is not
positive: it points into the side of the surface opposite to `n`. -/
theorem refract_snell (m : rtweekend α) (hm : m.sqrt_ok) (v n : vec3 α) (eta : α)
    (hv : v.length m = 1) (hn : n.length m = 1) (_heta : 0 ≤ eta)
    (htir : eta * eta * (1 - dot v n * dot v n) ≤ 1) :
    (refract m v n eta).length m = 1 ∧
    refract m v n eta - dot (refract m v n eta) n * n = eta * (v - dot v n * n) ∧
    dot (refract m v n eta) n * n
      = (-m.sqrt (1 - eta * eta * (1 - dot v n * dot v n))) * n ∧
    dot (refract m v n eta) n = -m.sqrt (1 - eta * eta * (1 - dot v n * dot v n)) ∧
    dot (refract m v n eta) n ≤ 0 := by
  have hv2 := length_squared_of_length_one hm hv
  have hn2 := length_squared_of_length_one hm hn
  obtain ⟨hR, hperp, hls⟩ := refract_parts m hv2 hn2 htir
  obtain ⟨hs0, hs1⟩ := hm (1 - eta * eta * (1 - dot v n * dot v n)) (by linarith)
  have hnn : dot n n = 1 := hn2
  have hdot : dot (refract m v n eta) n
      = -m.sqrt (1 - eta * eta * (1 - dot v n * dot v n)) := by
    rw [hR]
    have : dot (eta * (v - dot v n * n)
        + (-m.sqrt (1 - eta * eta * (1 - dot v n * dot v n))) * n) n
        = dot (eta * (v - dot v n * n)) n
          + (-m.sqrt (1 - eta * eta * (1 - dot v n * dot v n))) * dot n n := by
      simp only [dot, vec3.add_x, vec3.add_y, vec3.add_z, vec3.smul_x, vec3.smul_y, vec3.smul_z]
      ring
    rw [this, hperp, hnn]; ring
  refine ⟨?_, ?_, ?_, hdot, ?_⟩
  · apply length_eq_one_of_sq hm
    rw [hR]
    have : (eta * (v - dot v n * n)
        + (-m.sqrt (1 - eta * eta * (1 - dot v n * dot v n))) * n).length_squared
        = (eta * (v - dot v n * n)).length_squared
          + 2 * (-m.sqrt (1 - eta * eta * (1 - dot v n * dot v n)))
            * dot (eta * (v - dot v n * n)) n
          + m.sqrt (1 - eta * eta * (1 - dot v n * dot v n))
            * m.sqrt (1 - eta * eta * (1 - dot v n * dot v n)) * dot n n := by
      simp only [dot, vec3.length_squared, vec3.add_x, vec3.add_y, vec3.add_z, vec3.smul_x,
        vec3.smul_y, vec3.smul_z]
      ring
    rw [this, hls, hperp, hs1, hnn]; ring
  · rw [hdot]
    nth_rewrite 1 [hR]
    ext <;> simp only [vec3.add_x, vec3.add_y, vec3.add_z, vec3.sub_x, vec3.sub_y, vec3.sub_z,
      vec3.smul_x, vec3.smul_y, vec3.smul_z] <;> ring
  · rw [hdot]
  · rw [hdot]; linarith

/-- C20 over the reals: `v = (0, 0, -1)`, `n = (0, 0, 1)`, `eta = 1`. -/
theorem refract_snell_witness :
    ∃ m : rtweekend ℝ, m.sqrt = Real.sqrt ∧ m.sqrt_ok ∧
      (⟨0, 0, -1⟩ : vec3 ℝ).length m = 1 ∧ (⟨0, 0, 1⟩ : vec3 ℝ).length m = 1 ∧ (0 : ℝ) ≤ 1 ∧
      (1 : ℝ) * 1 * (1 - dot (⟨0, 0, -1⟩ : vec3 ℝ) ⟨0, 0, 1⟩ * dot (⟨0, 0, -1⟩ : vec3 ℝ) ⟨0, 0, 1⟩)
        ≤ 1 ∧
      (refract m (⟨0, 0, -1⟩ : vec3 ℝ) ⟨0, 0, 1⟩ 1).length m = 1 ∧
      dot (refract m (⟨0, 0, -1⟩ : vec3 ℝ) ⟨0, 0, 1⟩ 1) ⟨0, 0, 1⟩ ≤ 0 := by
  obtain ⟨m, hsq, hm⟩ := real_env
  have hv : (⟨0, 0, -1⟩ : vec3 ℝ).length m = 1 :=
    length_eq_one_of_sq hm (by simp [vec3.length_squared])
  have hn : (⟨0, 0, 1⟩ : vec3 ℝ).length m = 1 :=
    length_eq_one_of_sq hm (by simp [vec3.length_squared])
  have ht : (1 : ℝ) * 1 * (1 - dot (⟨0, 0, -1⟩ : vec3 ℝ) ⟨0, 0, 1⟩
      * dot (⟨0, 0, -1⟩ : vec3 ℝ) ⟨0, 0, 1⟩) ≤ 1 := by
    simp [dot]
  have h := refract_snell m hm ⟨0, 0, -1⟩ ⟨0, 0, 1⟩ 1 hv hn (by norm_num) ht
  exact ⟨m, hsq, hm, hv, hn, by norm_num, ht, h.1, h.2.2.2.2⟩

/-! ## C19: sampling a direction towards a sphere -/

/-- What is assumed of `std::sin` and `std::cos`: the Pythagorean identity. -/
theorem real_trig_identity (x : ℝ) : Real.sin x * Real.sin x + Real.cos x * Real.cos x = 1 := by
  have := Real.sin_sq_add_cos_sq x
  nlinarith [this]

/-- The six facts that make the frame of `onb(n)` orthonormal, on squared lengths. -/
theorem onb_frame {m : rtweekend α} (hm : m.sqrt_ok) {n : vec3 α} (hn : n ≠ ⟨0, 0, 0⟩) :
    (onb.new m n).u.length_squared = 1 ∧ (onb.new m n).v.length_squared = 1 ∧
    (onb.new m n).w.length_squared = 1 ∧ dot (onb.new m n).u (onb.new m n).v = 0 ∧
    dot (onb.new m n).u (onb.new m n).w = 0 ∧ dot (onb.new m n).v (onb.new m n).w = 0 := by
  have hw : (unit_vector m n).length_squared = 1 := unit_vector_length_squared hm hn
  have hc := onb_helper_cross_ne_zero hw
  have hv : (unit_vector m (cross (unit_vector m n) (onb.helper (unit_vector m n)))).length_squared
      = 1 := unit_vector_length_squared hm hc
  have hwv : dot (unit_vector m n)
      (unit_vector m (cross (unit_vector m n) (onb.helper (unit_vector m n)))) = 0 := by
    rw [dot_unit_vector, dot_cross_left, mul_zero]
  have hu : (cross (unit_vector m n)
      (unit_vector m (cross (unit_vector m n) (onb.helper (unit_vector m n))))).length_squared
      = 1 := by
    rw [length_squared_cross, hw, hv, hwv]; ring
  refine ⟨hu, hv, hw, ?_, ?_, ?_⟩
  · rw [dot_comm]; exact dot_cross_right _ _
  · rw [dot_comm]; exact dot_cross_left _ _
  · rw [dot_comm]; exact hwv

/-- `onb::transform` with an orthonormal frame keeps the squared length and
sends the third local coordinate to the component along `w`. -/
theorem onb_transform_orthonormal (b : onb α) (a : vec3 α)
    (hu : b.u.length_squared = 1) (hv : b.v.length_squared = 1) (hw : b.w.length_squared = 1)
    (huv : dot b.u b.v = 0) (huw : dot b.u b.w = 0) (hvw : dot b.v b.w = 0) :
    (b.transform a).length_squared = a.length_squared ∧ dot (b.transform a) b.w = a.z := by
  have e1 : (b.transform a).length_squared = a.x * a.x * b.u.length_squared
      + a.y * a.y * b.v.length_squared + a.z * a.z * b.w.length_squared
      + 2 * a.x * a.y * dot b.u b.v + 2 * a.x * a.z * dot b.u b.w
      + 2 * a.y * a.z * dot b.v b.w := by
    simp [onb.transform, vec3.get, vec3.length_squared, dot]
    ring
  have e2 : dot (b.transform a) b.w = a.x * dot b.u b.w + a.y * dot b.v b.w
      + a.z * b.w.length_squared := by
    simp [onb.transform, vec3.get, vec3.length_squared, dot]
    ring
  constructor
  · rw [e1, hu, hv, hw, huv, huw, hvw]
    simp only [vec3.length_squared]; ring
  · rw [e2, huw, hvw, hw]; ring

/-- The local sample of `random_to_sphere`: its third coordinate lies between
the cosine of the cone and 1, and its squared length is 1. -/
theorem random_to_sphere_local {m : rtweekend α} (hm : m.sqrt_ok)
    (htrig : ∀ x : α, m.sin x * m.sin x + m.cos x * m.cos x = 1) {radius L : α} (r1 : α)
    {r2 : α} (hr : 0 < radius) (hout : radius * radius < L) (h2 : 0 ≤ r2 ∧ r2 < 1) :
    (sphere.random_to_sphere m radius L r1 r2).z
      = 1 + r2 * (m.sqrt (1 - radius * radius / L) - 1) ∧
    m.sqrt (1 - radius * radius / L) ≤ (sphere.random_to_sphere m radius L r1 r2).z ∧
    (sphere.random_to_sphere m radius L r1 r2).z ≤ 1 ∧
    (sphere.random_to_sphere m radius L r1 r2).length_squared = 1 := by
  have hL : 0 < L := lt_trans (mul_pos hr hr) hout
  have hy0 : 0 ≤ 1 - radius * radius / L := by
    have : radius * radius / L < 1 := (div_lt_one hL).mpr hout
    linarith
  have hy1 : 1 - radius * radius / L < 1 := by
    have : 0 < radius * radius / L := div_pos (mul_pos hr hr) hL
    linarith
  obtain ⟨hc0, _⟩ := hm _ hy0
  have hc1 := sqrt_lt_one hm hy0 hy1
  set c := m.sqrt (1 - radius * radius / L) with hcdef
  have hz : (sphere.random_to_sphere m radius L r1 r2).z = 1 + r2 * (c - 1) := rfl
  have hzlo : c ≤ 1 + r2 * (c - 1) := by nlinarith [h2.1, h2.2]
  have hzhi : 1 + r2 * (c - 1) ≤ 1 := by nlinarith [h2.1, h2.2]
  have hq : 0 ≤ 1 - (1 + r2 * (c - 1)) * (1 + r2 * (c - 1)) := by nlinarith
  obtain ⟨_, hs1⟩ := hm _ hq
  refine ⟨hz, by rw [hz]; exact hzlo, by rw [hz]; exact hzhi, ?_⟩
  have e : (sphere.random_to_sphere m radius L r1 r2).length_squared =
      (m.sin (2 * m.pi * r1) * m.sin (2 * m.pi * r1) + m.cos (2 * m.pi * r1) * m.cos (2 * m.pi * r1))
        * (m.sqrt (1 - (1 + r2 * (c - 1)) * (1 + r2 * (c - 1)))
          * m.sqrt (1 - (1 + r2 * (c - 1)) * (1 + r2 * (c - 1))))
        + (1 + r2 * (c - 1)) * (1 + r2 * (c - 1)) := by
    simp only [sphere.random_to_sphere, vec3.length_squared, ← hcdef]
    ring
  rw [e, htrig, hs1]; ring

theorem ne_zero_of_length_pos {m : rtweekend α} (hm : m.sqrt_ok) {a : vec3 α}
    (h : 0 < a.length m) : a ≠ ⟨0, 0, 0⟩ := by
  intro h0
  have h1 := length_mul_self hm a
  rw [h0] at h1 h
  have h2 : (⟨0, 0, 0⟩ : vec3 α).length_squared = 0 := by simp [vec3.length_squared]
  rw [h2] at h1
  rcases mul_eq_zero.mp h1 with h3 | h3 <;> linarith

/-- C19: for a sphere of radius `r > 0`, an origin `o` strictly outside it and
two draws in `[0, 1)`, the direction `sphere::random(o)` returns has length 1,
and its dot product with the unit vector from `o` towards the centre is the
locally sampled `z = 1 + r2 (sqrt(1 - r² / |center - o|²) - 1)`, which is at
least `sqrt(1 - r² / |center - o|²)`, the cosine of the cone the sphere
subtends, and at most 1.  `std::sin` and `std::cos` are assumed to satisfy
`sin² + cos² = 1`. -/
theorem sphere_random_in_cone {M G : Type} (m : rtweekend α) (hm : m.sqrt_ok)
    (htrig : ∀ x : α, m.sin x * m.sin x + m.cos x * m.cos x = 1) (center : point3 α)
    (radius : α) (mat : M) (random_double : G → α × G) (o : point3 α) (g : G)
    (hradius : 0 < radius) (hout : radius < (center - o).length m)
    (_hr1 : 0 ≤ (random_double g).1 ∧ (random_double g).1 < 1)
    (hr2 : 0 ≤ (random_double (random_double g).2).1 ∧
      (random_double (random_double g).2).1 < 1) :
    (((sphere.new center radius mat).random m random_double o g).1).length m = 1 ∧
    dot ((sphere.new center radius mat).random m random_double o g).1
        (unit_vector m (center - o)) =
      1 + (random_double (random_double g).2).1
        * (m.sqrt (1 - radius * radius / (center - o).length_squared) - 1) ∧
    m.sqrt (1 - radius * radius / (center - o).length_squared) ≤
      dot ((sphere.new center radius mat).random m random_double o g).1
        (unit_vector m (center - o)) ∧
    dot ((sphere.new center radius mat).random m random_double o g).1
        (unit_vector m (center - o)) ≤ 1 := by
  have hrad : (sphere.new center radius mat).radius = radius :=
    sphere_new_radius center mat hradius.le
  have hne : center - o ≠ ⟨0, 0, 0⟩ := ne_zero_of_length_pos hm (lt_trans hradius hout)
  have hL : radius * radius < (center - o).length_squared := by
    rw [← length_mul_self hm]
    exact mul_lt_mul'' hout hout hradius.le hradius.le
  obtain ⟨hu, hv, hw, huv, huw, hvw⟩ := onb_frame hm hne
  obtain ⟨hz, hzlo, hzhi, hone⟩ := random_to_sphere_local hm htrig
    (random_double g).1 hradius hL hr2
  obtain ⟨hlen, hdot⟩ := onb_transform_orthonormal (onb.new m (center - o))
    (sphere.random_to_sphere m radius (center - o).length_squared (random_double g).1
      (random_double (random_double g).2).1) hu hv hw huv huw hvw
  have hrand : ((sphere.new center radius mat).random m random_double o g).1 =
      (onb.new m (center - o)).transform
        (sphere.random_to_sphere m radius (center - o).length_squared (random_double g).1
          (random_double (random_double g).2).1) := by
    simp only [sphere.random, hrad]
    rfl
  have hwdef : (onb.new m (center - o)).w = unit_vector m (center - o) := rfl
  rw [hrand, ← hwdef, hdot]
  refine ⟨?_, hz, hzlo, hzhi⟩
  apply length_eq_one_of_sq hm
  rw [hlen, hone]

/-- C19 over the reals: the sphere of centre `(0, 0, -5)` and radius 2 sampled
from the origin with both draws equal to `0.5`. -/
theorem sphere_random_in_cone_witness :
    ∃ m : rtweekend ℝ, m.sqrt = Real.sqrt ∧ m.sin = Real.sin ∧ m.cos = Real.cos ∧ m.sqrt_ok ∧
      (∀ x : ℝ, m.sin x * m.sin x + m.cos x * m.cos x = 1) ∧ (0 : ℝ) < 2 ∧
      2 < ((⟨0, 0, -5⟩ : vec3 ℝ) - ⟨0, 0, 0⟩).length m ∧ ((0 : ℝ) ≤ 0.5 ∧ (0.5 : ℝ) < 1) ∧
      (((sphere.new (⟨0, 0, -5⟩ : vec3 ℝ) 2 ()).random m (fun g : Unit => ((0.5 : ℝ), g))
        ⟨0, 0, 0⟩ ()).1).length m = 1 ∧
      dot ((sphere.new (⟨0, 0, -5⟩ : vec3 ℝ) 2 ()).random m (fun g : Unit => ((0.5 : ℝ), g))
        ⟨0, 0, 0⟩ ()).1 (unit_vector m ((⟨0, 0, -5⟩ : vec3 ℝ) - ⟨0, 0, 0⟩)) ≤ 1 := by
  obtain ⟨m, hsq, hsin, hcos, _, _, _, hm⟩ := real_env_trig
  have htrig : ∀ x : ℝ, m.sin x * m.sin x + m.cos x * m.cos x = 1 := by
    intro x; rw [hsin, hcos]; exact real_trig_identity x
  have hout : 2 < ((⟨0, 0, -5⟩ : vec3 ℝ) - ⟨0, 0, 0⟩).length m := by
    have h1 := length_mul_self hm ((⟨0, 0, -5⟩ : vec3 ℝ) - ⟨0, 0, 0⟩)
    have h2 := length_nonneg hm ((⟨0, 0, -5⟩ : vec3 ℝ) - ⟨0, 0, 0⟩)
    have h3 : ((⟨0, 0, -5⟩ : vec3 ℝ) - ⟨0, 0, 0⟩).length_squared = 25 := by
      simp [vec3.length_squared]; norm_num
    rw [h3] at h1
    nlinarith
  have hhalf : (0 : ℝ) ≤ 0.5 ∧ (0.5 : ℝ) < 1 := by constructor <;> norm_num
  have h := sphere_random_in_cone m hm htrig (⟨0, 0, -5⟩ : vec3 ℝ) 2 ()
    (fun g : Unit => ((0.5 : ℝ), g)) ⟨0, 0, 0⟩ () (by norm_num) hout hhalf hhalf
  exact ⟨m, hsq, hsin, hcos, hm, htrig, by norm_num, hout, hhalf, h.1, h.2.2.2⟩

/-! ## C17: stratified sampling of the pixel square -/

theorem stratified_coordinate {n : α} (hn : 1 ≤ n) (i r : α) (hr : 0 ≤ r ∧ r < 1) :
    i / n - 0.5 ≤ (i + r) * (1.0 / n) - 0.5 ∧ (i + r) * (1.0 / n) - 0.5 < (i + 1) / n - 0.5 := by
  have hpos : 0 < n := lt_of_lt_of_le one_pos hn
  have h1 : (1.0 : α) = 1 := by norm_num
  have e : (i + r) * (1.0 / n) = (i + r) / n := by rw [h1]; ring
  rw [e]
  constructor
  · have : i / n ≤ (i + r) / n := div_le_div_of_nonneg_right (by linarith [hr.1]) hpos.le
    linarith
  · have : (i + r) / n < (i + 1) / n := div_lt_div_of_pos_right (by linarith [hr.2]) hpos
    linarith

theorem cell_in_pixel {n : α} (hn : 1 ≤ n) {i x : α} (hi0 : 0 ≤ i) (hi1 : i + 1 ≤ n)
    (hx : i / n - 0.5 ≤ x ∧ x < (i + 1) / n - 0.5) : -0.5 ≤ x ∧ x < 0.5 := by
  have hpos : 0 < n := lt_of_lt_of_le one_pos hn
  have h0 : 0 ≤ i / n := div_nonneg hi0 hpos.le
  have h1 : (i + 1) / n ≤ 1 := (div_le_one hpos).mpr hi1
  have h5 : (0.5 : α) = 1 / 2 := by norm_num
  rw [h5] at hx ⊢
  constructor <;> linarith [hx.1, hx.2]

theorem cell_index_le {n : α} (hn : 0 < n) {i k : Int} {x : α}
    (hi : (i : α) / n - 0.5 ≤ x) (hk : x < ((k : α) + 1) / n - 0.5) : i ≤ k := by
  have h1 : (i : α) / n < ((k : α) + 1) / n := by linarith
  have h2 : (i : α) < (k : α) + 1 := by
    by_contra hc
    push_neg at hc
    have := div_le_div_of_nonneg_right hc hn.le
    linarith
  have h3 : (i : α) < ((k + 1 : Int) : α) := by push_cast; exact h2
  have h4 : i < k + 1 := Int.cast_lt.mp h3
  omega

theorem cell_cover [FloorRing α] {n : Int} (hn : 1 ≤ n) {x : α} (hx : -0.5 ≤ x ∧ x < 0.5) :
    ∃ i : Int, 0 ≤ i ∧ i < n ∧ (i : α) / (n : α) - 0.5 ≤ x ∧ x < ((i : α) + 1) / (n : α) - 0.5 := by
  have hnpos : (0 : α) < (n : α) := by
    have : (0 : Int) < n := by omega
    exact_mod_cast this
  have h5 : (0.5 : α) = 1 / 2 := by norm_num
  rw [h5] at hx ⊢
  have hy0 : 0 ≤ (x + 1 / 2) * (n : α) := mul_nonneg (by linarith [hx.1]) hnpos.le
  have hy1 : (x + 1 / 2) * (n : α) < (n : α) := by
    have : x + 1 / 2 < 1 := by linarith [hx.2]
    nlinarith
  refine ⟨Int.floor ((x + 1 / 2) * (n : α)), Int.floor_nonneg.mpr hy0, ?_, ?_, ?_⟩
  · exact Int.floor_lt.mpr hy1
  · have := Int.floor_le ((x + 1 / 2) * (n : α))
    have h2 : (Int.floor ((x + 1 / 2) * (n : α)) : α) / (n : α) ≤ x + 1 / 2 :=
      (div_le_iff₀ hnpos).mpr this
    linarith
  · have := Int.lt_floor_add_one ((x + 1 / 2) * (n : α))
    have h2 : x + 1 / 2 < ((Int.floor ((x + 1 / 2) * (n : α)) : α) + 1) / (n : α) :=
      (lt_div_iff₀ hnpos).mpr this
    linarith

/-- C17: after `initialize` with a grid side `n = sqrt_spp ≥ 1`, for cell
indices `0 ≤ s_i, s_j < n` and two draws in `[0, 1)`, the offset
`sample_square_stratified(s_i, s_j)` returns lies in the sub-cell
`[s_i/n - 0.5, (s_i+1)/n - 0.5) × [s_j/n - 0.5, (s_j+1)/n - 0.5)`, hence in the
pixel square `[-0.5, 0.5)²`, and its third component is 0; a point lies in the
sub-cell of at most one index pair, and every point of the pixel square lies in
the sub-cell of some index pair `0 ≤ i, j < n`. -/
theorem sample_square_stratified_cell {G : Type} [FloorRing α] (m : rtweekend α)
    (cam : camera α) (random_double : G → α × G) (s_i s_j : Int) (g : G)
    (hn : 1 ≤ (cam.initialize' m).sqrt_spp)
    (hi : 0 ≤ s_i ∧ s_i < (cam.initialize' m).sqrt_spp)
    (hj : 0 ≤ s_j ∧ s_j < (cam.initialize' m).sqrt_spp)
    (hd1 : 0 ≤ (random_double g).1 ∧ (random_double g).1 < 1)
    (hd2 : 0 ≤ (random_double (random_double g).2).1 ∧
      (random_double (random_double g).2).1 < 1) :
    ((s_i : α) / ((cam.initialize' m).sqrt_spp : α) - 0.5
        ≤ ((cam.initialize' m).sample_square_stratified random_double s_i s_j g).1.x ∧
      ((cam.initialize' m).sample_square_stratified random_double s_i s_j g).1.x
        < ((s_i : α) + 1) / ((cam.initialize' m).sqrt_spp : α) - 0.5) ∧
    ((s_j : α) / ((cam.initialize' m).sqrt_spp : α) - 0.5
        ≤ ((cam.initialize' m).sample_square_stratified random_double s_i s_j g).1.y ∧
      ((cam.initialize' m).sample_square_stratified random_double s_i s_j g).1.y
        < ((s_j : α) + 1) / ((cam.initialize' m).sqrt_spp : α) - 0.5) ∧
    (-0.5 ≤ ((cam.initialize' m).sample_square_stratified random_double s_i s_j g).1.x ∧
      ((cam.initialize' m).sample_square_stratified random_double s_i s_j g).1.x < 0.5) ∧
    (-0.5 ≤ ((cam.initialize' m).sample_square_stratified random_double s_i s_j g).1.y ∧
      ((cam.initialize' m).sample_square_stratified random_double s_i s_j g).1.y < 0.5) ∧
    ((cam.initialize' m).sample_square_stratified random_double s_i s_j g).1.z = 0 ∧
    (∀ (i j k l : Int) (x y : α),
      ((i : α) / ((cam.initialize' m).sqrt_spp : α) - 0.5 ≤ x ∧
        x < ((i : α) + 1) / ((cam.initialize' m).sqrt_spp : α) - 0.5) →
      ((j : α) / ((cam.initialize' m).sqrt_spp : α) - 0.5 ≤ y ∧
        y < ((j : α) + 1) / ((cam.initialize' m).sqrt_spp : α) - 0.5) →
      ((k : α) / ((cam.initialize' m).sqrt_spp : α) - 0.5 ≤ x ∧
        x < ((k : α) + 1) / ((cam.initialize' m).sqrt_spp : α) - 0.5) →
      ((l : α) / ((cam.initialize' m).sqrt_spp : α) - 0.5 ≤ y ∧
        y < ((l : α) + 1) / ((cam.initialize' m).sqrt_spp : α) - 0.5) →
      i = k ∧ j = l) ∧
    (∀ x y : α, (-0.5 ≤ x ∧ x < 0.5) → (-0.5 ≤ y ∧ y < 0.5) →
      ∃ i j : Int, (0 ≤ i ∧ i < (cam.initialize' m).sqrt_spp) ∧
        (0 ≤ j ∧ j < (cam.initialize' m).sqrt_spp) ∧
        ((i : α) / ((cam.initialize' m).sqrt_spp : α) - 0.5 ≤ x ∧
          x < ((i : α) + 1) / ((cam.initialize' m).sqrt_spp : α) - 0.5) ∧
        ((j : α) / ((cam.initialize' m).sqrt_spp : α) - 0.5 ≤ y ∧
          y < ((j : α) + 1) / ((cam.initialize' m).sqrt_spp : α) - 0.5)) := by
  have hn1 : (1 : α) ≤ ((cam.initialize' m).sqrt_spp : α) := by exact_mod_cast hn
  have hnpos : (0 : α) < ((cam.initialize' m).sqrt_spp : α) := lt_of_lt_of_le one_pos hn1
  have hx := stratified_coordinate hn1 (s_i : α) (random_double g).1 hd1
  have hy := stratified_coordinate hn1 (s_j : α) (random_double (random_double g).2).1 hd2
  have hi0 : (0 : α) ≤ (s_i : α) := by exact_mod_cast hi.1
  have hi1 : (s_i : α) + 1 ≤ ((cam.initialize' m).sqrt_spp : α) := by
    have : s_i + 1 ≤ (cam.initialize' m).sqrt_spp := by omega
    exact_mod_cast this
  have hj0 : (0 : α) ≤ (s_j : α) := by exact_mod_cast hj.1
  have hj1 : (s_j : α) + 1 ≤ ((cam.initialize' m).sqrt_spp : α) := by
    have : s_j + 1 ≤ (cam.initialize' m).sqrt_spp := by omega
    exact_mod_cast this
  refine ⟨hx, hy, cell_in_pixel hn1 hi0 hi1 hx, cell_in_pixel hn1 hj0 hj1 hy, rfl, ?_, ?_⟩
  · intro i j k l x y hxi hyj hxk hyl
    exact ⟨le_antisymm (cell_index_le hnpos hxi.1 hxk.2) (cell_index_le hnpos hxk.1 hxi.2),
      le_antisymm (cell_index_le hnpos hyj.1 hyl.2) (cell_index_le hnpos hyl.1 hyj.2)⟩
  · intro x y hx' hy'
    obtain ⟨i, hi0', hi1', hci⟩ := cell_cover (α := α) hn hx'
    obtain ⟨j, hj0', hj1', hcj⟩ := cell_cover (α := α) hn hy'
    exact ⟨i, j, ⟨hi0', hi1'⟩, ⟨hj0', hj1'⟩, hci, hcj⟩

theorem double_to_int_intCast [FloorRing α] (k : Int) : double_to_int (k : α) = k := by
  unfold double_to_int
  split_ifs <;> simp

/-- C17 over the reals: 4 samples per pixel give the grid side 2; the cell
`(1, 0)` with both draws equal to `0.5`. -/
theorem sample_square_stratified_cell_witness :
    ∃ m : rtweekend ℝ, m.sqrt = Real.sqrt ∧
      (({ (camera.defaults : camera ℝ) with samples_per_pixel := 4 }).initialize' m).sqrt_spp = 2 ∧
      ((0 : ℝ) ≤ 0.5 ∧ (0.5 : ℝ) < 1) ∧
      (-0.5 ≤ ((({ (camera.defaults : camera ℝ) with samples_per_pixel := 4 }).initialize'
          m).sample_square_stratified (fun g : Unit => ((0.5 : ℝ), g)) 1 0 ()).1.x ∧
        ((({ (camera.defaults : camera ℝ) with samples_per_pixel := 4 }).initialize'
          m).sample_square_stratified (fun g : Unit => ((0.5 : ℝ), g)) 1 0 ()).1.x < 0.5) ∧
      ((({ (camera.defaults : camera ℝ) with samples_per_pixel := 4 }).initialize'
          m).sample_square_stratified (fun g : Unit => ((0.5 : ℝ), g)) 1 0 ()).1.z = 0 := by
  obtain ⟨m, hsq, hm⟩ := real_env
  have hspp : (({ (camera.defaults : camera ℝ) with samples_per_pixel := 4 }).initialize'
      m).sqrt_spp = 2 := by
    show double_to_int (m.sqrt (((4 : Int) : ℝ))) = 2
    have h4 : (((4 : Int) : ℝ)) = 2 * 2 := by norm_num
    rw [h4, sqrt_mul_self hm (by norm_num : (0 : ℝ) ≤ 2)]
    exact double_to_int_intCast (α := ℝ) 2
  have hhalf : (0 : ℝ) ≤ 0.5 ∧ (0.5 : ℝ) < 1 := by constructor <;> norm_num
  have h := sample_square_stratified_cell m
    ({ (camera.defaults : camera ℝ) with samples_per_pixel := 4 })
    (fun g : Unit => ((0.5 : ℝ), g)) 1 0 () (by rw [hspp]; norm_num)
    (by rw [hspp]; norm_num) (by rw [hspp]; norm_num) hhalf hhalf
  exact ⟨m, hsq, hspp, hhalf, h.2.2.1, h.2.2.2.2.1⟩

/-! ## C18: the camera frame, the focus plane and the viewport -/

theorem sub_ne_zero_of_ne {a b : vec3 α} (h : a ≠ b) : a - b ≠ ⟨0, 0, 0⟩ := by
  intro h0
  apply h
  have hx : (a - b).x = 0 := by rw [h0]
  have hy : (a - b).y = 0 := by rw [h0]
  have hz : (a - b).z = 0 := by rw [h0]
  simp only [vec3.sub_x, vec3.sub_y, vec3.sub_z] at hx hy hz
  ext <;> linarith

theorem cross_unit_vector_ne_zero {m : rtweekend α} (hm : m.sqrt_ok) {a d : vec3 α}
    (hd : d ≠ ⟨0, 0, 0⟩) (hc : cross a d ≠ ⟨0, 0, 0⟩) :
    cross a (unit_vector m d) ≠ ⟨0, 0, 0⟩ := by
  intro h0
  apply hc
  have hp := length_pos hm hd
  have hx : (cross a (unit_vector m d)).x = 0 := by rw [h0]
  have hy : (cross a (unit_vector m d)).y = 0 := by rw [h0]
  have hz : (cross a (unit_vector m d)).z = 0 := by rw [h0]
  simp only [cross_x, cross_y, cross_z, unit_vector, vec3.div_x, vec3.div_y, vec3.div_z] at hx hy hz
  have hne : d.length m ≠ 0 := ne_of_gt hp
  ext
  · show a.y * d.z - a.z * d.y = 0
    have : a.y * d.z - a.z * d.y
        = d.length m * (a.y * (1 / d.length m * d.z) - a.z * (1 / d.length m * d.y)) := by
      field_simp
    rw [this, hx, mul_zero]
  · show a.z * d.x - a.x * d.z = 0
    have : a.z * d.x - a.x * d.z
        = d.length m * (a.z * (1 / d.length m * d.x) - a.x * (1 / d.length m * d.z)) := by
      field_simp
    rw [this, hy, mul_zero]
  · show a.x * d.y - a.y * d.x = 0
    have : a.x * d.y - a.y * d.x
        = d.length m * (a.x * (1 / d.length m * d.y) - a.y * (1 / d.length m * d.x)) := by
      field_simp
    rw [this, hz, mul_zero]

/-- The frame `initialize` builds is orthonormal. -/
theorem camera_frame [FloorRing α] {m : rtweekend α} (hm : m.sqrt_ok) {cam : camera α}
    (hlook : cam.lookfrom ≠ cam.lookat)
    (hvup : cross cam.vup (cam.lookfrom - cam.lookat) ≠ ⟨0, 0, 0⟩) :
    (cam.initialize' m).u.length_squared = 1 ∧ (cam.initialize' m).v.length_squared = 1 ∧
    (cam.initialize' m).w.length_squared = 1 ∧
    dot (cam.initialize' m).u (cam.initialize' m).v = 0 ∧
    dot (cam.initialize' m).u (cam.initialize' m).w = 0 ∧
    dot (cam.initialize' m).v (cam.initialize' m).w = 0 := by
  have hd := sub_ne_zero_of_ne hlook
  have hw : (unit_vector m (cam.lookfrom - cam.lookat)).length_squared = 1 :=
    unit_vector_length_squared hm hd
  have hc := cross_unit_vector_ne_zero hm hd hvup
  have hu : (unit_vector m (cross cam.vup (unit_vector m (cam.lookfrom - cam.lookat)))).length_squared
      = 1 := unit_vector_length_squared hm hc
  have huw : dot (unit_vector m (cam.lookfrom - cam.lookat))
      (unit_vector m (cross cam.vup (unit_vector m (cam.lookfrom - cam.lookat)))) = 0 := by
    rw [dot_unit_vector, dot_cross_right, mul_zero]
  show (unit_vector m (cross cam.vup (unit_vector m (cam.lookfrom - cam.lookat)))).length_squared = 1
    ∧ (cross (unit_vector m (cam.lookfrom - cam.lookat))
        (unit_vector m (cross cam.vup (unit_vector m (cam.lookfrom - cam.lookat))))).length_squared = 1
    ∧ (unit_vector m (cam.lookfrom - cam.lookat)).length_squared = 1
    ∧ dot (unit_vector m (cross cam.vup (unit_vector m (cam.lookfrom - cam.lookat))))
        (cross (unit_vector m (cam.lookfrom - cam.lookat))
          (unit_vector m (cross cam.vup (unit_vector m (cam.lookfrom - cam.lookat))))) = 0
    ∧ dot (unit_vector m (cross cam.vup (unit_vector m (cam.lookfrom - cam.lookat))))
        (unit_vector m (cam.lookfrom - cam.lookat)) = 0
    ∧ dot (cross (unit_vector m (cam.lookfrom - cam.lookat))
          (unit_vector m (cross cam.vup (unit_vector m (cam.lookfrom - cam.lookat)))))
        (unit_vector m (cam.lookfrom - cam.lookat)) = 0
  refine ⟨hu, ?_, hw, dot_cross_right _ _, ?_, ?_⟩
  · rw [length_squared_cross, hw, hu, huw]; ring
  · rw [dot_comm]; exact huw
  · rw [dot_comm]; exact dot_cross_left _ _

theorem image_height_pos [FloorRing α] (m : rtweekend α) (cam : camera α) :
    1 ≤ (cam.initialize' m).image_height := by
  show 1 ≤ (if double_to_int ((cam.image_width : α) / cam.aspect_ratio) < 1 then (1 : Int)
    else double_to_int ((cam.image_width : α) / cam.aspect_ratio))
  split_ifs with h
  · exact le_refl 1
  · exact not_lt.mp h

/-- The components of `pixel_sample - center` along the frame of the camera. -/
theorem pixel_sample_components [FloorRing α] (m : rtweekend α) (cam : camera α)
    (hf : (cam.initialize' m).u.length_squared = 1 ∧ (cam.initialize' m).v.length_squared = 1 ∧
      (cam.initialize' m).w.length_squared = 1 ∧
      dot (cam.initialize' m).u (cam.initialize' m).v = 0 ∧
      dot (cam.initialize' m).u (cam.initialize' m).w = 0 ∧
      dot (cam.initialize' m).v (cam.initialize' m).w = 0)
    (i j : Int) (offset : vec3 α) :
    dot ((cam.initialize' m).pixel_sample i j offset - (cam.initialize' m).center)
        (cam.initialize' m).w = -cam.focus_dist ∧
    dot ((cam.initialize' m).pixel_sample i j offset - (cam.initialize' m).center)
        (cam.initialize' m).u
      = cam.viewport_width m * (((i : α) + offset.x + 1 / 2) / (cam.image_width : α) - 1 / 2) ∧
    dot ((cam.initialize' m).pixel_sample i j offset - (cam.initialize' m).center)
        (cam.initialize' m).v
      = -(cam.viewport_height m * (((j : α) + offset.y + 1 / 2)
          / ((cam.initialize' m).image_height : α) - 1 / 2)) := by
  obtain ⟨huu, hvv, hww, huv, huw, hvw⟩ := hf
  have e1 : (cam.initialize' m).pixel_sample i j offset - (cam.initialize' m).center
      = (-cam.focus_dist) * (cam.initialize' m).w
        + (cam.viewport_width m * (((i : α) + offset.x + 1 / 2) / (cam.image_width : α) - 1 / 2))
            * (cam.initialize' m).u
        + (-(cam.viewport_height m * (((j : α) + offset.y + 1 / 2)
            / ((cam.initialize' m).image_height : α) - 1 / 2))) * (cam.initialize' m).v := by
    have h5 : (0.5 : α) = 1 / 2 := by norm_num
    ext <;>
    · simp only [camera.pixel_sample, camera.initialize', camera.viewport_width,
        camera.viewport_height, vec3.sub_x, vec3.sub_y, vec3.sub_z, vec3.add_x, vec3.add_y,
        vec3.add_z, vec3.smul_x, vec3.smul_y, vec3.smul_z, vec3.div_x, vec3.div_y, vec3.div_z,
        vec3.neg_x, vec3.neg_y, vec3.neg_z, h5]
      ring
  rw [e1]
  simp only [vec3.length_squared, dot] at huu hvv hww huv huw hvw
  simp only [dot, vec3.add_x, vec3.add_y, vec3.add_z, vec3.smul_x, vec3.smul_y, vec3.smul_z]
  refine ⟨?_, ?_, ?_⟩
  · linear_combination (-cam.focus_dist) * hww
      + (cam.viewport_width m * (((i : α) + offset.x + 1 / 2) / (cam.image_width : α) - 1 / 2)) * huw
      + (-(cam.viewport_height m * (((j : α) + offset.y + 1 / 2)
            / ((cam.initialize' m).image_height : α) - 1 / 2))) * hvw
  · linear_combination (-cam.focus_dist) * huw
      + (cam.viewport_width m * (((i : α) + offset.x + 1 / 2) / (cam.image_width : α) - 1 / 2)) * huu
      + (-(cam.viewport_height m * (((j : α) + offset.y + 1 / 2)
            / ((cam.initialize' m).image_height : α) - 1 / 2))) * huv
  · linear_combination (-cam.focus_dist) * hvw
      + (cam.viewport_width m * (((i : α) + offset.x + 1 / 2) / (cam.image_width : α) - 1 / 2)) * huv
      + (-(cam.viewport_height m * (((j : α) + offset.y + 1 / 2)
            / ((cam.initialize' m).image_height : α) - 1 / 2))) * hvv

/-- A pixel coordinate with its offset, scaled to the viewport, stays within half its side. -/
theorem viewport_coordinate_bound {S : α} (hS : 0 ≤ S) {n : Int} {i : Int} (hi : 0 ≤ i ∧ i < n)
    {o : α} (ho : -0.5 ≤ o ∧ o < 0.5) :
    |S * (((i : α) + o + 1 / 2) / (n : α) - 1 / 2)| ≤ S / 2 := by
  have h5 : (0.5 : α) = 1 / 2 := by norm_num
  rw [h5] at ho
  have hn : (0 : α) < (n : α) := by
    have : (0 : Int) < n := by omega
    exact_mod_cast this
  have hi0 : (0 : α) ≤ (i : α) := by exact_mod_cast hi.1
  have hi1 : (i : α) + 1 ≤ (n : α) := by
    have : i + 1 ≤ n := by omega
    exact_mod_cast this
  have h0 : 0 ≤ ((i : α) + o + 1 / 2) / (n : α) := div_nonneg (by linarith [ho.1]) hn.le
  have h1 : ((i : α) + o + 1 / 2) / (n : α) ≤ 1 := (div_le_one hn).mpr (by linarith [ho.2])
  rw [abs_mul, abs_of_nonneg hS]
  have h2 : |((i : α) + o + 1 / 2) / (n : α) - 1 / 2| ≤ 1 / 2 := by
    rw [abs_le]; constructor <;> linarith
  calc S * |((i : α) + o + 1 / 2) / (n : α) - 1 / 2| ≤ S * (1 / 2) :=
        mul_le_mul_of_nonneg_left h2 hS
    _ = S / 2 := by ring

theorem viewport_nonneg [FloorRing α] (m : rtweekend α) (cam : camera α)
    (hw : 1 ≤ cam.image_width) (hfd : 0 < cam.focus_dist)
    (htan : 0 ≤ m.tan (m.degrees_to_radians cam.vfov / 2)) :
    0 ≤ cam.viewport_height m ∧ 0 ≤ cam.viewport_width m := by
  have hH : 0 ≤ cam.viewport_height m := by
    unfold camera.viewport_height
    exact mul_nonneg (mul_nonneg (by norm_num) htan) hfd.le
  refine ⟨hH, ?_⟩
  unfold camera.viewport_width
  have h1 : (0 : α) ≤ (cam.image_width : α) := by
    have : (0 : Int) ≤ cam.image_width := by omega
    exact_mod_cast this
  have h2 : (0 : α) ≤ ((cam.initialize' m).image_height : α) := by
    have := image_height_pos m cam
    have : (0 : Int) ≤ (cam.initialize' m).image_height := by omega
    exact_mod_cast this
  exact mul_nonneg hH (div_nonneg h1 h2)

theorem get_ray_no_defocus [FloorRing α] {G : Type} (m : rtweekend α) (cam : camera α)
    (random_double : G → α × G) (random_double_range : α → α → G → α × G) (fuel : Nat)
    (i j s_i s_j : Int) (g : G) (hdef : cam.defocus_angle ≤ 0) :
    (cam.initialize' m).get_ray random_double random_double_range fuel i j s_i s_j g
      = some (⟨cam.lookfrom,
          (cam.initialize' m).pixel_sample i j
            ((cam.initialize' m).sample_square_stratified random_double s_i s_j g).1
            - cam.lookfrom⟩,
          ((cam.initialize' m).sample_square_stratified random_double s_i s_j g).2) := by
  have hdef2 : (cam.initialize' m).defocus_angle ≤ 0 := hdef
  unfold camera.get_ray
  simp only [if_pos hdef2]
  rfl

theorem real_tan_three_pi_div_four : Real.tan (270 * Real.pi / 180 / 2) = -1 := by
  have e : 270 * Real.pi / 180 / 2 = -(Real.pi / 4) + Real.pi := by ring
  rw [e, Real.tan_periodic (-(Real.pi / 4)), Real.tan_neg, Real.tan_pi_div_four]

theorem real_tan_pi_div_four : Real.tan (90 * Real.pi / 180 / 2) = 1 := by
  have e : 90 * Real.pi / 180 / 2 = Real.pi / 4 := by ring
  rw [e, Real.tan_pi_div_four]

theorem default_camera_directions (vfov : ℝ) :
    ({ (camera.defaults : camera ℝ) with vfov := vfov }).lookfrom
      ≠ ({ (camera.defaults : camera ℝ) with vfov := vfov }).lookat ∧
    cross ({ (camera.defaults : camera ℝ) with vfov := vfov }).vup
      (({ (camera.defaults : camera ℝ) with vfov := vfov }).lookfrom
        - ({ (camera.defaults : camera ℝ) with vfov := vfov }).lookat) ≠ ⟨0, 0, 0⟩ := by
  constructor
  · intro h
    have hz := congrArg vec3.z h
    simp [camera.defaults] at hz
  · intro h
    have hx := congrArg vec3.x h
    simp [camera.defaults] at hx

/-- C18 as stated fails: over the reals the default camera with `vfov = 270`
meets every hypothesis of the claim, its viewport has the height `-20`, and for
the pixel `(0, 0)` with the offset `(0, 0)` the component of
`pixel_sample - center` along `v` is `-9.9`, of absolute value above
`viewport_height / 2 = -10`. -/
theorem camera_viewport_bound_fails :
    ∃ m : rtweekend ℝ, m.sqrt = Real.sqrt ∧ m.tan = Real.tan ∧
      m.degrees_to_radians = (fun d => d * Real.pi / 180) ∧
      ({ (camera.defaults : camera ℝ) with vfov := 270 }).lookfrom
        ≠ ({ (camera.defaults : camera ℝ) with vfov := 270 }).lookat ∧
      cross ({ (camera.defaults : camera ℝ) with vfov := 270 }).vup
        (({ (camera.defaults : camera ℝ) with vfov := 270 }).lookfrom
          - ({ (camera.defaults : camera ℝ) with vfov := 270 }).lookat) ≠ ⟨0, 0, 0⟩ ∧
      1 ≤ ({ (camera.defaults : camera ℝ) with vfov := 270 }).image_width ∧
      0 < ({ (camera.defaults : camera ℝ) with vfov := 270 }).aspect_ratio ∧
      0 < ({ (camera.defaults : camera ℝ) with vfov := 270 }).focus_dist ∧
      (0 : Int) < ({ (camera.defaults : camera ℝ) with vfov := 270 }).image_width ∧
      (0 : Int) < (({ (camera.defaults : camera ℝ) with vfov := 270 }).initialize' m).image_height ∧
      ({ (camera.defaults : camera ℝ) with vfov := 270 }).viewport_height m = -20 ∧
      dot ((({ (camera.defaults : camera ℝ) with vfov := 270 }).initialize' m).pixel_sample 0 0
            ⟨0, 0, 0⟩
          - (({ (camera.defaults : camera ℝ) with vfov := 270 }).initialize' m).center)
        (({ (camera.defaults : camera ℝ) with vfov := 270 }).initialize' m).v = -9.9 ∧
      ¬ |dot ((({ (camera.defaults : camera ℝ) with vfov := 270 }).initialize' m).pixel_sample 0 0
            ⟨0, 0, 0⟩
          - (({ (camera.defaults : camera ℝ) with vfov := 270 }).initialize' m).center)
        (({ (camera.defaults : camera ℝ) with vfov := 270 }).initialize' m).v|
        ≤ ({ (camera.defaults : camera ℝ) with vfov := 270 }).viewport_height m / 2 := by
  obtain ⟨m, hsq, -, -, htan, -, hdeg, hm⟩ := real_env_trig
  obtain ⟨hlook, hvup⟩ := default_camera_directions 270
  have hH : ({ (camera.defaults : camera ℝ) with vfov := 270 }).viewport_height m = -20 := by
    show 2 * m.tan (m.degrees_to_radians 270 / 2) * (10 : ℝ) = -20
    rw [htan, hdeg]
    show 2 * Real.tan (270 * Real.pi / 180 / 2) * (10 : ℝ) = -20
    rw [real_tan_three_pi_div_four]; norm_num
  have hih : (({ (camera.defaults : camera ℝ) with vfov := 270 }).initialize' m).image_height
      = 100 := by
    show (if double_to_int (((100 : Int) : ℝ) / 1.0) < 1 then (1 : Int)
      else double_to_int (((100 : Int) : ℝ) / 1.0)) = 100
    have e : (((100 : Int) : ℝ) / 1.0) = ((100 : Int) : ℝ) := by norm_num
    rw [e, double_to_int_intCast]
    norm_num
  have hc := (pixel_sample_components m ({ (camera.defaults : camera ℝ) with vfov := 270 })
    (camera_frame hm hlook hvup) 0 0 ⟨0, 0, 0⟩).2.2
  have hv : dot ((({ (camera.defaults : camera ℝ) with vfov := 270 }).initialize' m).pixel_sample
        0 0 ⟨0, 0, 0⟩
      - (({ (camera.defaults : camera ℝ) with vfov := 270 }).initialize' m).center)
      (({ (camera.defaults : camera ℝ) with vfov := 270 }).initialize' m).v = -9.9 := by
    rw [hc, hH, hih]; norm_num
  refine ⟨m, hsq, htan, hdeg, hlook, hvup, by decide, ?_, ?_, by decide, ?_, hH, hv, ?_⟩
  · show (0 : ℝ) < 1.0
    norm_num
  · show (0 : ℝ) < 10
    norm_num
  · rw [hih]; norm_num
  · rw [hv, hH]
    intro h
    have := abs_nonneg (-9.9 : ℝ)
    linarith

/-- C18, amended: after `initialize` with `lookfrom ≠ lookat`, `vup` not
parallel to `lookfrom - lookat`, `image_width ≥ 1`, `aspect_ratio > 0`,
`focus_dist > 0` and a field of view with `tan(theta / 2) ≥ 0` (as for
`0 ≤ vfov < 180`): the frame `(u, v, w)` is orthonormal, and for every pixel
`0 ≤ i < image_width`, `0 ≤ j < image_height` and every offset in
`[-0.5, 0.5)²`, `dot(pixel_sample - center, w) = -focus_dist`,
`|dot(pixel_sample - center, u)| ≤ viewport_width / 2` and
`|dot(pixel_sample - center, v)| ≤ viewport_height / 2`; the centre is
`lookfrom`, and when `defocus_angle ≤ 0` the ray `get_ray` returns has the
origin `lookfrom` and the direction `pixel_sample - center`. -/
theorem camera_pixel_sample_in_viewport [FloorRing α] {G : Type} (m : rtweekend α)
    (hm : m.sqrt_ok) (cam : camera α)
    (hlook : cam.lookfrom ≠ cam.lookat)
    (hvup : cross cam.vup (cam.lookfrom - cam.lookat) ≠ ⟨0, 0, 0⟩)
    (hw : 1 ≤ cam.image_width) (_haspect : 0 < cam.aspect_ratio) (hfd : 0 < cam.focus_dist)
    (htan : 0 ≤ m.tan (m.degrees_to_radians cam.vfov / 2))
    (i j : Int) (hi : 0 ≤ i ∧ i < cam.image_width)
    (hj : 0 ≤ j ∧ j < (cam.initialize' m).image_height)
    (offset : vec3 α) (hox : -0.5 ≤ offset.x ∧ offset.x < 0.5)
    (hoy : -0.5 ≤ offset.y ∧ offset.y < 0.5)
    (random_double : G → α × G) (random_double_range : α → α → G → α × G) (fuel : Nat)
    (s_i s_j : Int) (g : G) :
    ((cam.initialize' m).u.length_squared = 1 ∧ (cam.initialize' m).v.length_squared = 1 ∧
      (cam.initialize' m).w.length_squared = 1 ∧
      dot (cam.initialize' m).u (cam.initialize' m).v = 0 ∧
      dot (cam.initialize' m).u (cam.initialize' m).w = 0 ∧
      dot (cam.initialize' m).v (cam.initialize' m).w = 0) ∧
    dot ((cam.initialize' m).pixel_sample i j offset - (cam.initialize' m).center)
        (cam.initialize' m).w = -cam.focus_dist ∧
    |dot ((cam.initialize' m).pixel_sample i j offset - (cam.initialize' m).center)
        (cam.initialize' m).u| ≤ cam.viewport_width m / 2 ∧
    |dot ((cam.initialize' m).pixel_sample i j offset - (cam.initialize' m).center)
        (cam.initialize' m).v| ≤ cam.viewport_height m / 2 ∧
    (cam.initialize' m).center = cam.lookfrom ∧
    (cam.defocus_angle ≤ 0 →
      (cam.initialize' m).get_ray random_double random_double_range fuel i j s_i s_j g
        = some (⟨cam.lookfrom,
            (cam.initialize' m).pixel_sample i j
              ((cam.initialize' m).sample_square_stratified random_double s_i s_j g).1
              - (cam.initialize' m).center⟩,
            ((cam.initialize' m).sample_square_stratified random_double s_i s_j g).2)) := by
  have hf := camera_frame hm hlook hvup
  obtain ⟨hcw, hcu, hcv⟩ := pixel_sample_components m cam hf i j offset
  obtain ⟨hH, hW⟩ := viewport_nonneg m cam hw hfd htan
  refine ⟨hf, hcw, ?_, ?_, rfl, ?_⟩
  · rw [hcu]
    exact viewport_coordinate_bound hW hi hox
  · rw [hcv, abs_neg]
    exact viewport_coordinate_bound hH hj hoy
  · intro hdef
    exact get_ray_no_defocus m cam random_double random_double_range fuel i j s_i s_j g hdef

/-- C18 over the reals: the default camera (`vfov = 90`), the pixel `(0, 0)`
and the offset `(0, 0)`. -/
theorem camera_pixel_sample_in_viewport_witness :
    ∃ m : rtweekend ℝ, m.sqrt = Real.sqrt ∧ m.tan = Real.tan ∧
      m.degrees_to_radians = (fun d => d * Real.pi / 180) ∧
      ({ (camera.defaults : camera ℝ) with vfov := 90 }).viewport_height m = 20 ∧
      dot ((({ (camera.defaults : camera ℝ) with vfov := 90 }).initialize' m).pixel_sample 0 0
            ⟨0, 0, 0⟩
          - (({ (camera.defaults : camera ℝ) with vfov := 90 }).initialize' m).center)
        (({ (camera.defaults : camera ℝ) with vfov := 90 }).initialize' m).w = -10 ∧
      |dot ((({ (camera.defaults : camera ℝ) with vfov := 90 }).initialize' m).pixel_sample 0 0
            ⟨0, 0, 0⟩
          - (({ (camera.defaults : camera ℝ) with vfov := 90 }).initialize' m).center)
        (({ (camera.defaults : camera ℝ) with vfov := 90 }).initialize' m).v|
        ≤ ({ (camera.defaults : camera ℝ) with vfov := 90 }).viewport_height m / 2 := by
  obtain ⟨m, hsq, -, -, htan, -, hdeg, hm⟩ := real_env_trig
  obtain ⟨hlook, hvup⟩ := default_camera_directions 90
  have ht : m.tan (m.degrees_to_radians (90 : ℝ) / 2) = 1 := by
    rw [htan, hdeg]
    show Real.tan (90 * Real.pi / 180 / 2) = 1
    exact real_tan_pi_div_four
  have hH : ({ (camera.defaults : camera ℝ) with vfov := 90 }).viewport_height m = 20 := by
    show 2 * m.tan (m.degrees_to_radians (90 : ℝ) / 2) * (10 : ℝ) = 20
    rw [ht]; norm_num
  have hih := image_height_pos m ({ (camera.defaults : camera ℝ) with vfov := 90 })
  have h := camera_pixel_sample_in_viewport (G := Unit) m hm
    ({ (camera.defaults : camera ℝ) with vfov := 90 }) hlook hvup (by decide)
    (by show (0 : ℝ) < 1.0; norm_num) (by show (0 : ℝ) < 10; norm_num)
    (by show 0 ≤ m.tan (m.degrees_to_radians (90 : ℝ) / 2); rw [ht]; norm_num) 0 0 ⟨le_refl 0, by decide⟩ ⟨le_refl 0, by omega⟩ ⟨0, 0, 0⟩
    (by constructor <;> norm_num) (by constructor <;> norm_num)
    (fun g => (0, g)) (fun _ _ g => (0, g)) 0 0 0 ()
  exact ⟨m, hsq, htan, hdeg, hH, h.2.1, h.2.2.2.1⟩

/-! ## C11: the division by the mixture density in `ray_color` -/

/-- The density-sampling branch of `ray_color_checked`. -/
theorem ray_color_checked_density {M G : Type} [FloorRing α] (cam : camera α)
    (mats : M → material α M G) (choose : G → Bool × G) (rec0 : hit_record α M) (r : ray α)
    (depth : α) (world lights : hittable α M G) (g : G) (hd : 0 < depth)
    (hh : (world.hit r ⟨xdouble.fin 0.001, infinity⟩ rec0).1 = true)
    (hrec : hit_record α M) (hhrec : hrec = (world.hit r ⟨xdouble.fin 0.001, infinity⟩ rec0).2)
    (srec : scatter_record α G) (hs : ((mats hrec.mat).scatter r hrec g).1 = some srec)
    (hskip : srec.skip_pdf = false)
    (mixed : pdf α G)
    (hmixed : mixed = mixture_pdf choose (hittable_pdf lights hrec.p) srec.pdf_ptr)
    (gen : vec3 α × G) (hgen : gen = mixed.generate ((mats hrec.mat).scatter r hrec g).2) :
    cam.ray_color_checked mats choose rec0 r depth world lights g =
      match cam.ray_color_checked mats choose rec0 ⟨hrec.p, gen.1⟩ (depth - 1) world lights
          gen.2 with
      | none => none
      | some rc =>
        if mixed.value gen.1 = 0 then none
        else some
          (srec.attenuation * (mats hrec.mat).scattering_pdf r hrec ⟨hrec.p, gen.1⟩ * rc.1
              / mixed.value gen.1
            + (mats hrec.mat).emitted r hrec hrec.u hrec.v hrec.p, rc.2) := by
  subst hhrec hmixed hgen
  rw [camera.ray_color_checked, dif_neg (not_le.mpr hd)]
  simp only [hh, hs, hskip]
  simp

/-- Where the checked evaluation yields a colour, `ray_color` returns this colour. -/
theorem ray_color_checked_sound {M G : Type} [FloorRing α] (cam : camera α)
    (mats : M → material α M G) (choose : G → Bool × G) (rec0 : hit_record α M)
    (world lights : hittable α M G) (n : Nat) :
    ∀ (r : ray α) (depth : α) (g : G) (x : color α × G), Nat.ceil depth ≤ n →
      cam.ray_color_checked mats choose rec0 r depth world lights g = some x →
      cam.ray_color mats choose rec0 r depth world lights g = x := by
  induction n with
  | zero =>
    intro r depth g x hn h
    have hd : depth ≤ 0 := Nat.ceil_eq_zero.mp (Nat.le_zero.mp hn)
    rw [camera.ray_color_checked, dif_pos hd] at h
    rw [camera.ray_color, dif_pos hd]
    exact Option.some.inj h
  | succ n ih =>
    intro r depth g x hn h
    by_cases hd : depth ≤ 0
    · rw [camera.ray_color_checked, dif_pos hd] at h
      rw [camera.ray_color, dif_pos hd]
      exact Option.some.inj h
    · have hlt : Nat.ceil (depth - 1) ≤ n := by
        have := ray_color_decreasing hd
        omega
      rw [camera.ray_color_checked, dif_neg hd] at h
      rw [camera.ray_color, dif_neg hd]
      rcases hhit : (world.hit r ⟨xdouble.fin 0.001, infinity⟩ rec0).1 with _ | _
      · simp only [hhit] at h ⊢
        simpa using h
      · simp only [hhit] at h ⊢
        rcases hsc : ((mats (world.hit r ⟨xdouble.fin 0.001, infinity⟩ rec0).2.mat).scatter r
            (world.hit r ⟨xdouble.fin 0.001, infinity⟩ rec0).2 g).1 with _ | srec
        · simp only [hsc] at h ⊢
          simpa using h
        · simp only [hsc] at h ⊢
          rcases hskip : srec.skip_pdf with _ | _
          · simp only [hskip] at h ⊢
            simp only [Bool.not_true, Bool.false_eq_true, if_false] at h ⊢
            split at h
            · exact absurd h (by simp)
            · rename_i rc hrc
              have e := ih _ _ _ _ hlt hrc
              rw [e]
              split_ifs at h with hz
              exact Option.some.inj h
          · simp only [hskip] at h ⊢
            simp only [Bool.not_true, Bool.false_eq_true, if_false, if_true] at h ⊢
            split at h
            · exact absurd h (by simp)
            · rename_i rc hrc
              have e := ih _ _ _ _ hlt hrc
              rw [e]
              exact Option.some.inj h

/-- The hit, the scatter record, the sampled direction and the mixture density
of `ray_color` on the example scene, for either outcome of the draw of the
mixture. -/
theorem example_scene_locals [FloorRing α] (pick : Bool) (rec0 : hit_record α Unit) (r : ray α) :
    ((example_wall : hittable α Unit Unit).hit r ⟨xdouble.fin 0.001, infinity⟩ rec0).1 = true ∧
    ((mixture_pdf (fun g : Unit => (pick, g))
        (hittable_pdf (example_light : hittable α Unit Unit) ⟨0, 0, 0⟩)
        ⟨fun d => max 0 (dot (⟨-1, 0, 0⟩ : vec3 α) d), fun g1 => (⟨-1, 0, 0⟩, g1)⟩).generate ()).1
      = (if pick then ⟨1, 0, 0⟩ else ⟨-1, 0, 0⟩) ∧
    (mixture_pdf (fun g : Unit => (pick, g))
        (hittable_pdf (example_light : hittable α Unit Unit) ⟨0, 0, 0⟩)
        ⟨fun d => max 0 (dot (⟨-1, 0, 0⟩ : vec3 α) d), fun g1 => (⟨-1, 0, 0⟩, g1)⟩).value
        (if pick then ⟨1, 0, 0⟩ else ⟨-1, 0, 0⟩)
      = (if pick then 0 else 1 / 2) := by
  refine ⟨rfl, ?_, ?_⟩
  · cases pick <;> rfl
  · cases pick <;>
      simp [mixture_pdf, hittable_pdf, example_light, hittable.default_pdf_value, dot]

/-- The checked evaluation of `ray_color` at depth 1 on the example scene:
the recursive call returns black, and the division by the mixture density is
then performed. -/
theorem example_scene_ray_color [FloorRing α] (pick : Bool) (rec0 : hit_record α Unit)
    (r : ray α) :
    (camera.defaults : camera α).ray_color_checked example_material (fun g : Unit => (pick, g))
        rec0 r 1 example_wall example_light ()
      = if pick then none else some (⟨1, 1, 1⟩, ()) := by
  have hloc := example_scene_locals pick rec0 r
  have hrec : ∀ r1 : ray α,
      (camera.defaults : camera α).ray_color_checked example_material
        (fun g : Unit => (pick, g)) rec0 r1 (1 - 1) example_wall example_light ()
        = some (⟨0, 0, 0⟩, ()) := by
    intro r1
    rw [camera.ray_color_checked, dif_pos (by norm_num)]
  rw [ray_color_checked_density (camera.defaults : camera α) example_material
    (fun g : Unit => (pick, g)) rec0 r 1 example_wall example_light () one_pos hloc.1 _ rfl
    ⟨⟨1, 1, 1⟩, ⟨fun d => max 0 (dot (⟨-1, 0, 0⟩ : vec3 α) d), fun g1 => (⟨-1, 0, 0⟩, g1)⟩,
      false, ⟨⟨0, 0, 0⟩, ⟨-1, 0, 0⟩⟩⟩ rfl rfl _ rfl _ rfl]
  rw [hrec]
  cases pick
  · simp [example_wall, example_material, mixture_pdf, hittable_pdf, example_light,
      hittable.default_pdf_value, hittable.default_random, dot]
    ext <;> simp
  · simp [example_wall, example_material, mixture_pdf, hittable_pdf, example_light,
      hittable.default_pdf_value, hittable.default_random, dot]

/-- C11 as stated fails: on the example scene over the rationals, at depth 1
and with the mixture sampling the light, the ray hits, the material scatters
with a density, the sampled direction is `(1, 0, 0)`, the mixture density is
zero there, and the evaluation of `ray_color` divides by it: the result is not
the emitted light `(1, 1, 1)`. -/
theorem ray_color_divides_by_zero :
    ((example_wall : hittable ℚ Unit Unit).hit ⟨⟨1, 0, 0⟩, ⟨-1, 0, 0⟩⟩
        ⟨xdouble.fin 0.001, infinity⟩ ⟨⟨0, 0, 0⟩, ⟨0, 0, 0⟩, (), 0, 0, 0, false⟩).1 = true ∧
    ((mixture_pdf (fun g : Unit => (true, g))
        (hittable_pdf (example_light : hittable ℚ Unit Unit) ⟨0, 0, 0⟩)
        ⟨fun d => max 0 (dot (⟨-1, 0, 0⟩ : vec3 ℚ) d), fun g1 => (⟨-1, 0, 0⟩, g1)⟩).generate ()).1
      = ⟨1, 0, 0⟩ ∧
    (mixture_pdf (fun g : Unit => (true, g))
        (hittable_pdf (example_light : hittable ℚ Unit Unit) ⟨0, 0, 0⟩)
        ⟨fun d => max 0 (dot (⟨-1, 0, 0⟩ : vec3 ℚ) d), fun g1 => (⟨-1, 0, 0⟩, g1)⟩).value
        ⟨1, 0, 0⟩ = 0 ∧
    (camera.defaults : camera ℚ).ray_color_checked example_material (fun g : Unit => (true, g))
        ⟨⟨0, 0, 0⟩, ⟨0, 0, 0⟩, (), 0, 0, 0, false⟩ ⟨⟨1, 0, 0⟩, ⟨-1, 0, 0⟩⟩ 1 example_wall
        example_light () = none ∧
    (camera.defaults : camera ℚ).ray_color_checked example_material (fun g : Unit => (true, g))
        ⟨⟨0, 0, 0⟩, ⟨0, 0, 0⟩, (), 0, 0, 0, false⟩ ⟨⟨1, 0, 0⟩, ⟨-1, 0, 0⟩⟩ 1 example_wall
        example_light () ≠ some (⟨1, 1, 1⟩, ()) := by
  have hloc := example_scene_locals (α := ℚ) true ⟨⟨0, 0, 0⟩, ⟨0, 0, 0⟩, (), 0, 0, 0, false⟩
    ⟨⟨1, 0, 0⟩, ⟨-1, 0, 0⟩⟩
  have hrc := example_scene_ray_color (α := ℚ) true ⟨⟨0, 0, 0⟩, ⟨0, 0, 0⟩, (), 0, 0, 0, false⟩
    ⟨⟨1, 0, 0⟩, ⟨-1, 0, 0⟩⟩
  simp only [if_true] at hloc hrc
  refine ⟨hloc.1, hloc.2.1, hloc.2.2, hrc, ?_⟩
  rw [hrc]
  exact Option.noConfusion

/-- C11, amended: in the density-sampling branch of `ray_color` (positive
depth, a hit, a scatter record that does not set `skip_pdf`) the division by
the mixture density is not guarded.  When the mixture density at the sampled
direction is zero the division by zero is performed and no colour results;
when it is not zero the result is `attenuation * scattering_pdf *
ray_color(scattered, depth - 1) / density + emitted`, provided the recursive
call yields a colour.  Whenever the checked evaluation yields a colour it is
the colour `ray_color` returns. -/
theorem ray_color_density_division {M G : Type} [FloorRing α] (cam : camera α)
    (mats : M → material α M G) (choose : G → Bool × G) (rec0 : hit_record α M) (r : ray α)
    (depth : α) (world lights : hittable α M G) (g : G) (hd : 0 < depth)
    (hh : (world.hit r ⟨xdouble.fin 0.001, infinity⟩ rec0).1 = true)
    (hrec : hit_record α M) (hhrec : hrec = (world.hit r ⟨xdouble.fin 0.001, infinity⟩ rec0).2)
    (srec : scatter_record α G) (hs : ((mats hrec.mat).scatter r hrec g).1 = some srec)
    (hskip : srec.skip_pdf = false)
    (mixed : pdf α G)
    (hmixed : mixed = mixture_pdf choose (hittable_pdf lights hrec.p) srec.pdf_ptr)
    (gen : vec3 α × G) (hgen : gen = mixed.generate ((mats hrec.mat).scatter r hrec g).2) :
    (mixed.value gen.1 = 0 →
      cam.ray_color_checked mats choose rec0 r depth world lights g = none) ∧
    (mixed.value gen.1 ≠ 0 →
      cam.ray_color_checked mats choose rec0 r depth world lights g =
        (cam.ray_color_checked mats choose rec0 ⟨hrec.p, gen.1⟩ (depth - 1) world lights
          gen.2).map
          (fun rc =>
            (srec.attenuation * (mats hrec.mat).scattering_pdf r hrec ⟨hrec.p, gen.1⟩ * rc.1
                / mixed.value gen.1
              + (mats hrec.mat).emitted r hrec hrec.u hrec.v hrec.p, rc.2))) ∧
    (∀ x : color α × G,
      cam.ray_color_checked mats choose rec0 r depth world lights g = some x →
      cam.ray_color mats choose rec0 r depth world lights g = x) := by
  have h := ray_color_checked_density cam mats choose rec0 r depth world lights g hd hh hrec
    hhrec srec hs hskip mixed hmixed gen hgen
  refine ⟨fun hz => ?_, fun hz => ?_, fun x hx => ?_⟩
  · rw [h]
    cases cam.ray_color_checked mats choose rec0 ⟨hrec.p, gen.1⟩ (depth - 1) world lights gen.2
    · rfl
    · simp [hz]
  · rw [h]
    cases cam.ray_color_checked mats choose rec0 ⟨hrec.p, gen.1⟩ (depth - 1) world lights gen.2
    · rfl
    · simp [hz]
  · exact ray_color_checked_sound cam mats choose rec0 world lights (Nat.ceil depth) r depth g x
      (le_refl _) hx

/-- C11 on the example scene over the rationals, with the mixture sampling the
material: the density is `1/2` at the sampled direction `(-1, 0, 0)` and
`ray_color` returns the emitted light `(1, 1, 1)`, the recursive call being black. -/
theorem ray_color_density_division_witness :
    (mixture_pdf (fun g : Unit => (false, g))
        (hittable_pdf (example_light : hittable ℚ Unit Unit) ⟨0, 0, 0⟩)
        ⟨fun d => max 0 (dot (⟨-1, 0, 0⟩ : vec3 ℚ) d), fun g1 => (⟨-1, 0, 0⟩, g1)⟩).value
        ⟨-1, 0, 0⟩ = 1 / 2 ∧
    (camera.defaults : camera ℚ).ray_color example_material (fun g : Unit => (false, g))
        ⟨⟨0, 0, 0⟩, ⟨0, 0, 0⟩, (), 0, 0, 0, false⟩ ⟨⟨1, 0, 0⟩, ⟨-1, 0, 0⟩⟩ 1 example_wall
        example_light () = (⟨1, 1, 1⟩, ()) := by
  have hloc := example_scene_locals (α := ℚ) false ⟨⟨0, 0, 0⟩, ⟨0, 0, 0⟩, (), 0, 0, 0, false⟩
    ⟨⟨1, 0, 0⟩, ⟨-1, 0, 0⟩⟩
  have hrc := example_scene_ray_color (α := ℚ) false ⟨⟨0, 0, 0⟩, ⟨0, 0, 0⟩, (), 0, 0, 0, false⟩
    ⟨⟨1, 0, 0⟩, ⟨-1, 0, 0⟩⟩
  simp only [Bool.false_eq_true, if_false] at hloc hrc
  have h := ray_color_density_division (camera.defaults : camera ℚ) example_material
    (fun g : Unit => (false, g)) ⟨⟨0, 0, 0⟩, ⟨0, 0, 0⟩, (), 0, 0, 0, false⟩
    ⟨⟨1, 0, 0⟩, ⟨-1, 0, 0⟩⟩ 1 example_wall example_light () one_pos hloc.1 _ rfl
    ⟨⟨1, 1, 1⟩, ⟨fun d => max 0 (dot (⟨-1, 0, 0⟩ : vec3 ℚ) d), fun g1 => (⟨-1, 0, 0⟩, g1)⟩,
      false, ⟨⟨0, 0, 0⟩, ⟨-1, 0, 0⟩⟩⟩ rfl rfl _ rfl _ rfl
  exact ⟨hloc.2.2, h.2.2 _ hrc⟩

/-! ## C12: rendering with `max_depth = 0` -/

theorem foldl_invariant {β γ : Type} (P : β → Prop) (f : β → γ → β)
    (hf : ∀ b c, P b → P (f b c)) : ∀ (l : List γ) (b : β), P b → P (l.foldl f b) := by
  intro l
  induction l with
  | nil => intro b hb; exact hb
  | cons c l ih => intro b hb; exact ih (f b c) (hf b c hb)

theorem vec3_zero_add_zero : (⟨0, 0, 0⟩ : vec3 α) + ⟨0, 0, 0⟩ = ⟨0, 0, 0⟩ := by
  ext <;> simp

theorem vec3_smul_zero (t : α) : t * (⟨0, 0, 0⟩ : vec3 α) = ⟨0, 0, 0⟩ := by
  ext <;> simp

/-- With `max_depth = 0` a step of the sample loops keeps a black `pixel_color` black. -/
theorem sample_step_black {M G : Type} [FloorRing α] (cam : camera α)
    (mats : M → material α M G) (choose : G → Bool × G) (rec0 : hit_record α M)
    (random_double : G → α × G) (random_double_range : α → α → G → α × G) (fuel : Nat)
    (world lights : hittable α M G) (i j s_i s_j : Int) (hdepth : cam.max_depth = 0)
    (acc : Option (color α × G)) (hacc : ∀ c, acc = some c → c.1 = ⟨0, 0, 0⟩) :
    (∀ c, cam.sample_step mats choose rec0 random_double random_double_range fuel world lights
        i j s_i s_j acc = some c → c.1 = ⟨0, 0, 0⟩) ∧
    (acc ≠ none →
      (∀ g, cam.get_ray random_double random_double_range fuel i j s_i s_j g ≠ none) →
      cam.sample_step mats choose rec0 random_double random_double_range fuel world lights
        i j s_i s_j acc ≠ none) := by
  have hrc : ∀ (r : ray α) (g : G),
      cam.ray_color mats choose rec0 r (cam.max_depth : α) world lights g = (⟨0, 0, 0⟩, g) := by
    intro r g
    rw [camera.ray_color, dif_pos (by rw [hdepth]; simp)]
  rcases acc with _ | ⟨pc, g⟩
  · exact ⟨fun c h => by simp [camera.sample_step] at h, fun h => absurd rfl h⟩
  · have hpc : pc = ⟨0, 0, 0⟩ := hacc (pc, g) rfl
    subst hpc
    rcases hg : cam.get_ray random_double random_double_range fuel i j s_i s_j g with _ | ⟨r, g1⟩
    · exact ⟨fun c h => by simp [camera.sample_step, hg] at h, fun _ h => absurd hg (h g)⟩
    · constructor
      · intro c h
        simp only [camera.sample_step, hg, hrc] at h
        rw [← Option.some.inj h]
        exact vec3_zero_add_zero
      · intro _ _
        simp [camera.sample_step, hg]

/-- With `max_depth = 0` the sum `pixel_color` of a pixel is black. -/
theorem pixel_color_black {M G : Type} [FloorRing α] (cam : camera α)
    (mats : M → material α M G) (choose : G → Bool × G) (rec0 : hit_record α M)
    (random_double : G → α × G) (random_double_range : α → α → G → α × G) (fuel : Nat)
    (world lights : hittable α M G) (i j : Int) (g : G) (hdepth : cam.max_depth = 0) :
    (∀ c, cam.pixel_color mats choose rec0 random_double random_double_range fuel world lights
        i j g = some c → c.1 = ⟨0, 0, 0⟩) ∧
    ((∀ (s_i s_j : Int) (g1 : G),
        cam.get_ray random_double random_double_range fuel i j s_i s_j g1 ≠ none) →
      cam.pixel_color mats choose rec0 random_double random_double_range fuel world lights
        i j g ≠ none) := by
  constructor
  · unfold camera.pixel_color
    apply foldl_invariant (fun acc : Option (color α × G) => ∀ c, acc = some c → c.1 = ⟨0, 0, 0⟩)
    · intro acc s_j hacc
      apply foldl_invariant
        (fun acc : Option (color α × G) => ∀ c, acc = some c → c.1 = ⟨0, 0, 0⟩)
      · intro acc1 s_i hacc1
        exact (sample_step_black cam mats choose rec0 random_double random_double_range fuel
          world lights i j s_i s_j hdepth acc1 hacc1).1
      · exact hacc
    · intro c hc
      rw [← Option.some.inj hc]
  · intro hget
    unfold camera.pixel_color
    have key := foldl_invariant
      (fun acc : Option (color α × G) => (∀ c, acc = some c → c.1 = ⟨0, 0, 0⟩) ∧ acc ≠ none)
      (fun acc (s_j : Nat) => (List.range cam.sqrt_spp.toNat).foldl
        (fun acc (s_i : Nat) => cam.sample_step mats choose rec0 random_double
          random_double_range fuel world lights i j (s_i : Int) (s_j : Int) acc) acc)
      (fun acc s_j hacc => foldl_invariant
        (fun acc : Option (color α × G) => (∀ c, acc = some c → c.1 = ⟨0, 0, 0⟩) ∧ acc ≠ none)
        (fun acc (s_i : Nat) => cam.sample_step mats choose rec0 random_double
          random_double_range fuel world lights i j (s_i : Int) (s_j : Int) acc)
        (fun acc1 s_i hacc1 =>
          ⟨(sample_step_black cam mats choose rec0 random_double random_double_range fuel
              world lights i j s_i s_j hdepth acc1 hacc1.1).1,
            (sample_step_black cam mats choose rec0 random_double random_double_range fuel
              world lights i j s_i s_j hdepth acc1 hacc1.1).2 hacc1.2
              (fun g1 => hget s_i s_j g1)⟩) _ acc hacc)
      (List.range cam.sqrt_spp.toNat) (some ((⟨0, 0, 0⟩ : color α), g))
      ⟨fun c hc => by rw [← Option.some.inj hc], by simp⟩
    exact key.2

/-- With `max_depth = 0` the colour of a pixel is black. -/
theorem render_pixel_black {M G : Type} [FloorRing α] (m : rtweekend α) (cam : camera α)
    (mats : M → material α M G) (choose : G → Bool × G) (rec0 : hit_record α M)
    (random_double : G → α × G) (random_double_range : α → α → G → α × G) (fuel : Nat)
    (world lights : hittable α M G) (i j : Int) (g : G) (hdepth : cam.max_depth = 0) :
    (∀ c, cam.render_pixel m mats choose rec0 random_double random_double_range fuel world
        lights i j g = some c → c.1 = ⟨0, 0, 0⟩) ∧
    ((∀ (s_i s_j : Int) (g1 : G),
        (cam.initialize' m).get_ray random_double random_double_range fuel i j s_i s_j g1
          ≠ none) →
      ∃ g1, cam.render_pixel m mats choose rec0 random_double random_double_range fuel world
        lights i j g = some (⟨0, 0, 0⟩, g1)) := by
  have hd : (cam.initialize' m).max_depth = 0 := hdepth
  obtain ⟨h1, h2⟩ := pixel_color_black (cam.initialize' m) mats choose rec0 random_double
    random_double_range fuel world lights i j g hd
  have hcase : ∀ c, cam.render_pixel m mats choose rec0 random_double random_double_range fuel
      world lights i j g = some c → c.1 = ⟨0, 0, 0⟩ := by
    intro c hc
    unfold camera.render_pixel at hc
    rcases hp : (cam.initialize' m).pixel_color mats choose rec0 random_double
        random_double_range fuel world lights i j g with _ | ⟨pc, g1⟩
    · rw [hp] at hc
      exact absurd hc (by simp)
    · rw [hp] at hc
      have hpc : pc = ⟨0, 0, 0⟩ := h1 (pc, g1) hp
      rw [← Option.some.inj hc, hpc]
      exact vec3_smul_zero _
  refine ⟨hcase, fun hget => ?_⟩
  have hne := h2 hget
  rcases hp : cam.render_pixel m mats choose rec0 random_double random_double_range fuel
      world lights i j g with _ | ⟨c, g1⟩
  · exfalso
    unfold camera.render_pixel at hp
    rcases hq : (cam.initialize' m).pixel_color mats choose rec0 random_double
        random_double_range fuel world lights i j g with _ | ⟨pc, g2⟩
    · exact hne hq
    · rw [hq] at hp
      exact absurd hp (by simp)
  · have hc := hcase (c, g1) hp
    exact ⟨g1, by rw [show c = ⟨0, 0, 0⟩ from hc]⟩

theorem unit_vector_z {m : rtweekend α} (hm : m.sqrt_ok) :
    unit_vector m (⟨0, 0, 1⟩ : vec3 α) = ⟨0, 0, 1⟩ := by
  have hl : (⟨0, 0, 1⟩ : vec3 α).length m = 1 :=
    length_eq_one_of_sq hm (by simp [vec3.length_squared])
  ext <;> simp [unit_vector, hl]

/-- A camera at the origin that looks along `-z` has `w = (0, 0, 1)`. -/
theorem camera_w_default [FloorRing α] {m : rtweekend α} (hm : m.sqrt_ok) (cam : camera α)
    (hfrom : cam.lookfrom = ⟨0, 0, 0⟩) (hat : cam.lookat = ⟨0, 0, -1⟩) :
    (cam.initialize' m).w = ⟨0, 0, 1⟩ := by
  show unit_vector m (cam.lookfrom - cam.lookat) = ⟨0, 0, 1⟩
  have e : cam.lookfrom - cam.lookat = ⟨0, 0, 1⟩ := by
    rw [hfrom, hat]
    ext <;> simp
  rw [e, unit_vector_z hm]

/-- A quad in the plane `z = 5` is missed by a ray from the origin whose
direction has the component `z = -10`: the plane is met at `t = -1/2`. -/
theorem quad_behind_miss {M : Type} (q : quad α M) (hn : q.normal = ⟨0, 0, 1⟩) (hD : q.D = 5)
    (r : ray α) (ho : r.origin = ⟨0, 0, 0⟩) (hz : r.direction.z = -10)
    (rec : hit_record α M) :
    (q.hit r ⟨xdouble.fin 0.001, infinity⟩ rec).1 = false := by
  rcases h : (q.hit r ⟨xdouble.fin 0.001, infinity⟩ rec).1 with _ | _
  · rfl
  · exfalso
    have ht := ((quad_hit_true_iff q r _ rec).mp h).2.1.1
    rw [fin_le_fin] at ht
    have e : q.hit_t r = -(1 / 2) := by
      unfold quad.hit_t
      rw [hn, hD, ho]
      simp only [dot]
      rw [hz]
      norm_num
    rw [e] at ht
    norm_num at ht

theorem quad_z5_fields {M : Type} {m : rtweekend α} (hm : m.sqrt_ok) (mat : M) :
    (quad.new m (⟨0, 0, 5⟩ : vec3 α) ⟨1, 0, 0⟩ ⟨0, 1, 0⟩ mat).normal = ⟨0, 0, 1⟩ ∧
    (quad.new m (⟨0, 0, 5⟩ : vec3 α) ⟨1, 0, 0⟩ ⟨0, 1, 0⟩ mat).D = 5 := by
  have hn : (quad.new m (⟨0, 0, 5⟩ : vec3 α) ⟨1, 0, 0⟩ ⟨0, 1, 0⟩ mat).normal = ⟨0, 0, 1⟩ := by
    show unit_vector m (cross (⟨1, 0, 0⟩ : vec3 α) ⟨0, 1, 0⟩) = _
    rw [unit_quad_cross, unit_vector_z hm]
  refine ⟨hn, ?_⟩
  show dot (quad.new m (⟨0, 0, 5⟩ : vec3 α) ⟨1, 0, 0⟩ ⟨0, 1, 0⟩ mat).normal ⟨0, 0, 5⟩ = 5
  rw [hn]
  simp [dot]

/-- C12 as stated fails: over the reals, the default camera with
`max_depth = 0`, one sample per pixel and the background `(1, 1, 1)`.  The one
primary ray of the pixel `(0, 0)` starts at the origin with a direction of
`z = -10` and misses the light, a quad in the plane `z = 5` behind the camera;
whatever the scene, the colour of the pixel is black, not the background. -/
theorem render_zero_depth_not_background :
    ∃ m : rtweekend ℝ, m.sqrt = Real.sqrt ∧ m.tan = Real.tan ∧
      m.degrees_to_radians = (fun d => d * Real.pi / 180) ∧
      (({ (camera.defaults : camera ℝ) with
          samples_per_pixel := 1, max_depth := 0, background := ⟨1, 1, 1⟩ }).initialize'
        m).sqrt_spp = 1 ∧
      (∃ r : ray ℝ,
        (({ (camera.defaults : camera ℝ) with
            samples_per_pixel := 1, max_depth := 0, background := ⟨1, 1, 1⟩ }).initialize'
          m).get_ray (fun g : Unit => ((1 / 2 : ℝ), g)) (fun _ _ g => ((0 : ℝ), g)) 0 0 0 0 0 ()
          = some (r, ()) ∧
        r.origin = ⟨0, 0, 0⟩ ∧ r.direction.z = -10 ∧
        ((quad.new m (⟨0, 0, 5⟩ : vec3 ℝ) ⟨1, 0, 0⟩ ⟨0, 1, 0⟩ ()).hit r
          ⟨xdouble.fin 0.001, infinity⟩ ⟨⟨0, 0, 0⟩, ⟨0, 0, 0⟩, (), 0, 0, 0, false⟩).1 = false) ∧
      (∀ world lights : hittable ℝ Unit Unit,
        ({ (camera.defaults : camera ℝ) with
            samples_per_pixel := 1, max_depth := 0, background := ⟨1, 1, 1⟩ }).render_pixel
          m example_material (fun g : Unit => (true, g))
          ⟨⟨0, 0, 0⟩, ⟨0, 0, 0⟩, (), 0, 0, 0, false⟩ (fun g : Unit => ((1 / 2 : ℝ), g))
          (fun _ _ g => ((0 : ℝ), g)) 0 world lights 0 0 () = some (⟨0, 0, 0⟩, ())) ∧
      (⟨0, 0, 0⟩ : color ℝ) ≠ ({ (camera.defaults : camera ℝ) with
          samples_per_pixel := 1, max_depth := 0, background := ⟨1, 1, 1⟩ }).background := by
  obtain ⟨m, hsq, -, -, htan, -, hdeg, hm⟩ := real_env_trig
  have hdirs : ({ (camera.defaults : camera ℝ) with
        samples_per_pixel := 1, max_depth := 0, background := ⟨1, 1, 1⟩ }).lookfrom
      ≠ ({ (camera.defaults : camera ℝ) with
        samples_per_pixel := 1, max_depth := 0, background := ⟨1, 1, 1⟩ }).lookat ∧
      cross ({ (camera.defaults : camera ℝ) with
        samples_per_pixel := 1, max_depth := 0, background := ⟨1, 1, 1⟩ }).vup
        (({ (camera.defaults : camera ℝ) with
          samples_per_pixel := 1, max_depth := 0, background := ⟨1, 1, 1⟩ }).lookfrom
        - ({ (camera.defaults : camera ℝ) with
          samples_per_pixel := 1, max_depth := 0, background := ⟨1, 1, 1⟩ }).lookat)
        ≠ ⟨0, 0, 0⟩ := default_camera_directions 90
  have hspp : (({ (camera.defaults : camera ℝ) with
      samples_per_pixel := 1, max_depth := 0, background := ⟨1, 1, 1⟩ }).initialize'
      m).sqrt_spp = 1 := by
    show double_to_int (m.sqrt (((1 : Int) : ℝ))) = 1
    rw [show m.sqrt (((1 : Int) : ℝ)) = ((1 : Int) : ℝ) by rw [Int.cast_one, sqrt_one hm]]
    exact double_to_int_intCast (α := ℝ) 1
  have hgr := get_ray_no_defocus m ({ (camera.defaults : camera ℝ) with
      samples_per_pixel := 1, max_depth := 0, background := ⟨1, 1, 1⟩ })
    (fun g : Unit => ((1 / 2 : ℝ), g)) (fun _ _ g => ((0 : ℝ), g)) 0 0 0 0 0 () (le_refl 0)
  have hw := camera_w_default hm ({ (camera.defaults : camera ℝ) with
      samples_per_pixel := 1, max_depth := 0, background := ⟨1, 1, 1⟩ }) rfl rfl
  have hcomp := (pixel_sample_components m ({ (camera.defaults : camera ℝ) with
      samples_per_pixel := 1, max_depth := 0, background := ⟨1, 1, 1⟩ })
    (camera_frame hm hdirs.1 hdirs.2) 0 0
    ((({ (camera.defaults : camera ℝ) with
      samples_per_pixel := 1, max_depth := 0, background := ⟨1, 1, 1⟩ }).initialize'
      m).sample_square_stratified (fun g : Unit => ((1 / 2 : ℝ), g)) 0 0 ()).1).1
  rw [hw] at hcomp
  have hdz : ∀ a : vec3 ℝ, dot a ⟨0, 0, 1⟩ = a.z := fun a => by simp [dot]
  rw [hdz] at hcomp
  obtain ⟨hqn, hqD⟩ := quad_z5_fields hm ()
  refine ⟨m, hsq, htan, hdeg, hspp, ⟨_, hgr, rfl, hcomp, ?_⟩, ?_, ?_⟩
  · exact quad_behind_miss _ hqn hqD _ rfl hcomp _
  · intro world lights
    obtain ⟨g1, hg1⟩ := (render_pixel_black m ({ (camera.defaults : camera ℝ) with
        samples_per_pixel := 1, max_depth := 0, background := ⟨1, 1, 1⟩ })
      example_material (fun g : Unit => (true, g))
      ⟨⟨0, 0, 0⟩, ⟨0, 0, 0⟩, (), 0, 0, 0, false⟩ (fun g : Unit => ((1 / 2 : ℝ), g))
      (fun _ _ g => ((0 : ℝ), g)) 0 world lights 0 0 () rfl).2
      (fun s_i s_j g1 => by
        rw [get_ray_no_defocus m _ _ _ _ _ _ _ _ _ (le_refl (0 : ℝ))]
        exact Option.noConfusion)
    exact hg1
  · intro h
    have hx := congrArg vec3.x h
    simp [camera.defaults] at hx

/-- With at least one sample per pixel the side `sqrt_spp` of the sample grid
is at least 1, so `pixel_samples_scale` and `recip_sqrt_spp` divide by a
non-zero number. -/
theorem sqrt_spp_pos [FloorRing α] {m : rtweekend α} (hm : m.sqrt_ok) (cam : camera α)
    (hspp : 1 ≤ cam.samples_per_pixel) : 1 ≤ (cam.initialize' m).sqrt_spp := by
  show 1 ≤ double_to_int (m.sqrt (cam.samples_per_pixel : α))
  have hx : (1 : α) ≤ (cam.samples_per_pixel : α) := by exact_mod_cast hspp
  obtain ⟨h0, h1⟩ := hm _ (le_trans zero_le_one hx)
  have hs : (1 : α) ≤ m.sqrt (cam.samples_per_pixel : α) := by
    by_contra hc
    push_neg at hc
    nlinarith
  unfold double_to_int
  rw [if_pos h0]
  exact Int.le_floor.mpr (by exact_mod_cast hs)

/-- C12, amended: when the camera's `max_depth` is 0 the colour `render`
computes for a pixel is black `(0, 0, 0)`, for every pixel, every scene, every
background colour and every sample count `≥ 1`, whether or not the primary
rays strike the light: `ray_color` returns black for every primary ray.  The
sample grid has a side `sqrt_spp ≥ 1`, so the scale of the pixel divides by a
non-zero number.  The colour is computed whenever `get_ray` returns for the
samples of the pixel, as it always does when `defocus_angle ≤ 0`. -/
theorem render_zero_depth_black {M G : Type} [FloorRing α] (m : rtweekend α)
    (hm : m.sqrt_ok) (cam : camera α)
    (mats : M → material α M G) (choose : G → Bool × G) (rec0 : hit_record α M)
    (random_double : G → α × G) (random_double_range : α → α → G → α × G) (fuel : Nat)
    (world lights : hittable α M G) (i j : Int) (g : G) (hdepth : cam.max_depth = 0)
    (hspp : 1 ≤ cam.samples_per_pixel) :
    (1 ≤ (cam.initialize' m).sqrt_spp ∧
      (((cam.initialize' m).sqrt_spp * (cam.initialize' m).sqrt_spp : Int) : α) ≠ 0 ∧
      (cam.initialize' m).pixel_samples_scale
        = 1.0 / (((cam.initialize' m).sqrt_spp * (cam.initialize' m).sqrt_spp : Int) : α)) ∧
    (∀ (r : ray α) (g1 : G),
      (cam.initialize' m).ray_color mats choose rec0 r ((cam.initialize' m).max_depth : α) world
        lights g1 = (⟨0, 0, 0⟩, g1)) ∧
    (∀ c, cam.render_pixel m mats choose rec0 random_double random_double_range fuel world
        lights i j g = some c → c.1 = ⟨0, 0, 0⟩) ∧
    ((∀ (s_i s_j : Int) (g1 : G),
        (cam.initialize' m).get_ray random_double random_double_range fuel i j s_i s_j g1
          ≠ none) →
      ∃ g1, cam.render_pixel m mats choose rec0 random_double random_double_range fuel world
        lights i j g = some (⟨0, 0, 0⟩, g1)) ∧
    (cam.defocus_angle ≤ 0 →
      ∃ g1, cam.render_pixel m mats choose rec0 random_double random_double_range fuel world
        lights i j g = some (⟨0, 0, 0⟩, g1)) := by
  obtain ⟨h1, h2⟩ := render_pixel_black m cam mats choose rec0 random_double
    random_double_range fuel world lights i j g hdepth
  have hgrid := sqrt_spp_pos hm cam hspp
  refine ⟨⟨hgrid, ?_, rfl⟩, fun r g1 => ?_, h1, h2, fun hdef => h2 (fun s_i s_j g1 => ?_)⟩
  · have hpos : 0 < (cam.initialize' m).sqrt_spp * (cam.initialize' m).sqrt_spp :=
      mul_pos (by omega) (by omega)
    exact_mod_cast ne_of_gt hpos
  · have hd : ((cam.initialize' m).max_depth : α) ≤ 0 := by
      show ((cam.max_depth : Int) : α) ≤ 0
      rw [hdepth]; simp
    rw [camera.ray_color, dif_pos hd]
  · rw [get_ray_no_defocus m cam random_double random_double_range fuel i j s_i s_j g1 hdef]
    exact Option.noConfusion

/-- C12 over the reals: the default camera (10 samples per pixel) with
`max_depth = 0` and the background `(1, 1, 1)`; the pixel `(0, 0)` of the
example scene is black. -/
theorem render_zero_depth_black_witness :
    ∃ m : rtweekend ℝ, m.sqrt = Real.sqrt ∧
      ({ (camera.defaults : camera ℝ) with max_depth := 0, background := ⟨1, 1, 1⟩ }).max_depth
        = 0 ∧
      1 ≤ ({ (camera.defaults : camera ℝ) with
        max_depth := 0, background := ⟨1, 1, 1⟩ }).samples_per_pixel ∧
      ∃ g1, ({ (camera.defaults : camera ℝ) with
            max_depth := 0, background := ⟨1, 1, 1⟩ }).render_pixel
          m example_material (fun g : Unit => (true, g))
          ⟨⟨0, 0, 0⟩, ⟨0, 0, 0⟩, (), 0, 0, 0, false⟩ (fun g : Unit => ((1 / 2 : ℝ), g))
          (fun _ _ g => ((0 : ℝ), g)) 0 example_wall example_light 0 0 ()
        = some (⟨0, 0, 0⟩, g1) := by
  obtain ⟨m, hsq, hm⟩ := real_env
  exact ⟨m, hsq, rfl, by decide,
    (render_zero_depth_black m hm
      ({ (camera.defaults : camera ℝ) with max_depth := 0, background := ⟨1, 1, 1⟩ })
      example_material (fun g : Unit => (true, g))
      ⟨⟨0, 0, 0⟩, ⟨0, 0, 0⟩, (), 0, 0, 0, false⟩ (fun g : Unit => ((1 / 2 : ℝ), g))
      (fun _ _ g => ((0 : ℝ), g)) 0 example_wall example_light 0 0 () rfl
      (by decide)).2.2.2.2 (le_refl 0)⟩

/-! ## C21: the termination of `ray_color` and its cost -/

/-- The counted evaluation returns what `ray_color` returns, its invocations
form one chain, and the chain and the hit tests stay within `⌈depth⌉₊`. -/
theorem ray_color_counted_bounds {M G : Type} [FloorRing α] (cam : camera α)
    (mats : M → material α M G) (choose : G → Bool × G) (rec0 : hit_record α M)
    (world lights : hittable α M G) (n : Nat) :
    ∀ (r : ray α) (depth : α) (g : G), Nat.ceil depth ≤ n →
      (cam.ray_color_counted mats choose rec0 r depth world lights g).1
        = cam.ray_color mats choose rec0 r depth world lights g ∧
      (cam.ray_color_counted mats choose rec0 r depth world lights g).2.calls
        = (cam.ray_color_counted mats choose rec0 r depth world lights g).2.nesting + 1 ∧
      (cam.ray_color_counted mats choose rec0 r depth world lights g).2.nesting
        ≤ Nat.ceil depth ∧
      (cam.ray_color_counted mats choose rec0 r depth world lights g).2.hit_tests
        ≤ Nat.ceil depth := by
  induction n with
  | zero =>
    intro r depth g hn
    have hd : depth ≤ 0 := Nat.ceil_eq_zero.mp (Nat.le_zero.mp hn)
    rw [camera.ray_color_counted, dif_pos hd, camera.ray_color, dif_pos hd]
    exact ⟨rfl, rfl, Nat.zero_le _, Nat.zero_le _⟩
  | succ n ih =>
    intro r depth g hn
    by_cases hd : depth ≤ 0
    · rw [camera.ray_color_counted, dif_pos hd, camera.ray_color, dif_pos hd]
      exact ⟨rfl, rfl, Nat.zero_le _, Nat.zero_le _⟩
    · have hdec := ray_color_decreasing hd
      have hlt : Nat.ceil (depth - 1) ≤ n := by omega
      have hpos : 1 ≤ Nat.ceil depth := by omega
      rw [camera.ray_color_counted, dif_neg hd, camera.ray_color, dif_neg hd]
      rcases hhit : (world.hit r ⟨xdouble.fin 0.001, infinity⟩ rec0).1 with _ | _
      · simp only [hhit]
        exact ⟨by simp, by simp, Nat.zero_le _, by simpa using hpos⟩
      · simp only [hhit]
        rcases hsc : ((mats (world.hit r ⟨xdouble.fin 0.001, infinity⟩ rec0).2.mat).scatter r
            (world.hit r ⟨xdouble.fin 0.001, infinity⟩ rec0).2 g).1 with _ | srec
        · simp only [hsc]
          exact ⟨by simp, by simp, Nat.zero_le _, by simpa using hpos⟩
        · simp only [hsc]
          rcases hskip : srec.skip_pdf with _ | _
          · simp only [hskip, Bool.not_true, Bool.false_eq_true, if_false]
            obtain ⟨e1, e2, e3, e4⟩ := ih
              ⟨(world.hit r ⟨xdouble.fin 0.001, infinity⟩ rec0).2.p,
                ((mixture_pdf choose
                  (hittable_pdf lights (world.hit r ⟨xdouble.fin 0.001, infinity⟩ rec0).2.p)
                  srec.pdf_ptr).generate
                  ((mats (world.hit r ⟨xdouble.fin 0.001, infinity⟩ rec0).2.mat).scatter r
                    (world.hit r ⟨xdouble.fin 0.001, infinity⟩ rec0).2 g).2).1⟩
              (depth - 1)
              ((mixture_pdf choose
                (hittable_pdf lights (world.hit r ⟨xdouble.fin 0.001, infinity⟩ rec0).2.p)
                srec.pdf_ptr).generate
                ((mats (world.hit r ⟨xdouble.fin 0.001, infinity⟩ rec0).2.mat).scatter r
                  (world.hit r ⟨xdouble.fin 0.001, infinity⟩ rec0).2 g).2).2 hlt
            refine ⟨?_, ?_, ?_, ?_⟩
            · rw [e1]
            · show _ + 1 = _ + 1 + 1
              rw [e2]
            · show _ + 1 ≤ _
              omega
            · show _ + 1 ≤ _
              omega
          · simp only [hskip, Bool.not_true, Bool.false_eq_true, if_false, if_true]
            obtain ⟨e1, e2, e3, e4⟩ := ih srec.skip_pdf_ray (depth - 1)
              ((mats (world.hit r ⟨xdouble.fin 0.001, infinity⟩ rec0).2.mat).scatter r
                (world.hit r ⟨xdouble.fin 0.001, infinity⟩ rec0).2 g).2 hlt
            refine ⟨?_, ?_, ?_, ?_⟩
            · rw [e1]
            · show _ + 1 = _ + 1 + 1
              rw [e2]
            · show _ + 1 ≤ _
              omega
            · show _ + 1 ≤ _
              omega

theorem nat_ceil_eq_max [FloorRing α] (depth : α) :
    ((Nat.ceil depth : Nat) : Int) = max 0 (Int.ceil depth) := by
  rw [← Int.ceil_toNat, Int.toNat_eq_max, max_comm]

/-- C21: `ray_color` terminates for every `depth`, scene and material: each
recursive call lowers the measure `⌈depth⌉₊`, the counted evaluation returns
the value of `ray_color`, every invocation makes at most one recursive call
(the invocations are one more than the deepest nesting), the nesting of
recursive calls started with `depth = d` is at most `max(0, ⌈d⌉)` and so is
the number of hit tests; started by `render` with `depth = max_depth = m` the
hit tests along the path of a ray are at most `max(0, m)`, which is `m` for
`m ≥ 0`. -/
theorem ray_color_terminates_within_depth {M G : Type} [FloorRing α] (cam : camera α)
    (mats : M → material α M G) (choose : G → Bool × G) (rec0 : hit_record α M) (r : ray α)
    (depth : α) (world lights : hittable α M G) (g : G) :
    (¬ depth ≤ 0 → Nat.ceil (depth - 1) < Nat.ceil depth) ∧
    (cam.ray_color_counted mats choose rec0 r depth world lights g).1
      = cam.ray_color mats choose rec0 r depth world lights g ∧
    (cam.ray_color_counted mats choose rec0 r depth world lights g).2.calls
      = (cam.ray_color_counted mats choose rec0 r depth world lights g).2.nesting + 1 ∧
    (((cam.ray_color_counted mats choose rec0 r depth world lights g).2.nesting : Nat) : Int)
      ≤ max 0 (Int.ceil depth) ∧
    (((cam.ray_color_counted mats choose rec0 r depth world lights g).2.hit_tests : Nat) : Int)
      ≤ max 0 (Int.ceil depth) ∧
    (((cam.ray_color_counted mats choose rec0 r (cam.max_depth : α) world lights
        g).2.hit_tests : Nat) : Int) ≤ max 0 cam.max_depth ∧
    (0 ≤ cam.max_depth →
      (((cam.ray_color_counted mats choose rec0 r (cam.max_depth : α) world lights
        g).2.hit_tests : Nat) : Int) ≤ cam.max_depth) := by
  obtain ⟨h1, h2, h3, h4⟩ := ray_color_counted_bounds cam mats choose rec0 world lights
    (Nat.ceil depth) r depth g (le_refl _)
  obtain ⟨-, -, -, h5⟩ := ray_color_counted_bounds cam mats choose rec0 world lights
    (Nat.ceil (cam.max_depth : α)) r (cam.max_depth : α) g (le_refl _)
  have h6 : (((cam.ray_color_counted mats choose rec0 r (cam.max_depth : α) world lights
      g).2.hit_tests : Nat) : Int) ≤ max 0 cam.max_depth := by
    have := Int.ofNat_le.mpr h5
    rw [nat_ceil_eq_max, Int.ceil_intCast] at this
    exact this
  refine ⟨fun hd => ray_color_decreasing hd, h1, h2, ?_, ?_, h6, fun hm => ?_⟩
  · rw [← nat_ceil_eq_max]
    exact Int.ofNat_le.mpr h3
  · rw [← nat_ceil_eq_max]
    exact Int.ofNat_le.mpr h4
  · rw [max_eq_right hm] at h6
    exact h6

/-- The bound of the nesting is attained: on the example scene the evaluation
started with `depth = 1` makes one hit test and one recursive call, which
returns at `depth = 0` without a hit test. -/
theorem ray_color_counted_example :
    ((camera.defaults : camera ℚ).ray_color_counted example_material
      (fun g : Unit => (false, g)) ⟨⟨0, 0, 0⟩, ⟨0, 0, 0⟩, (), 0, 0, 0, false⟩
      ⟨⟨1, 0, 0⟩, ⟨-1, 0, 0⟩⟩ 1 example_wall example_light ()).2 = ⟨2, 1, 1⟩ := by
  have hrec : ∀ (r1 : ray ℚ) (w : hittable ℚ Unit Unit) (g1 : Unit),
      (camera.defaults : camera ℚ).ray_color_counted example_material
        (fun g : Unit => (false, g)) ⟨⟨0, 0, 0⟩, ⟨0, 0, 0⟩, (), 0, 0, 0, false⟩ r1 (1 - 1)
        w example_light g1 = ((⟨0, 0, 0⟩, g1), ⟨1, 0, 0⟩) := by
    intro r1 w g1
    rw [camera.ray_color_counted, dif_pos (by norm_num)]
  rw [camera.ray_color_counted, dif_neg (by norm_num)]
  simp only [example_wall, example_material, Bool.not_true, Bool.false_eq_true, if_false]
  rw [hrec]

/-! ## C22: `random_on_hemisphere` -/

/-- What `random_on_hemisphere` returns for the sample `s` of
`random_unit_vector`: `-s` when `dot(normal, s) < 1` and `s` otherwise. -/
theorem random_on_hemisphere_of_sample {G : Type} (m : rtweekend α)
    (random_double_range : α → α → G → α × G) (fuel : Nat) (normal : vec3 α) (g g1 : G)
    (s : vec3 α) (hs : random_unit_vector m random_double_range fuel g = some (s, g1)) :
    random_on_hemisphere m random_double_range fuel normal g
      = if dot normal s < 1 then some (-s, g1) else some (s, g1) := by
  unfold random_on_hemisphere
  rw [hs]

/-- C22 fails on the code: over the reals, for the unit normal `(0, 0, 1)` and
the draws `0.3, 0, 0.4` of `random_double(-1, 1)`, `random_unit_vector` returns
the unit vector `s = (0.6, 0, 0.8)` and `random_on_hemisphere` returns
`-s = (-0.6, 0, -0.8)`, whose dot product with the normal is `-0.8 < 0`. -/
theorem random_on_hemisphere_leaves_hemisphere :
    ∃ m : rtweekend ℝ, m.sqrt = Real.sqrt ∧
      (⟨0, 0, 1⟩ : vec3 ℝ).length_squared = 1 ∧
      random_unit_vector m
        (fun _ _ (g : Nat) => ((if g = 0 then 0.3 else if g = 1 then 0 else 0.4 : ℝ), g + 1))
        1 0 = some (⟨0.6, 0, 0.8⟩, 3) ∧
      (⟨0.6, 0, 0.8⟩ : vec3 ℝ).length_squared = 1 ∧
      random_on_hemisphere m
        (fun _ _ (g : Nat) => ((if g = 0 then 0.3 else if g = 1 then 0 else 0.4 : ℝ), g + 1))
        1 ⟨0, 0, 1⟩ 0 = some (⟨-0.6, 0, -0.8⟩, 3) ∧
      dot (⟨0, 0, 1⟩ : vec3 ℝ) ⟨-0.6, 0, -0.8⟩ = -0.8 ∧
      dot (⟨0, 0, 1⟩ : vec3 ℝ) ⟨-0.6, 0, -0.8⟩ < 0 := by
  obtain ⟨m, hsq, hm⟩ := real_env
  have hp : vec3.random
      (fun _ _ (g : Nat) => ((if g = 0 then 0.3 else if g = 1 then 0 else 0.4 : ℝ), g + 1))
      (-1) 1 0 = (⟨0.3, 0, 0.4⟩, 3) := by
    simp [vec3.random]
  have hl : (⟨0.3, 0, 0.4⟩ : vec3 ℝ).length_squared = 0.5 * 0.5 := by
    simp only [vec3.length_squared]; norm_num
  have hs : random_unit_vector m
      (fun _ _ (g : Nat) => ((if g = 0 then 0.3 else if g = 1 then 0 else 0.4 : ℝ), g + 1))
      1 0 = some (⟨0.6, 0, 0.8⟩, 3) := by
    unfold random_unit_vector
    simp only [hp, hl]
    rw [sqrt_mul_self hm (by norm_num : (0 : ℝ) ≤ 0.5)]
    rw [if_pos (by constructor <;> norm_num)]
    congr 2
    ext <;> simp <;> norm_num
  have hd : dot (⟨0, 0, 1⟩ : vec3 ℝ) ⟨-0.6, 0, -0.8⟩ = -0.8 := by simp [dot]
  refine ⟨m, hsq, by simp [vec3.length_squared], hs, ?_, ?_, hd, ?_⟩
  · simp only [vec3.length_squared]; norm_num
  · rw [random_on_hemisphere_of_sample m _ 1 ⟨0, 0, 1⟩ 0 3 ⟨0.6, 0, 0.8⟩ hs,
      if_pos (by simp only [dot]; norm_num)]
    congr 2
    ext <;> simp
  · rw [hd]; norm_num

end PathTracing
